import Mathlib

/-!
Verification of the video library application's core engine against its
specification.  The definitions below are a shallow embedding of the
TypeScript source: the in-memory LRU scrub-preview cache (`scrubCache` in
the app component), the persistent store service (`dbService`), the library
synchronization pass (`scanFiles`), the undo/redo edit history
(`handleUpdateVideo` / `handleUndo` / `handleRedo`), playlist import
(`handleImportPlaylist`) and on-demand thumbnail regeneration
(`handleRegenerateThumbnails`).  JavaScript `Map` objects are modelled as
association lists in insertion order (a JS `Map` iterates keys in insertion
order; `map.set` on an existing key updates the value in place, keeping the
key's position, while `map.set` on a fresh key appends at the end).
-/

set_option autoImplicit false
set_option linter.unusedSectionVars false

namespace VideoLib

/-! ## JavaScript `Map` primitives (association lists in insertion order) -/

section MapPrims

variable {K V : Type} [DecidableEq K]

/-- `map.get k`: the value of the first (under the key-uniqueness invariant,
the only) entry with key `k`. -/
def mapFind (k : K) : List (K × V) → Option V
  | [] => none
  | e :: rest => if e.1 = k then some e.2 else mapFind k rest

/-- `map.delete k`: removes the entry with key `k` (all entries with that
key; a JS `Map` holds at most one). -/
def mapErase (k : K) (l : List (K × V)) : List (K × V) :=
  l.filter (fun e => decide (e.1 ≠ k))

/-- `map.set k v`: if `k` is present, update its value in place (keeping its
position in insertion order); otherwise append the new entry at the end. -/
def mapSet (k : K) (v : V) (l : List (K × V)) : List (K × V) :=
  if k ∈ l.map Prod.fst then l.map (fun e => if e.1 = k then (k, v) else e)
  else l ++ [(k, v)]

end MapPrims

/-! ## The scrub-preview LRU cache (`scrubCache`)

The source builds a closure over `const cache = new Map<string, string[]>()`
with `maxSize = 150`:

* `get(key)`: looks the key up; if found, deletes and re-inserts the entry
  (promoting it to the most-recently-used, i.e. last, position) and returns
  the value (a found value is a JS array and hence always truthy).
* `set(key, value)`: if `cache.size >= maxSize`, deletes the entry of
  `cache.keys().next().value` (the first key in insertion order); then
  `cache.set(key, value)`.
* `delete(key)` and `clear()` are the plain `Map` operations.

The cache logic uses its key and value types only through equality, so the
embedding is parametric in them; the source instantiates keys with record
identifiers (strings) and values with preview image lists. -/

/-- The fixed capacity of the scrub cache (`const maxSize = 150`). -/
def scrubMaxSize : Nat := 150

section Scrub

variable {K V : Type} [DecidableEq K]

/-- `scrubCache.get`: returns the new cache state and the result. -/
def scrubGet (k : K) (l : List (K × V)) : List (K × V) × Option V :=
  match mapFind k l with
  | some item => (mapSet k item (mapErase k l), some item)
  | none => (l, none)

/-- `scrubCache.set`: evicts the entry of the first key when at capacity,
then performs a `Map.set`. -/
def scrubSet (k : K) (v : V) (l : List (K × V)) : List (K × V) :=
  mapSet k v
    (if scrubMaxSize ≤ l.length then
      match l.head? with
      | some e => mapErase e.1 l
      | none => l
    else l)

/-- `scrubCache.delete`. -/
def scrubDelete (k : K) (l : List (K × V)) : List (K × V) :=
  mapErase k l

/-- One user-visible operation on the scrub cache. -/
inductive CacheOp (K V : Type) where
  | get (k : K)
  | set (k : K) (v : V)
  | del (k : K)
  | clear
  deriving DecidableEq, Repr

/-- The state transition of one cache operation. -/
def scrubStep : CacheOp K V → List (K × V) → List (K × V)
  | .get k, l => (scrubGet k l).1
  | .set k v, l => scrubSet k v l
  | .del k, l => scrubDelete k l
  | .clear, _ => []

/-- Run an interleaving of cache operations from the empty cache. -/
def scrubRun (ops : List (CacheOp K V)) : List (K × V) :=
  ops.foldl (fun l op => scrubStep op l) []

end Scrub

/-! ### Instrumented (ghost-timestamped) cache semantics

To express "least-recently-accessed" we run the same transitions while
recording, for every entry, the time (operation index) of its last access,
where an access is an insertion of the key or a successful `get` of it (the
source promotes exactly on those events; a `set` overwrite keeps both the
position and the stamp).  The projection that forgets the stamps maps this
semantics onto the source embedding above (`scrubRunT_proj`). -/

section ScrubT

variable {K V : Type} [DecidableEq K]

/-- Timestamped lookup. -/
def mapFindT (k : K) : List (K × V × Nat) → Option (V × Nat)
  | [] => none
  | e :: rest => if e.1 = k then some e.2 else mapFindT k rest

/-- Timestamped erase. -/
def mapEraseT (k : K) (l : List (K × V × Nat)) : List (K × V × Nat) :=
  l.filter (fun e => decide (e.1 ≠ k))

/-- Timestamped `Map.set`: an overwrite keeps position and stamp, a fresh
key is appended with the current time as its stamp. -/
def mapSetT (k : K) (v : V) (t : Nat) (l : List (K × V × Nat)) : List (K × V × Nat) :=
  if k ∈ l.map Prod.fst then l.map (fun e => if e.1 = k then (k, v, e.2.2) else e)
  else l ++ [(k, v, t)]

/-- Timestamped `get`: a hit re-inserts the entry with the current time. -/
def scrubGetT (k : K) (t : Nat) (l : List (K × V × Nat)) : List (K × V × Nat) :=
  match mapFindT k l with
  | some item => mapEraseT k l ++ [(k, item.1, t)]
  | none => l

/-- Timestamped `set`. -/
def scrubSetT (k : K) (v : V) (t : Nat) (l : List (K × V × Nat)) : List (K × V × Nat) :=
  mapSetT k v t
    (if scrubMaxSize ≤ l.length then
      match l.head? with
      | some e => mapEraseT e.1 l
      | none => l
    else l)

/-- Timestamped step. -/
def scrubStepT : CacheOp K V → Nat → List (K × V × Nat) → List (K × V × Nat)
  | .get k, t, l => scrubGetT k t l
  | .set k v, t, l => scrubSetT k v t l
  | .del k, _, l => mapEraseT k l
  | .clear, _, _ => []

/-- Run the timestamped semantics from the empty cache, stamping the `i`-th
operation with time `i`. -/
def scrubRunTAux (ops : List (CacheOp K V)) (t : Nat) (l : List (K × V × Nat)) :
    List (K × V × Nat) :=
  match ops with
  | [] => l
  | op :: rest => scrubRunTAux rest (t + 1) (scrubStepT op t l)

/-- Run the timestamped semantics from the empty cache. -/
def scrubRunT (ops : List (CacheOp K V)) : List (K × V × Nat) :=
  scrubRunTAux ops 0 []

/-- Forget the ghost stamps. -/
def projT (l : List (K × V × Nat)) : List (K × V) :=
  l.map (fun e => (e.1, e.2.1))

/-- The keys of a timestamped cache state, in insertion order. -/
def keysT (l : List (K × V × Nat)) : List K := l.map Prod.fst

/-- The last-access stamps of a timestamped cache state, in insertion order. -/
def stampsT (l : List (K × V × Nat)) : List Nat := l.map (fun e => e.2.2)

/-- Ghost invariant: keys are unique, last-access stamps strictly increase
from the front (least recently accessed) to the back (most recently
accessed), and all stamps are in the past. -/
def StampsOk (t : Nat) (l : List (K × V × Nat)) : Prop :=
  (keysT l).Nodup ∧ (stampsT l).Pairwise (· < ·) ∧ ∀ e ∈ l, e.2.2 < t

end ScrubT

/-- Fill the cache with keys `0, …, n-1`, key `i` carrying value `i`. -/
def fillOps (n : Nat) : List (CacheOp Nat Nat) :=
  (List.range n).map (fun i => CacheOp.set i i)

/-- Touch keys `0, …, j-1` with `get`s, in order. -/
def rotOps (j : Nat) : List (CacheOp Nat Nat) :=
  (List.range j).map (fun i => CacheOp.get i)

/-! ## The library data model (`VideoData` in `types.ts`)

The TypeScript interface has optional fields (`hearted?`, `hidden?`, …),
but `dbService` applies `applyVideoDefaults` to every loaded record, so the
code handling records sees concrete defaults.  The embedding models a
record with total fields; `Option` stands for `null`/`undefined` where the
code genuinely distinguishes those values (`thumbnail`, `duration`,
`title`, `contentHash`, `currentTime`).  Fractional JavaScript numbers
(durations and playback positions, in seconds) are modelled as rationals;
integral ones (sizes, timestamps, counters, ratings) as naturals. -/

structure VideoData where
  id : String
  relativePath : String
  thumbnail : Option String
  description : String
  rating : Nat
  seen : Bool
  tags : List String
  fileSize : Nat
  duration : Option ℚ
  lastModified : Nat
  isPlayable : Bool
  timesOpened : Nat
  dateAdded : Nat
  hearted : Bool
  hidden : Bool
  deleted : Bool
  title : Option String
  contentHash : Option String
  currentTime : Option ℚ
  notFound : Bool
  deriving DecidableEq, Repr

/-! ## The persistent store (`dbService`)

Three IndexedDB object stores: `videos` (keyPath `id`, unique index on
`relativePath`), `main_thumbnails` (keyPath `videoId`) and
`timeline_thumbnails` (keyPath `videoId`).  Each is modelled as a list of
entries; an IndexedDB `put` replaces the entry with the same key or adds a
new one. -/

structure DBState where
  videos : List VideoData
  mainThumbs : List (String × String)
  timelineThumbs : List (String × List String)
  deriving DecidableEq, Repr

/-- `store.put` on the `videos` store (keyPath `id`): replace the record
with the same identifier, or add the record. -/
def putVideo (v : VideoData) : List VideoData → List VideoData
  | [] => [v]
  | w :: ws => if w.id = v.id then v :: ws else w :: putVideo v ws

/-- `const { thumbnail, ...videoMetadata } = video`: the metadata written
to the `videos` store never carries the thumbnail payload. -/
def stripThumb (v : VideoData) : VideoData := { v with thumbnail := none }

/-- JS `x || y` on naturals: `x` unless it is falsy (zero). -/
def jsOrNat (x y : Nat) : Nat := if x = 0 then y else x

/-- JS `x || null` on an optional string: a missing value stays null and
a (falsy) empty string collapses to null. -/
def strOrNull (s : Option String) : Option String :=
  match s with
  | some t => if t = "" then none else some t
  | none => none

/-- `applyVideoDefaults`: on records with total fields the `??` clauses
and the `x || 0` / `b || false` clauses are identities, so the remaining
load-time effects are `thumbnail: null` ("always null on initial load,
fetched later"), the backward-compatibility default `dateAdded:
video.dateAdded || video.lastModified || 0`, and `contentHash:
video.contentHash || null`. -/
def applyVideoDefaults (v : VideoData) : VideoData :=
  { v with
    thumbnail := none
    dateAdded := jsOrNat (jsOrNat v.dateAdded v.lastModified) 0
    contentHash := strOrNull v.contentHash }

/-- `dbService.upsertVideo`: one transaction that writes the metadata
record without its thumbnail and, only when the thumbnail payload is
non-null, the primary-thumbnail entry. -/
def upsertVideo (v : VideoData) (db : DBState) : DBState :=
  { db with
    videos := putVideo (stripThumb v) db.videos
    mainThumbs :=
      match v.thumbnail with
      | some t => mapSet v.id t db.mainThumbs
      | none => db.mainThumbs }

/-- `dbService.updateVideo` delegates to `upsertVideo`. -/
def updateVideo (v : VideoData) (db : DBState) : DBState := upsertVideo v db

/-- `dbService.batchUpdateVideos`: one transaction over the `videos` store
only; every record is stripped of its thumbnail field before `put`. -/
def batchUpdateVideos (vs : List VideoData) (db : DBState) : DBState :=
  { db with videos := vs.foldl (fun acc v => putVideo (stripThumb v) acc) db.videos }

/-- `dbService.getAllVideos`, defaults applied on load. -/
def getAllVideos (db : DBState) : List VideoData := db.videos.map applyVideoDefaults

/-- `dbService.deleteTimelineThumbnails`. -/
def deleteTimelineThumbnails (videoId : String) (db : DBState) : DBState :=
  { db with timelineThumbs := mapErase videoId db.timelineThumbs }

/-! ## The sync pass (`scanFiles`) -/

/-- One observed file: its folder-relative path (`webkitRelativePath`),
its basename (`file.name`), byte size and last-modified timestamp. -/
structure FileEntry where
  relativePath : String
  name : String
  size : Nat
  lastModified : Nat
  deriving DecidableEq, Repr

/-- JS `existingVideo?.duration || null`: a missing record, a null
duration and a (falsy) zero duration all collapse to null. -/
def durOrNull (d : Option ℚ) : Option ℚ :=
  match d with
  | some q => if q = 0 then none else some q
  | none => none

/-- JS `x || y` on strings: `x` unless it is falsy (empty). -/
def jsOrString (x y : String) : String := if x = "" then y else x

/-- Lookup in a JS `Map` built from a keyed list of entries (`new
Map(list.map(x => [key(x), x]))`): a later entry with the same key
overwrites an earlier one, so the last entry with the key wins. -/
def lookupLast {α : Type} (key : α → String) : List α → String → Option α
  | [], _ => none
  | x :: xs, i =>
    match lookupLast key xs i with
    | some y => some y
    | none => if key x = i then some x else none

/-- `new Map(existingVideos.map(v => [v.relativePath, v]))` lookup. -/
def lookupByPath (vs : List VideoData) (p : String) : Option VideoData :=
  lookupLast VideoData.relativePath vs p

/-- Character-list prefix test (spelled out so that it evaluates inside
the kernel). -/
def isPrefixList : List Char → List Char → Bool
  | [], _ => true
  | _ :: _, [] => false
  | c :: cs, d :: ds => c == d && isPrefixList cs ds

/-- JS `String.prototype.endsWith` over the character lists. -/
def strEndsWith (s t : String) : Bool := isPrefixList t.data.reverse s.data.reverse

/-- JS `String.prototype.toLowerCase` (ASCII, as the file extensions
compared against are ASCII). -/
def strToLower (s : String) : String := String.mk (s.data.map Char.toLower)

/-- JS `String.prototype.includes` on a single character. -/
def strContains (s : String) (c : Char) : Bool := s.data.contains c

/-- `file.name.toLowerCase().endsWith('.jpg')`. -/
def isJpgName (name : String) : Bool := strEndsWith (strToLower name) ".jpg"

/-- `playableExtensions.some(ext => lowerCaseName.endsWith(ext)) ||
!file.name.includes('.')` with `playableExtensions = ['.mp4', '.ogv']`. -/
def isNativelyPlayableName (name : String) : Bool :=
  (strEndsWith (strToLower name) ".mp4" || strEndsWith (strToLower name) ".ogv")
    || !(strContains name '.')

/-- The `VideoData` literal built inside `scanFiles` for an observed file
that needs an update: the identifier comes from the existing record when
present (`existingVideo?.id || crypto.randomUUID()`), user metadata is
carried over with JS `||` defaults (note that a JS array is always truthy,
so `existingVideo?.tags || []` carries the tag list over verbatim), and
the scan facts (size, lastModified, playability, description, discovery
status) are refreshed. -/
def mkScanVideo (existingVideo : Option VideoData) (e : FileEntry) (freshId : String)
    (now : Nat) : VideoData :=
  let isJpg := isJpgName e.name
  let isPlayable := isNativelyPlayableName e.name
  { id := match existingVideo with
      | some ev => jsOrString ev.id freshId
      | none => freshId
    relativePath := e.relativePath
    rating := match existingVideo with | some ev => jsOrNat ev.rating 0 | none => 0
    seen := match existingVideo with | some ev => ev.seen || false | none => false
    tags := match existingVideo with | some ev => ev.tags | none => []
    fileSize := e.size
    duration := durOrNull (match existingVideo with | some ev => ev.duration | none => none)
    lastModified := e.lastModified
    dateAdded := match existingVideo with | some ev => jsOrNat ev.dateAdded now | none => now
    timesOpened := match existingVideo with | some ev => jsOrNat ev.timesOpened 0 | none => 0
    hearted := match existingVideo with | some ev => ev.hearted || false | none => false
    hidden := (match existingVideo with | some ev => ev.hidden | none => false) || isJpg
    deleted := match existingVideo with | some ev => ev.deleted || false | none => false
    title := match existingVideo with | some ev => ev.title | none => none
    contentHash := none
    currentTime := match existingVideo with | some ev => ev.currentTime | none => none
    isPlayable := isPlayable
    notFound := false
    description := if isPlayable then "Generating thumbnails..."
      else if isJpg then "JPG Image" else "Incompatible file format."
    thumbnail := none }

/-- The `needsUpdate`/`needsThumbProcessing` pair computed per observed
file: a missing, modified or previously-missing record needs an update
(and, when playable, a thumbnail); an up-to-date playable record with no
persisted primary thumbnail needs both, repairing a prior failed run. -/
def scanNeeds (m : String → Option VideoData) (thumbs : String → Bool)
    (e : FileEntry) : Bool × Bool :=
  match m e.relativePath with
  | none => (true, isNativelyPlayableName e.name)
  | some ev =>
    if ev.lastModified ≠ e.lastModified ∨ ev.notFound = true
    then (true, isNativelyPlayableName e.name)
    else if isNativelyPlayableName e.name && !(thumbs ev.id) then (true, true)
    else (false, false)

/-- Step 1 of `scanFiles`: walk the observed files in order, building the
batch of records to upsert and the sublist queued for thumbnail
generation.  `m` is the path-indexed map of existing records built before
the loop, `thumbs` the key set of the primary-thumbnail store, `n` the
index of the current file (used to address the identifier supply that
models `crypto.randomUUID()`). -/
def scanStep1 (m : String → Option VideoData) (thumbs : String → Bool) (now : Nat)
    (freshId : Nat → String) : List FileEntry → Nat → List VideoData × List VideoData
  | [], _ => ([], [])
  | e :: rest, n =>
    let existingVideo := m e.relativePath
    let needs := scanNeeds m thumbs e
    let step := scanStep1 m thumbs now freshId rest (n + 1)
    if needs.1 then
      let videoData := mkScanVideo existingVideo e (freshId n) now
      (videoData :: step.1, if needs.2 then videoData :: step.2 else step.2)
    else
      match existingVideo with
      | some ev =>
        if ev.duration ≠ durOrNull ev.duration ∧ durOrNull ev.duration ≠ none then
          ({ ev with duration := durOrNull ev.duration, notFound := false } :: step.1, step.2)
        else step
      | none => step

/-- Step 2 of `scanFiles`: every existing record whose path was not
observed is marked `notFound` unless it already is. -/
def scanStep2 (foundFilePaths : List String) (existingVideos : List VideoData) :
    List VideoData :=
  existingVideos.filterMap (fun v =>
    if v.relativePath ∈ foundFilePaths then none
    else if v.notFound then none
    else some { v with notFound := true })

/-- `scanFiles` as the pure transformation it performs on the store, run
to completion (the UI progress counters and the cancellation flag, which
is cleared on entry, are dropped).  Returns the store after the batch
write, together with the sublist queued for background thumbnail
generation.  `freshId n` models the `crypto.randomUUID()` call available
to the `n`-th observed file and `now` the `Date.now()` of the run. -/
def scanFiles (files : List FileEntry) (db : DBState) (freshId : Nat → String)
    (now : Nat) : DBState × List VideoData :=
  let fileEntries := files.filter (fun e => decide (e.relativePath ≠ ""))
  let foundFilePaths := fileEntries.map (fun e => e.relativePath)
  let existingVideos := getAllVideos db
  let hasThumb := fun id0 => decide (id0 ∈ db.mainThumbs.map Prod.fst)
  let step1 := scanStep1 (lookupByPath existingVideos) hasThumb now freshId fileEntries 0
  let batch2 := scanStep2 foundFilePaths existingVideos
  (batchUpdateVideos (step1.1 ++ batch2) db, step1.2)

/-! ## The edit history (`handleUpdateVideo`, `handleUndo`, `handleRedo`) -/

/-- One entry of a history batch: an identifier together with the full
prior snapshot of that record. -/
structure HistoryEntry where
  videoId : String
  state : VideoData
  deriving DecidableEq, Repr

/-- The app state fragment relevant to the edit history: the in-memory
record list, the undo and redo stacks (most recent batch last) and the
persistent store. -/
structure AppState where
  videos : List VideoData
  undoStack : List (List HistoryEntry)
  redoStack : List (List HistoryEntry)
  db : DBState
  deriving DecidableEq, Repr

/-- JS `updatedVideo.currentTime && updatedVideo.currentTime > 1`: the
saved position is defined, truthy (non-zero) and above one second. -/
def currentTimeAboveOne (ct : Option ℚ) : Bool :=
  match ct with
  | some t => if t = 0 then false else decide (t > 1)
  | none => false

/-- `videos.find(v => v.id === id)`. -/
def findById (vs : List VideoData) (id0 : String) : Option VideoData :=
  vs.find? (fun v => decide (v.id = id0))

/-- `new Map(videosToUpdate.map(v => [v.id, v]))` lookup (last wins). -/
def lookupById (vs : List VideoData) (id0 : String) : Option VideoData :=
  lookupLast VideoData.id vs id0

/-- `new Map(lastActionBatch.map(c => [c.videoId, c.state]))` lookup
(last wins). -/
def lookupHist (batch : List HistoryEntry) (id0 : String) : Option VideoData :=
  (lookupLast HistoryEntry.videoId batch id0).map HistoryEntry.state

/-- The record actually committed by the single-record path: the
requested update with the implicit seen rule applied (the source mutates
`updatedVideo.seen` in place before comparing and persisting). -/
def commitRecord (u previousState : VideoData) : VideoData :=
  if currentTimeAboveOne u.currentTime && !previousState.seen
  then { u with seen := true } else u

/-- `handleUpdateVideo` with batch-edit mode off: look up the previous
state; apply the implicit seen rule (a saved position above one second on
an unseen record sets `seen` on the very record being committed); push one
single-entry history batch and clear the redo stack only when the update
actually changes the record (the `JSON.stringify` comparison is modelled
as structural equality); write the record through `dbService.updateVideo`
and replace it in the in-memory list.  When the identifier is unknown the
record is written without touching the history. -/
def handleUpdateVideoSingle (u : VideoData) (s : AppState) : AppState :=
  match findById s.videos u.id with
  | some previousState =>
    { videos := s.videos.map (fun v =>
        if v.id = (commitRecord u previousState).id
        then commitRecord u previousState else v)
      undoStack := if decide (previousState ≠ commitRecord u previousState)
        then s.undoStack ++ [[⟨u.id, previousState⟩]] else s.undoStack
      redoStack := if decide (previousState ≠ commitRecord u previousState)
        then [] else s.redoStack
      db := updateVideo (commitRecord u previousState) s.db }
  | none =>
    { s with
      videos := s.videos.map (fun v => if v.id = u.id then u else v)
      db := updateVideo u s.db }

/-- The diff object built in batch-edit mode: for every key of the updated
record whose value differs from the previous state and that is not in the
excluded list (`id`, `currentTime`, `timesOpened`, `relativePath`,
`fileSize`, `duration`, `lastModified`, `dateAdded`, `isPlayable`,
`notFound`), the new value. -/
structure BatchChanges where
  thumbnail : Option (Option String)
  description : Option String
  rating : Option Nat
  seen : Option Bool
  tags : Option (List String)
  hearted : Option Bool
  hidden : Option Bool
  deleted : Option Bool
  title : Option (Option String)
  contentHash : Option (Option String)
  deriving DecidableEq, Repr

/-- A field enters the diff iff its value changed. -/
def diffField {α : Type} [DecidableEq α] (old new : α) : Option α :=
  if old = new then none else some new

/-- The diff of the non-excluded fields. -/
def mkBatchChanges (previousState u : VideoData) : BatchChanges :=
  { thumbnail := diffField previousState.thumbnail u.thumbnail
    description := diffField previousState.description u.description
    rating := diffField previousState.rating u.rating
    seen := diffField previousState.seen u.seen
    tags := diffField previousState.tags u.tags
    hearted := diffField previousState.hearted u.hearted
    hidden := diffField previousState.hidden u.hidden
    deleted := diffField previousState.deleted u.deleted
    title := diffField previousState.title u.title
    contentHash := diffField previousState.contentHash u.contentHash }

/-- The empty diff (`Object.keys(changes).length === 0`). -/
def emptyChanges : BatchChanges :=
  ⟨none, none, none, none, none, none, none, none, none, none⟩

/-- The special seen rule in batch mode, applied to the diff after it is
computed. -/
def applySeenRule (u previousState : VideoData) (c : BatchChanges) : BatchChanges :=
  if currentTimeAboveOne u.currentTime && !previousState.seen
  then { c with seen := some true } else c

/-- `{ ...targetVideo, ...changes }`. -/
def applyChanges (c : BatchChanges) (t : VideoData) : VideoData :=
  { t with
    thumbnail := c.thumbnail.getD t.thumbnail
    description := c.description.getD t.description
    rating := c.rating.getD t.rating
    seen := c.seen.getD t.seen
    tags := c.tags.getD t.tags
    hearted := c.hearted.getD t.hearted
    hidden := c.hidden.getD t.hidden
    deleted := c.deleted.getD t.deleted
    title := c.title.getD t.title
    contentHash := c.contentHash.getD t.contentHash }

/-- The diff computed by the batch path (`changes`), with the seen rule
folded in. -/
def batchChangesOf (u previousState : VideoData) : BatchChanges :=
  applySeenRule u previousState (mkBatchChanges previousState u)

/-- The history batch recorded by the batch path: one `(id, snapshot)`
pair per target. -/
def historyBatchOf (targets : List VideoData) : List HistoryEntry :=
  targets.map (fun t => (⟨t.id, t⟩ : HistoryEntry))

/-- The records written by the batch path (`videosToUpdate`). -/
def videosToUpdateOf (c : BatchChanges) (targets : List VideoData) : List VideoData :=
  targets.map (fun t => applyChanges c t)

/-- `handleUpdateVideo` with batch-edit mode on: compute the changed
non-excluded fields of the edited record, apply the seen rule, and if any
change remains, apply the diff uniformly to every target (the currently
displayed records, passed as a parameter), record one history batch of
all prior target states, write the batch, and clear the redo stack. -/
def handleUpdateVideoBatch (u : VideoData) (targets : List VideoData) (s : AppState) :
    AppState :=
  match findById s.videos u.id with
  | none => s
  | some previousState =>
    if batchChangesOf u previousState = emptyChanges then s
    else if (videosToUpdateOf (batchChangesOf u previousState) targets).isEmpty then s
    else
      { videos := s.videos.map (fun v =>
          (lookupById (videosToUpdateOf (batchChangesOf u previousState) targets) v.id).getD v)
        undoStack := s.undoStack ++ [historyBatchOf targets]
        redoStack := []
        db := batchUpdateVideos (videosToUpdateOf (batchChangesOf u previousState) targets) s.db }

/-- The current states of the batch's records, captured for the opposing
stack (`videos.find(...)`, entries whose record is gone filtered out). -/
def capturedStates (videos : List VideoData) (batch : List HistoryEntry) :
    List HistoryEntry :=
  batch.filterMap (fun change =>
    (findById videos change.videoId).map
      (fun v => (⟨change.videoId, v⟩ : HistoryEntry)))

/-- `handleUndo`: pop the most recent undo batch, capture the current
states of the affected records for redo, persist the popped snapshots and
replace them in the in-memory list. -/
def handleUndo (s : AppState) : AppState :=
  match s.undoStack.getLast? with
  | none => s
  | some lastActionBatch =>
    { videos := s.videos.map (fun v => (lookupHist lastActionBatch v.id).getD v)
      undoStack := s.undoStack.dropLast
      redoStack := if (capturedStates s.videos lastActionBatch).isEmpty then s.redoStack
        else s.redoStack ++ [capturedStates s.videos lastActionBatch]
      db := batchUpdateVideos (lastActionBatch.map (fun c => c.state)) s.db }

/-- `handleRedo`: the mirror of `handleUndo`. -/
def handleRedo (s : AppState) : AppState :=
  match s.redoStack.getLast? with
  | none => s
  | some lastActionBatch =>
    { videos := s.videos.map (fun v => (lookupHist lastActionBatch v.id).getD v)
      undoStack := if (capturedStates s.videos lastActionBatch).isEmpty then s.undoStack
        else s.undoStack ++ [capturedStates s.videos lastActionBatch]
      redoStack := s.redoStack.dropLast
      db := batchUpdateVideos (lastActionBatch.map (fun c => c.state)) s.db }

/-! ## Thumbnail regeneration (`handleRegenerateThumbnails`) -/

/-- The app state fragment for thumbnail regeneration: the record list,
the store, and the scrub-cache contents. -/
structure RegenState where
  videos : List VideoData
  db : DBState
  cache : List (String × List String)
  deriving DecidableEq, Repr

/-- The diagnostic text stored when the file is unavailable. -/
def regenFailMsg (relativePath : String) : String :=
  "Auto-regeneration failed for " ++ relativePath
    ++ "\nFile not available. Please re-select folder."

/-- `handleRegenerateThumbnails`: `getFileForPlayback` consults the
session file map; when the file is unavailable the handler stores the
diagnostic text on the record and returns early.  Otherwise it deletes the
stale timeline artifact, invalidates the record's cache entry, probes for
a fresh thumbnail (`videoService.generateThumbnail`, null on failure),
persists the outcome and reloads the library from the store. -/
def handleRegenerateThumbnails {F : Type} (fileMap : String → Option F)
    (generateThumbnail : F → Option String) (videoToRegen : VideoData)
    (s : RegenState) : RegenState :=
  match fileMap videoToRegen.relativePath with
  | none =>
    { s with videos := s.videos.map (fun v =>
        if v.id = videoToRegen.id
        then { v with description := regenFailMsg videoToRegen.relativePath } else v) }
  | some file =>
    let db1 := deleteTimelineThumbnails videoToRegen.id s.db
    let cache1 := scrubDelete videoToRegen.id s.cache
    let thumbnail := generateThumbnail file
    let isNowPlayable := decide (thumbnail ≠ none)
    let updatedVideo : VideoData :=
      { videoToRegen with
        thumbnail := thumbnail
        description := if isNowPlayable then "" else "Failed to regenerate thumbnail."
        isPlayable := isNowPlayable }
    let db2 := updateVideo updatedVideo db1
    { videos := getAllVideos db2, db := db2, cache := cache1 }

/-! ## Playlist import (`handleImportPlaylist`) -/

/-- A parsed JSON value. -/
inductive Json where
  | null
  | bool (b : Bool)
  | num (q : ℚ)
  | str (s : String)
  | arr (elems : List Json)
  | obj (fields : List (String × Json))

/-- `typeof id === 'string'`. -/
def Json.isStr : Json → Bool
  | .str _ => true
  | _ => false

/-- Extract a JSON string. -/
def Json.asStr : Json → Option String
  | .str s => some s
  | _ => none

/-- `handleImportPlaylist` after a file was chosen and read: `parsed` is
the `JSON.parse` result, `none` when parsing threw.  Returns the new
playlist together with a flag telling whether the error toast (rather
than the success toast) was shown. -/
def handleImportPlaylist (parsed : Option Json) (videos : List VideoData)
    (playlist : List String) : List String × Bool :=
  match parsed with
  | none => (playlist, true)
  | some j =>
    match j with
    | .arr importedIds =>
      if importedIds.all Json.isStr then
        ((importedIds.filterMap Json.asStr).filter
          (fun id0 => videos.any (fun v => decide (v.id = id0))), false)
      else (playlist, true)
    | _ => (playlist, true)

/-! ## Side conditions and concrete fixtures

`WellFormedDB` collects the invariants the store itself guarantees for the
`videos` collection: identifiers are unique (it is the keyPath) and
non-empty (they come from `crypto.randomUUID()`), relative paths are
unique (a unique index enforces this per transaction), and stored
metadata never carries a thumbnail payload (every write path strips it).
`FreshIds` states that the modelled `crypto.randomUUID()` supply yields
pairwise-distinct non-empty identifiers that do not collide with stored
ones. -/

def WellFormedDB (db : DBState) : Prop :=
  (db.videos.map VideoData.id).Nodup ∧
  (db.videos.map VideoData.relativePath).Nodup ∧
  (∀ w ∈ db.videos, w.id ≠ "") ∧
  (∀ w ∈ db.videos, w.thumbnail = none)

def FreshIds (freshId : Nat → String) (db : DBState) : Prop :=
  Function.Injective freshId ∧
  (∀ n, freshId n ≠ "") ∧
  (∀ n, ∀ w ∈ db.videos, freshId n ≠ w.id)

/-- A concrete record fixture. -/
def sampleVideo : VideoData :=
  { id := "id-1", relativePath := "movies/a.mp4", thumbnail := none,
    description := "", rating := 3, seen := false, tags := ["x"],
    fileSize := 10, duration := none, lastModified := 1, isPlayable := true,
    timesOpened := 2, dateAdded := 5, hearted := false, hidden := false,
    deleted := false, title := none, contentHash := none, currentTime := none,
    notFound := false }

/-- A concrete store fixture. -/
def sampleDB : DBState :=
  { videos := [sampleVideo], mainThumbs := [("id-1", "IMG")], timelineThumbs := [] }

/-- A user-unhidden image record, for the hidden-flag counterexamples. -/
def jpgVideo : VideoData :=
  { sampleVideo with
    id := "jpg-1"
    relativePath := "a.jpg"
    isPlayable := false
    hidden := false
    lastModified := 1 }

/-- The same image observed again with a newer modification time. -/
def jpgEntry : FileEntry :=
  { relativePath := "a.jpg", name := "a.jpg", size := 10, lastModified := 2 }

/-- A store holding only the unhidden image record. -/
def jpgDB : DBState := { videos := [jpgVideo], mainThumbs := [], timelineThumbs := [] }

/-- A previously-missing image record with a zero date-added stamp. -/
def lostJpgVideo : VideoData :=
  { jpgVideo with
    id := "jpg-2"
    notFound := true
    dateAdded := 0
    lastModified := 2 }

/-- A store holding only the previously-missing image record. -/
def lostJpgDB : DBState :=
  { videos := [lostJpgVideo], mainThumbs := [], timelineThumbs := [] }

/-- A playable record fixture for the sync witnesses. -/
def mp4Video : VideoData :=
  { sampleVideo with
    id := "mp4-1"
    relativePath := "b.mp4"
    lastModified := 3 }

/-- The corresponding observed file (unchanged on disk). -/
def mp4Entry : FileEntry :=
  { relativePath := "b.mp4", name := "b.mp4", size := 10, lastModified := 3 }

/-- A store holding the playable record and its persisted thumbnail. -/
def mp4DB : DBState :=
  { videos := [mp4Video], mainThumbs := [("mp4-1", "IMG")], timelineThumbs := [] }

/-- An identifier supply fixture for the sync witnesses. -/
def uuidFixture (n : Nat) : String := "uuid-" ++ String.mk (List.replicate n 'x')

/-- An app-state fixture whose redo stack is non-empty. -/
def c5State : AppState :=
  { videos := [sampleVideo], undoStack := [],
    redoStack := [[⟨"id-1", sampleVideo⟩]], db := sampleDB }

/-- An edit fixture: the sample record with a higher rating. -/
def ratedVideo : VideoData := { sampleVideo with rating := 5 }

/-- A regeneration-state fixture. -/
def regenState : RegenState :=
  { videos := [sampleVideo], db := sampleDB, cache := [("id-1", ["T"])] }

/-- An app-state fixture with empty history stacks. -/
def c5BaseState : AppState :=
  { videos := [sampleVideo], undoStack := [], redoStack := [], db := sampleDB }

/-- An edit fixture: the sample record with a saved position above the
seen threshold. -/
def seenVideo : VideoData := { sampleVideo with currentTime := some 2 }

/-! ### Facts about the map primitives -/

section MapLemmas

variable {K V : Type} [DecidableEq K]

theorem mapFind_mem {k : K} {v : V} {l : List (K × V)} (h : mapFind k l = some v) :
    (k, v) ∈ l := by
  induction l with
  | nil => exact absurd h (by simp [mapFind])
  | cons e rest ih =>
    obtain ⟨a, b⟩ := e
    by_cases he : a = k
    · rw [mapFind] at h
      simp only [he, if_pos] at h
      obtain rfl : b = v := Option.some.inj h
      subst he
      exact List.mem_cons_self _ _
    · rw [mapFind] at h
      simp only [if_neg he] at h
      exact List.mem_cons_of_mem _ (ih h)

theorem mapErase_not_mem_keys (k : K) (l : List (K × V)) :
    k ∉ (mapErase k l).map Prod.fst := by
  intro hmem
  obtain ⟨e, he, hk⟩ := List.mem_map.1 hmem
  have h2 := (List.mem_filter.1 he).2
  simp only [decide_eq_true_eq] at h2
  exact h2 hk

theorem mapSet_of_not_mem {k : K} (v : V) {l : List (K × V)} (h : k ∉ l.map Prod.fst) :
    mapSet k v l = l ++ [(k, v)] := by
  rw [mapSet, if_neg h]

theorem mapSet_of_mem {k : K} (v : V) {l : List (K × V)} (h : k ∈ l.map Prod.fst) :
    mapSet k v l = l.map (fun e => if e.1 = k then (k, v) else e) := by
  rw [mapSet, if_pos h]

theorem length_mapSet_le (k : K) (v : V) (l : List (K × V)) :
    (mapSet k v l).length ≤ l.length + 1 := by
  rw [mapSet]
  split
  · rw [List.length_map]
    omega
  · rw [List.length_append]
    simp

theorem length_mapErase_le (k : K) (l : List (K × V)) :
    (mapErase k l).length ≤ l.length :=
  List.length_filter_le _ _

theorem length_mapErase_lt {l : List (K × V)} {e : K × V} (he : e ∈ l) :
    (mapErase e.1 l).length < l.length := by
  induction l with
  | nil => cases he
  | cons f rest ih =>
    rw [mapErase, List.filter_cons]
    by_cases hf : f.1 = e.1
    · rw [if_neg (by simp [hf])]
      have := length_mapErase_le e.1 rest
      rw [mapErase] at this
      simp only [List.length_cons]
      omega
    · rw [if_pos (by simp [hf])]
      have hemem : e ∈ rest := by
        rcases List.mem_cons.1 he with h | h
        · exact absurd (congrArg Prod.fst h.symm) hf
        · exact h
      have := ih hemem
      rw [mapErase] at this
      simp only [List.length_cons]
      omega

end MapLemmas

/-! ### Invariants of the cache semantics -/

section ScrubInv

variable {K V : Type} [DecidableEq K]

theorem stampsOk_mono {t t' : Nat} {l : List (K × V × Nat)} (hle : t ≤ t')
    (h : StampsOk t l) : StampsOk t' l :=
  ⟨h.1, h.2.1, fun e he => lt_of_lt_of_le (h.2.2 e he) hle⟩

theorem stampsOk_sublist {t : Nat} {l l' : List (K × V × Nat)} (hs : l'.Sublist l)
    (h : StampsOk t l) : StampsOk t l' :=
  ⟨h.1.sublist (hs.map Prod.fst), h.2.1.sublist (hs.map _), fun e he => h.2.2 e (hs.subset he)⟩

theorem mapEraseT_not_mem_keys (k : K) (l : List (K × V × Nat)) :
    k ∉ keysT (mapEraseT k l) := by
  intro hmem
  obtain ⟨e, he, hk⟩ := List.mem_map.1 hmem
  have h2 := (List.mem_filter.1 he).2
  simp only [decide_eq_true_eq] at h2
  exact h2 hk

theorem stampsOk_append_in {t : Nat} {l : List (K × V × Nat)} (k : K) (v : V)
    (h : StampsOk t l) (hk : k ∉ keysT l) : StampsOk (t + 1) (l ++ [(k, v, t)]) := by
  refine ⟨?_, ?_, ?_⟩
  · unfold keysT at *
    rw [List.map_append]
    refine List.Nodup.append h.1 (by simp) ?_
    intro a ha hb
    simp only [List.map_cons, List.map_nil, List.mem_singleton] at hb
    subst hb
    exact hk ha
  · unfold stampsT at *
    rw [List.map_append]
    refine List.pairwise_append.2 ⟨h.2.1, by simp, ?_⟩
    intro a ha b hb
    simp only [List.map_cons, List.map_nil, List.mem_singleton] at hb
    subst hb
    obtain ⟨e, he, rfl⟩ := List.mem_map.1 ha
    exact h.2.2 e he
  · intro e he
    rcases List.mem_append.1 he with h1 | h1
    · exact Nat.lt_succ_of_lt (h.2.2 e h1)
    · simp only [List.mem_singleton] at h1
      subst h1
      exact Nat.lt_succ_self t

theorem stampsOk_mapSetT {t : Nat} {l : List (K × V × Nat)} (k : K) (v : V)
    (h : StampsOk t l) : StampsOk (t + 1) (mapSetT k v t l) := by
  rw [mapSetT]
  split
  · refine ⟨?_, ?_, ?_⟩
    · have hkeys : keysT (l.map fun e => if e.1 = k then (k, v, e.2.2) else e) = keysT l := by
        unfold keysT
        rw [List.map_map]
        refine List.map_congr_left ?_
        intro e _
        by_cases hek : e.1 = k <;> simp [hek]
      rw [hkeys]
      exact h.1
    · have hst : stampsT (l.map fun e => if e.1 = k then (k, v, e.2.2) else e) = stampsT l := by
        unfold stampsT
        rw [List.map_map]
        refine List.map_congr_left ?_
        intro e _
        by_cases hek : e.1 = k <;> simp [hek]
      rw [hst]
      exact h.2.1
    · intro e he
      obtain ⟨x, hx, rfl⟩ := List.mem_map.1 he
      by_cases hxk : x.1 = k
      · simp only [hxk, if_pos]
        exact Nat.lt_succ_of_lt (h.2.2 x hx)
      · simp only [if_neg hxk]
        exact Nat.lt_succ_of_lt (h.2.2 x hx)
  · next hk =>
    exact stampsOk_append_in k v h hk

theorem scrubSetT_pre_sublist (l : List (K × V × Nat)) :
    (if scrubMaxSize ≤ l.length then
      match l.head? with
      | some e => mapEraseT e.1 l
      | none => l
    else l).Sublist l := by
  split
  · cases l with
    | nil => exact List.Sublist.refl _
    | cons e rest => exact List.filter_sublist _
  · exact List.Sublist.refl l

theorem stampsOk_scrubStepT {t : Nat} {l : List (K × V × Nat)} (op : CacheOp K V)
    (h : StampsOk t l) : StampsOk (t + 1) (scrubStepT op t l) := by
  cases op with
  | get k =>
    show StampsOk (t + 1) (scrubGetT k t l)
    rw [scrubGetT]
    cases hf : mapFindT k l with
    | none => exact stampsOk_mono (Nat.le_succ t) h
    | some item =>
      exact stampsOk_append_in k item.1 (stampsOk_sublist (List.filter_sublist l) h)
        (mapEraseT_not_mem_keys k l)
  | set k v =>
    show StampsOk (t + 1) (scrubSetT k v t l)
    rw [scrubSetT]
    exact stampsOk_mapSetT k v (stampsOk_sublist (scrubSetT_pre_sublist l) h)
  | del k =>
    show StampsOk (t + 1) (mapEraseT k l)
    exact stampsOk_mono (Nat.le_succ t) (stampsOk_sublist (List.filter_sublist l) h)
  | clear =>
    show StampsOk (t + 1) ([] : List (K × V × Nat))
    exact ⟨List.nodup_nil, List.Pairwise.nil, by simp⟩

theorem stampsOk_scrubRunTAux :
    ∀ (ops : List (CacheOp K V)) (t : Nat) (l : List (K × V × Nat)),
      StampsOk t l → StampsOk (t + ops.length) (scrubRunTAux ops t l) := by
  intro ops
  induction ops with
  | nil =>
    intro t l h
    simpa [scrubRunTAux] using h
  | cons op rest ih =>
    intro t l h
    rw [scrubRunTAux]
    have harith : t + (op :: rest).length = (t + 1) + rest.length := by
      simp only [List.length_cons]
      omega
    rw [harith]
    exact ih (t + 1) (scrubStepT op t l) (stampsOk_scrubStepT op h)

theorem stampsOk_scrubRunT (ops : List (CacheOp K V)) :
    StampsOk ops.length (scrubRunT ops) := by
  have h0 : StampsOk 0 ([] : List (K × V × Nat)) :=
    ⟨List.nodup_nil, List.Pairwise.nil, by simp⟩
  have := stampsOk_scrubRunTAux ops 0 [] h0
  simpa [scrubRunT] using this

end ScrubInv

/-! ### The stamped semantics projects onto the source semantics -/

section ScrubProj

variable {K V : Type} [DecidableEq K]

theorem projT_cons (e : K × V × Nat) (rest : List (K × V × Nat)) :
    projT (e :: rest) = (e.1, e.2.1) :: projT rest := rfl

theorem projT_append (l₁ l₂ : List (K × V × Nat)) :
    projT (l₁ ++ l₂) = projT l₁ ++ projT l₂ :=
  List.map_append _ _ _

theorem projT_keys (l : List (K × V × Nat)) :
    (projT l).map Prod.fst = keysT l := by
  unfold projT keysT
  rw [List.map_map]
  rfl

theorem projT_length (l : List (K × V × Nat)) : (projT l).length = l.length :=
  List.length_map _ _

theorem projT_mapEraseT (k : K) (l : List (K × V × Nat)) :
    projT (mapEraseT k l) = mapErase k (projT l) := by
  induction l with
  | nil => rfl
  | cons e rest ih =>
    rw [mapEraseT, List.filter_cons, projT_cons, mapErase, List.filter_cons]
    by_cases he : e.1 = k
    · rw [if_neg (by simp [he]), if_neg (by simp [he])]
      rw [mapEraseT, mapErase] at ih
      exact ih
    · rw [if_pos (by simp [he]), if_pos (by simp [he]), projT_cons]
      rw [mapEraseT, mapErase] at ih
      rw [ih]

theorem mapFind_projT (k : K) (l : List (K × V × Nat)) :
    mapFind k (projT l) = (mapFindT k l).map Prod.fst := by
  induction l with
  | nil => rfl
  | cons e rest ih =>
    rw [projT_cons, mapFind, mapFindT]
    by_cases he : e.1 = k
    · simp [he]
    · simp only [if_neg he]
      exact ih

theorem projT_mapSetT (k : K) (v : V) (t : Nat) (l : List (K × V × Nat)) :
    projT (mapSetT k v t l) = mapSet k v (projT l) := by
  rw [mapSetT, mapSet]
  have hkeys : (projT l).map Prod.fst = l.map Prod.fst := projT_keys l
  by_cases hk : k ∈ l.map Prod.fst
  · rw [if_pos hk, if_pos (by rw [hkeys]; exact hk)]
    unfold projT
    rw [List.map_map, List.map_map]
    refine List.map_congr_left ?_
    intro e _
    by_cases hek : e.1 = k <;> simp [hek]
  · rw [if_neg hk, if_neg (by rw [hkeys]; exact hk)]
    unfold projT
    rw [List.map_append]
    rfl

theorem projT_scrubStepT (op : CacheOp K V) (t : Nat) (l : List (K × V × Nat)) :
    projT (scrubStepT op t l) = scrubStep op (projT l) := by
  cases op with
  | get k =>
    show projT (scrubGetT k t l) = (scrubGet k (projT l)).1
    rw [scrubGetT, scrubGet, mapFind_projT]
    cases hf : mapFindT k l with
    | none => rfl
    | some item =>
      simp only [Option.map_some']
      rw [projT_append, projT_mapEraseT,
        mapSet_of_not_mem item.1 (mapErase_not_mem_keys k (projT l))]
      rfl
  | set k v =>
    show projT (scrubSetT k v t l) = scrubSet k v (projT l)
    rw [scrubSetT, scrubSet, projT_mapSetT]
    congr 1
    by_cases hcap : scrubMaxSize ≤ l.length
    · rw [if_pos hcap, if_pos (by rw [projT_length]; exact hcap)]
      cases l with
      | nil => rfl
      | cons e rest =>
        show projT (mapEraseT e.1 (e :: rest)) = mapErase (e.1, e.2.1).1 (projT (e :: rest))
        rw [projT_mapEraseT]
    · rw [if_neg hcap, if_neg (by rw [projT_length]; exact hcap)]
  | del k => exact projT_mapEraseT k l
  | clear => rfl

theorem projT_scrubRunTAux :
    ∀ (ops : List (CacheOp K V)) (t : Nat) (l : List (K × V × Nat)),
      projT (scrubRunTAux ops t l)
        = List.foldl (fun s op => scrubStep op s) (projT l) ops := by
  intro ops
  induction ops with
  | nil => intro t l; rfl
  | cons op rest ih =>
    intro t l
    rw [scrubRunTAux, List.foldl_cons, ih, projT_scrubStepT]

theorem projT_scrubRunT (ops : List (CacheOp K V)) :
    projT (scrubRunT ops) = scrubRun ops := by
  rw [scrubRunT, scrubRun, projT_scrubRunTAux]
  rfl

theorem scrubRun_keys_nodup (ops : List (CacheOp K V)) :
    ((scrubRun ops).map Prod.fst).Nodup := by
  rw [← projT_scrubRunT, projT_keys]
  exact (stampsOk_scrubRunT ops).1

end ScrubProj

/-! ### Capacity bound and run lemmas -/

section ScrubCap

variable {K V : Type} [DecidableEq K]

theorem length_scrubStep_le {l : List (K × V)} (op : CacheOp K V)
    (h : l.length ≤ scrubMaxSize) : (scrubStep op l).length ≤ scrubMaxSize := by
  cases op with
  | get k =>
    show (scrubGet k l).1.length ≤ _
    rw [scrubGet]
    cases hf : mapFind k l with
    | none => exact h
    | some item =>
      have h1 : (mapErase k l).length < l.length := length_mapErase_lt (mapFind_mem hf)
      have h2 := length_mapSet_le k item (mapErase k l)
      show (mapSet k item (mapErase k l)).length ≤ scrubMaxSize
      omega
  | set k v =>
    show (scrubSet k v l).length ≤ _
    rw [scrubSet]
    by_cases hcap : scrubMaxSize ≤ l.length
    · rw [if_pos hcap]
      cases l with
      | nil => simp [scrubMaxSize] at hcap
      | cons e rest =>
        have h1 : (mapErase e.1 (e :: rest)).length < (e :: rest).length :=
          length_mapErase_lt (List.mem_cons_self e rest)
        have h2 := length_mapSet_le k v (mapErase e.1 (e :: rest))
        show (mapSet k v (mapErase e.1 (e :: rest))).length ≤ scrubMaxSize
        omega
    · rw [if_neg hcap]
      have h2 := length_mapSet_le k v l
      omega
  | del k => exact le_trans (length_mapErase_le k l) h
  | clear => exact Nat.zero_le _

theorem scrubRun_length_le (ops : List (CacheOp K V)) :
    (scrubRun ops).length ≤ scrubMaxSize := by
  rw [scrubRun]
  have haux : ∀ (ops' : List (CacheOp K V)) (l : List (K × V)), l.length ≤ scrubMaxSize →
      (List.foldl (fun s op => scrubStep op s) l ops').length ≤ scrubMaxSize := by
    intro ops'
    induction ops' with
    | nil => intro l h; exact h
    | cons op rest ih =>
      intro l h
      exact ih _ (length_scrubStep_le op h)
  exact haux ops [] (by simp [scrubMaxSize])

theorem scrubRunTAux_append (ops₁ ops₂ : List (CacheOp K V)) :
    ∀ (t : Nat) (l : List (K × V × Nat)),
      scrubRunTAux (ops₁ ++ ops₂) t l
        = scrubRunTAux ops₂ (t + ops₁.length) (scrubRunTAux ops₁ t l) := by
  induction ops₁ with
  | nil =>
    intro t l
    simp [scrubRunTAux]
  | cons op rest ih =>
    intro t l
    rw [List.cons_append, scrubRunTAux, scrubRunTAux, ih]
    have harith : t + (op :: rest).length = (t + 1) + rest.length := by
      simp only [List.length_cons]
      omega
    rw [harith]

theorem scrubRunT_snoc (ops : List (CacheOp K V)) (op : CacheOp K V) :
    scrubRunT (ops ++ [op]) = scrubStepT op ops.length (scrubRunT ops) := by
  rw [scrubRunT, scrubRunTAux_append, scrubRunT]
  show scrubRunTAux [op] (0 + ops.length) _ = _
  rw [Nat.zero_add]
  rfl

theorem mapEraseT_cons_of_nodup {e : K × V × Nat} {rest : List (K × V × Nat)}
    (h : (keysT (e :: rest)).Nodup) : mapEraseT e.1 (e :: rest) = rest := by
  rw [mapEraseT, List.filter_cons, if_neg (by simp)]
  refine List.filter_eq_self.2 ?_
  intro f hf
  simp only [decide_eq_true_eq]
  intro hfe
  have hnotin : e.1 ∉ keysT rest := (List.nodup_cons.1 (by simpa [keysT] using h)).1
  exact hnotin (by rw [← hfe]; exact List.mem_map_of_mem Prod.fst hf)

theorem mapErase_cons_of_nodup {e : K × V} {rest : List (K × V)}
    (h : (((e :: rest).map Prod.fst)).Nodup) : mapErase e.1 (e :: rest) = rest := by
  rw [mapErase, List.filter_cons, if_neg (by simp)]
  refine List.filter_eq_self.2 ?_
  intro f hf
  simp only [decide_eq_true_eq]
  intro hfe
  have hnotin : e.1 ∉ rest.map Prod.fst := (List.nodup_cons.1 (by simpa using h)).1
  exact hnotin (by rw [← hfe]; exact List.mem_map_of_mem Prod.fst hf)

end ScrubCap

/-! ### Step-shape lemmas and concrete eviction scenarios -/

section ScrubShape

variable {K V : Type} [DecidableEq K]

theorem scrubRun_snoc (ops : List (CacheOp K V)) (op : CacheOp K V) :
    scrubRun (ops ++ [op]) = scrubStep op (scrubRun ops) := by
  rw [scrubRun, scrubRun, List.foldl_append]
  rfl

theorem scrubGet_hit {k : K} {v : V} {l : List (K × V)} (h : mapFind k l = some v) :
    (scrubGet k l).1 = mapErase k l ++ [(k, v)] := by
  rw [scrubGet, h]
  show mapSet k v (mapErase k l) = _
  rw [mapSet_of_not_mem v (mapErase_not_mem_keys k l)]

theorem scrubSet_atCap (k : K) (v : V) (e : K × V) (rest : List (K × V))
    (hcap : scrubMaxSize ≤ (e :: rest).length) :
    scrubSet k v (e :: rest) = mapSet k v (mapErase e.1 (e :: rest)) := by
  rw [scrubSet, if_pos hcap]
  rfl

theorem scrubSet_underCap (k : K) (v : V) {l : List (K × V)}
    (h : l.length < scrubMaxSize) : scrubSet k v l = mapSet k v l := by
  rw [scrubSet, if_neg (not_le.2 h)]

theorem mapErase_cons_of_keys_ne (e : K × V) {rest : List (K × V)}
    (h : ∀ f ∈ rest, f.1 ≠ e.1) : mapErase e.1 (e :: rest) = rest := by
  rw [mapErase, List.filter_cons, if_neg (by simp)]
  exact List.filter_eq_self.2 (fun f hf => by simp [h f hf])

end ScrubShape

section ScrubScenario

theorem scrubRunT_fillOps :
    ∀ n, n ≤ scrubMaxSize →
      scrubRunT (fillOps n) = (List.range n).map (fun i => (i, i, i)) := by
  intro n
  induction n with
  | zero => intro _; rfl
  | succ m ih =>
    intro hm
    have hfill : fillOps (m + 1) = fillOps m ++ [CacheOp.set m m] := by
      rw [fillOps, List.range_succ, List.map_append, fillOps]
      rfl
    have hlen : (fillOps m).length = m := by
      rw [fillOps, List.length_map, List.length_range]
    rw [hfill, scrubRunT_snoc, ih (Nat.le_of_succ_le hm), hlen]
    show scrubSetT m m m _ = _
    have hlen2 : ((List.range m).map (fun i => (i, i, i))).length = m := by
      rw [List.length_map, List.length_range]
    rw [scrubSetT, if_neg (by simp only [hlen2, scrubMaxSize] at *; omega)]
    rw [mapSetT, if_neg ?hmem]
    case hmem =>
      intro hmem
      rw [List.map_map] at hmem
      simp at hmem
    rw [List.range_succ, List.map_append]
    rfl

theorem scrubRun_fillOps (n : Nat) (hn : n ≤ scrubMaxSize) :
    scrubRun (fillOps n) = (List.range n).map (fun i => (i, i)) := by
  rw [← projT_scrubRunT, scrubRunT_fillOps n hn, projT, List.map_map]
  rfl

theorem scrubRun_fill_rot :
    ∀ j, j ≤ 149 →
      scrubRun (fillOps 150 ++ rotOps j)
        = (List.range' j (150 - j)).map (fun i => (i, i))
          ++ (List.range' 0 j).map (fun i => (i, i)) := by
  intro j
  induction j with
  | zero =>
    intro _
    have hrot : rotOps 0 = [] := rfl
    rw [hrot, List.append_nil, scrubRun_fillOps 150 (le_refl _), List.range_eq_range']
    simp
  | succ m ih =>
    intro hm
    have hrot : rotOps (m + 1) = rotOps m ++ [CacheOp.get m] := by
      rw [rotOps, List.range_succ, List.map_append, rotOps]
      rfl
    rw [hrot, ← List.append_assoc, scrubRun_snoc, ih (by omega)]
    have hsplit : List.range' m (150 - m) = m :: List.range' (m + 1) (149 - m) := by
      have h1 : 150 - m = (149 - m) + 1 := by omega
      rw [h1, List.range'_succ]
    rw [hsplit, List.map_cons, List.cons_append]
    show (scrubGet m ((m, m) ::
      ((List.range' (m + 1) (149 - m)).map (fun i => (i, i))
        ++ (List.range' 0 m).map (fun i => (i, i))))).1 = _
    rw [scrubGet_hit (by rw [mapFind, if_pos rfl]),
      mapErase_cons_of_keys_ne (m, m) ?hne]
    case hne =>
      intro f hf
      rcases List.mem_append.1 hf with hf1 | hf1
      · obtain ⟨i, hi, rfl⟩ := List.mem_map.1 hf1
        have := (List.mem_range'_1.1 hi).1
        show i ≠ m
        omega
      · obtain ⟨i, hi, rfl⟩ := List.mem_map.1 hf1
        have := (List.mem_range'_1.1 hi).2
        show i ≠ m
        omega
    have hconcat : (List.range' 0 m).map (fun i => ((i, i) : Nat × Nat)) ++ [(m, m)]
        = (List.range' 0 (m + 1)).map (fun i => (i, i)) := by
      rw [List.range'_1_concat, List.map_append]
      simp
    rw [List.append_assoc, hconcat]
    have harith : 149 - m = 150 - (m + 1) := by omega
    rw [harith]

end ScrubScenario

/-! ### Claim C1 -/

/-- C1: for every interleaving of get/set/delete/clear operations on the
scrub-preview cache, the number of entries never exceeds the fixed capacity
of 150; and eviction is least-recently-accessed (not merely
least-recently-inserted), where an entry's access time is the time of its
insertion or of its last successful `get` (which promotes it to
most-recently-used).  Conjuncts: (1) the capacity invariant; (2) the
timestamped semantics projects onto the source semantics, so its stamps are
a sound instrumentation; (3) an insertion of a fresh key at capacity evicts
exactly the front entry, whose access stamp is minimal among all cached
entries — the least-recently-accessed one; (4) a successful `get` promotes
its key to the most-recently-used (last) position. -/
theorem c1_previewCache_capacity_and_lru_eviction :
    (∀ ops : List (CacheOp Nat Nat), (scrubRun ops).length ≤ scrubMaxSize) ∧
    (∀ ops : List (CacheOp Nat Nat), projT (scrubRunT ops) = scrubRun ops) ∧
    (∀ (ops : List (CacheOp Nat Nat)) (k v : Nat) (e : Nat × Nat × Nat)
        (rest : List (Nat × Nat × Nat)),
        scrubRunT ops = e :: rest →
        scrubMaxSize ≤ (scrubRunT ops).length →
        k ∉ keysT (scrubRunT ops) →
        scrubRunT (ops ++ [CacheOp.set k v]) = rest ++ [(k, v, ops.length)] ∧
          ∀ f ∈ scrubRunT ops, e.2.2 ≤ f.2.2) ∧
    (∀ (ops : List (CacheOp Nat Nat)) (k v s : Nat),
        mapFindT k (scrubRunT ops) = some (v, s) →
        (scrubRunT (ops ++ [CacheOp.get k])).getLast? = some (k, v, ops.length)) := by
  refine ⟨scrubRun_length_le, projT_scrubRunT, ?_, ?_⟩
  · intro ops k v e rest hl hcap hk
    have inv := stampsOk_scrubRunT ops
    rw [hl] at hcap hk inv
    constructor
    · rw [scrubRunT_snoc, hl]
      show scrubSetT k v ops.length (e :: rest) = _
      rw [scrubSetT, if_pos hcap]
      show mapSetT k v ops.length (mapEraseT e.1 (e :: rest)) = _
      rw [mapEraseT_cons_of_nodup inv.1, mapSetT, if_neg ?hfresh]
      case hfresh =>
        intro hmem
        exact hk (List.mem_cons_of_mem _ hmem)
    · intro f hf
      rw [hl] at hf
      rcases List.mem_cons.1 hf with rfl | hf1
      · exact le_refl _
      · have hpair : (e.2.2 :: stampsT rest).Pairwise (· < ·) := inv.2.1
        exact le_of_lt (List.rel_of_pairwise_cons hpair
          (List.mem_map_of_mem (fun x => x.2.2) hf1))
  · intro ops k v s hfind
    rw [scrubRunT_snoc]
    show (scrubGetT k ops.length (scrubRunT ops)).getLast? = _
    rw [scrubGetT, hfind]
    exact List.getLast?_concat _

/-- Witness for C1 at concrete inputs: filling the cache with keys 0–149
reaches exactly capacity; inserting key 150 then evicts the front entry
`(0, 0, 0)` (whose stamp 0 is minimal) and nothing else; and a `get` of key
0 from the full cache promotes it to the most-recently-used position. -/
theorem c1_previewCache_capacity_and_lru_eviction_witness :
    ((scrubRun (fillOps 150)).length ≤ scrubMaxSize) ∧
    (scrubRunT (fillOps 150)
        = (0, 0, 0) :: (List.range' 1 149).map (fun i => (i, i, i))) ∧
    (scrubRunT (fillOps 150 ++ [CacheOp.set 150 150])
        = (List.range' 1 149).map (fun i => (i, i, i)) ++ [(150, 150, 150)]) ∧
    ((scrubRunT (fillOps 150 ++ [CacheOp.get 0])).getLast? = some (0, 0, 150)) := by
  have hlen : (fillOps 150).length = 150 := by
    rw [fillOps, List.length_map, List.length_range]
  have hclosed : scrubRunT (fillOps 150)
      = (0, 0, 0) :: (List.range' 1 149).map (fun i => (i, i, i)) := by
    rw [scrubRunT_fillOps 150 (le_refl _), List.range_eq_range']
    rw [show (150 : Nat) = 149 + 1 from rfl, List.range'_succ]
    rfl
  have hcap : scrubMaxSize ≤ (scrubRunT (fillOps 150)).length := by
    rw [hclosed]
    simp [scrubMaxSize]
  have hnotin : (150 : Nat) ∉ keysT (scrubRunT (fillOps 150)) := by
    rw [hclosed, keysT]
    intro hmem
    simp only [List.map_cons, List.map_map, List.mem_cons] at hmem
    rcases hmem with h | h
    · exact absurd h (by decide)
    · obtain ⟨i, hi, hie⟩ := List.mem_map.1 h
      have := (List.mem_range'_1.1 hi).2
      have hfst : i = 150 := hie
      omega
  have h3 := c1_previewCache_capacity_and_lru_eviction.2.2.1 (fillOps 150) 150 150
    (0, 0, 0) ((List.range' 1 149).map (fun i => (i, i, i))) hclosed hcap hnotin
  have h4 := c1_previewCache_capacity_and_lru_eviction.2.2.2 (fillOps 150) 0 0 0
    (by rw [hclosed, mapFindT, if_pos rfl])
  refine ⟨c1_previewCache_capacity_and_lru_eviction.1 (fillOps 150), hclosed, ?_, ?_⟩
  · have := h3.1
    rw [hlen] at this
    exact this
  · rw [hlen] at h4
    exact h4

/-! ### Claim C10 -/

/-- C10 counterexample: with the cache at capacity holding keys 0–149 (key
0 the least-recently-used front entry), `set` of the already-present key 0
deletes and re-appends that very entry: no entry leaves the cache (the 149
other keys all remain and the length stays 150) and the overwritten key is
promoted to the most-recently-used (last) position — contradicting both
"still evicts the current least-recently-used entry" and "an overwrite via
set does not promote that key to most-recently-used". -/
theorem c10_previewCache_overwrite_counterexample :
    ((scrubRun (fillOps 150)).head? = some (0, 0)) ∧
    ((scrubRun (fillOps 150)).length = scrubMaxSize) ∧
    (scrubRun (fillOps 150 ++ [CacheOp.set 0 999])
        = (List.range' 1 149).map (fun i => (i, i)) ++ [(0, 999)]) := by
  have hclosed : scrubRun (fillOps 150)
      = (0, 0) :: (List.range' 1 149).map (fun i => (i, i)) := by
    rw [scrubRun_fillOps 150 (le_refl _), List.range_eq_range']
    rw [show (150 : Nat) = 149 + 1 from rfl, List.range'_succ]
    rfl
  refine ⟨by rw [hclosed]; rfl, by rw [hclosed]; simp [scrubMaxSize], ?_⟩
  rw [scrubRun_snoc, hclosed]
  show scrubSet 0 999 ((0, 0) :: (List.range' 1 149).map (fun i => (i, i))) = _
  rw [scrubSet_atCap 0 999 (0, 0) _ (by simp [scrubMaxSize])]
  rw [mapErase_cons_of_keys_ne (0, 0) ?hne]
  case hne =>
    intro f hf
    obtain ⟨i, hi, rfl⟩ := List.mem_map.1 hf
    have := (List.mem_range'_1.1 hi).1
    show i ≠ 0
    omega
  rw [mapSet_of_not_mem 999 ?hfresh]
  case hfresh =>
    intro hmem
    rw [List.map_map] at hmem
    obtain ⟨i, hi, hie⟩ := List.mem_map.1 hmem
    have := (List.mem_range'_1.1 hi).1
    have hi0 : i = 0 := hie
    omega

/-- C10 amended: `set` of an already-present key while the cache is at
capacity evicts the current least-recently-used entry and does not promote
the overwritten key, provided the overwritten key is not itself the
least-recently-used one (overwriting the least-recently-used key at
capacity instead deletes and re-appends it, promoting it with no net
eviction — see the counterexample).  Conjunct (1): for any reachable state
at capacity whose front (least-recently-used) entry has a different key
than the one being overwritten, the `set` removes exactly the front entry
and leaves every other key in its position (in particular the overwritten
key is not promoted).  Conjunct (2): the promised get/set interleaving —
fill keys 0–149, `get` keys 0–148 (promoting each), so the most recently
`set` key 149 sits at the front; inserting key 150 then evicts key 149,
the most recently set key. -/
theorem c10_previewCache_overwrite_amended :
    (∀ (ops : List (CacheOp Nat Nat)) (k v : Nat) (e : Nat × Nat),
        scrubMaxSize ≤ (scrubRun ops).length →
        (scrubRun ops).head? = some e →
        e.1 ≠ k →
        k ∈ (scrubRun ops).map Prod.fst →
        (scrubSet k v (scrubRun ops)).map Prod.fst
          = ((scrubRun ops).map Prod.fst).tail) ∧
    ((scrubRun ((fillOps 150 ++ rotOps 149) ++ [CacheOp.set 150 150])).map Prod.fst
        = List.range' 0 149 ++ [150]) := by
  constructor
  · intro ops k v e hcap hhead hne hkmem
    obtain ⟨rest, hl⟩ : ∃ rest, scrubRun ops = e :: rest := by
      cases hrun : scrubRun ops with
      | nil => rw [hrun] at hhead; cases hhead
      | cons f rs =>
        rw [hrun] at hhead
        exact ⟨rs, by rw [← Option.some.inj hhead]⟩
    have hnodup := scrubRun_keys_nodup ops
    rw [hl] at hcap hnodup hkmem ⊢
    rw [scrubSet_atCap k v e rest hcap, mapErase_cons_of_nodup hnodup]
    have hkrest : k ∈ rest.map Prod.fst := by
      rcases List.mem_cons.1 hkmem with h | h
      · exact absurd h.symm hne
      · exact h
    rw [mapSet_of_mem v hkrest, List.map_map, List.map_cons, List.tail_cons]
    refine List.map_congr_left ?_
    intro f hf
    by_cases hfk : f.1 = k
    · show (if f.1 = k then (k, v) else f).1 = f.1
      rw [if_pos hfk, hfk]
    · show (if f.1 = k then (k, v) else f).1 = f.1
      rw [if_neg hfk]
  · rw [scrubRun_snoc, scrubRun_fill_rot 149 (le_refl _)]
    have hone : List.range' 149 (150 - 149) = [149] := rfl
    rw [hone, List.map_cons]
    show (scrubSet 150 150
      ((149, 149) :: (List.range' 0 149).map (fun i => (i, i)))).map Prod.fst = _
    rw [scrubSet_atCap 150 150 (149, 149) _ (by simp [scrubMaxSize])]
    rw [mapErase_cons_of_keys_ne (149, 149) ?hne2]
    case hne2 =>
      intro f hf
      obtain ⟨i, hi, rfl⟩ := List.mem_map.1 hf
      have := (List.mem_range'_1.1 hi).2
      show i ≠ 149
      omega
    rw [mapSet_of_not_mem 150 ?hfresh2]
    case hfresh2 =>
      intro hmem
      rw [List.map_map] at hmem
      obtain ⟨i, hi, hie⟩ := List.mem_map.1 hmem
      have := (List.mem_range'_1.1 hi).2
      have hi150 : i = 150 := hie
      omega
    rw [List.map_append, List.map_map]
    have hid : (Prod.fst ∘ fun i : Nat => (i, i)) = fun i => i := rfl
    rw [hid, List.map_id']
    rfl

/-- Witness for C10's amended universal part at a concrete input: from the
full cache holding keys 0–149, overwriting the present non-front key 1
evicts exactly the front key 0 and promotes nothing. -/
theorem c10_previewCache_overwrite_amended_witness :
    (scrubMaxSize ≤ (scrubRun (fillOps 150)).length) ∧
    ((scrubRun (fillOps 150)).head? = some (0, 0)) ∧
    ((scrubSet 1 999 (scrubRun (fillOps 150))).map Prod.fst
      = ((scrubRun (fillOps 150)).map Prod.fst).tail) := by
  have hclosed : scrubRun (fillOps 150)
      = (0, 0) :: (List.range' 1 149).map (fun i => (i, i)) := by
    rw [scrubRun_fillOps 150 (le_refl _), List.range_eq_range']
    rw [show (150 : Nat) = 149 + 1 from rfl, List.range'_succ]
    rfl
  have hcap : scrubMaxSize ≤ (scrubRun (fillOps 150)).length := by
    rw [hclosed]
    simp [scrubMaxSize]
  have hhead : (scrubRun (fillOps 150)).head? = some ((0 : Nat), (0 : Nat)) := by
    rw [hclosed]
    rfl
  have hkmem : (1 : Nat) ∈ (scrubRun (fillOps 150)).map Prod.fst := by
    rw [hclosed, List.map_cons, List.map_map]
    refine List.mem_cons_of_mem _ ?_
    refine List.mem_map.2 ⟨1, ?_, rfl⟩
    exact List.mem_range'_1.2 ⟨le_refl _, by omega⟩
  exact ⟨hcap, hhead,
    c10_previewCache_overwrite_amended.1 (fillOps 150) 1 999 (0, 0) hcap hhead
      (by decide) hkmem⟩

/-! ### Facts about keyed lookups -/

section LookupLemmas

variable {α : Type} (key : α → String)

theorem lookupLast_eq_some {l : List α} {i : String} {x : α}
    (h : lookupLast key l i = some x) : x ∈ l ∧ key x = i := by
  induction l with
  | nil => cases h
  | cons y ys ih =>
    rw [lookupLast] at h
    cases hy : lookupLast key ys i with
    | some z =>
      rw [hy] at h
      obtain rfl := Option.some.inj h
      obtain ⟨h1, h2⟩ := ih hy
      exact ⟨List.mem_cons_of_mem _ h1, h2⟩
    | none =>
      rw [hy] at h
      by_cases hk : key y = i
      · rw [if_pos hk] at h
        obtain rfl := Option.some.inj h
        exact ⟨List.mem_cons_self _ _, hk⟩
      · rw [if_neg hk] at h
        cases h

theorem lookupLast_eq_none {l : List α} {i : String}
    (h : ∀ x ∈ l, key x ≠ i) : lookupLast key l i = none := by
  induction l with
  | nil => rfl
  | cons y ys ih =>
    rw [lookupLast, ih (fun x hx => h x (List.mem_cons_of_mem _ hx)),
      if_neg (h y (List.mem_cons_self _ _))]

theorem lookupLast_of_unique {l : List α} {i : String} {x : α}
    (hmem : x ∈ l) (hkey : key x = i) (huniq : ∀ y ∈ l, key y = i → y = x) :
    lookupLast key l i = some x := by
  induction l with
  | nil => cases hmem
  | cons y ys ih =>
    rw [lookupLast]
    by_cases hys : x ∈ ys
    · rw [ih hys (fun z hz hzk => huniq z (List.mem_cons_of_mem _ hz) hzk)]
    · have hxy : x = y := by
        rcases List.mem_cons.1 hmem with h | h
        · exact h
        · exact absurd h hys
      subst hxy
      rw [lookupLast_eq_none key ?hnone, if_pos hkey]
      case hnone =>
        intro z hz hzk
        exact hys ((huniq z (List.mem_cons_of_mem _ hz) hzk) ▸ hz)

theorem lookupLast_concat (xs : List α) (x : α) (i : String) :
    lookupLast key (xs ++ [x]) i
      = if key x = i then some x else lookupLast key xs i := by
  induction xs with
  | nil => rfl
  | cons y ys ih =>
    rw [List.cons_append, lookupLast, ih, lookupLast]
    by_cases hk : key x = i
    · rw [if_pos hk, if_pos hk]
    · rw [if_neg hk, if_neg hk]

theorem lookupLast_map {f : α → α} (hf : ∀ x, key (f x) = key x) (l : List α)
    (i : String) :
    lookupLast key (l.map f) i = (lookupLast key l i).map f := by
  induction l with
  | nil => rfl
  | cons y ys ih =>
    rw [List.map_cons, lookupLast, lookupLast, ih]
    cases lookupLast key ys i with
    | some z => rfl
    | none =>
      show (if key (f y) = i then some (f y) else none)
        = Option.map f (if key y = i then some y else none)
      rw [hf]
      by_cases hk : key y = i
      · rw [if_pos hk, if_pos hk]
        rfl
      · rw [if_neg hk, if_neg hk]
        rfl

end LookupLemmas

/-! ### Facts about `findById` -/

theorem findById_eq_some {l : List VideoData} {i : String} {v : VideoData}
    (h : findById l i = some v) : v ∈ l ∧ v.id = i := by
  rw [findById] at h
  refine ⟨List.mem_of_find?_eq_some h, ?_⟩
  have := List.find?_some h
  simpa using this

theorem findById_of_mem_nodup {l : List VideoData} {v : VideoData}
    (hnodup : (l.map VideoData.id).Nodup) (hmem : v ∈ l) :
    findById l v.id = some v := by
  induction l with
  | nil => cases hmem
  | cons w ws ih =>
    by_cases hw : w.id = v.id
    · have hvw : v = w := by
        rcases List.mem_cons.1 hmem with h | h
        · exact h
        · exfalso
          have hnot : w.id ∉ ws.map VideoData.id :=
            (List.nodup_cons.1 (by simpa using hnodup)).1
          exact hnot (hw ▸ List.mem_map_of_mem VideoData.id h)
      subst hvw
      rw [findById, List.find?_cons_of_pos _ (by simp)]
    · have hvm : v ∈ ws := by
        rcases List.mem_cons.1 hmem with h | h
        · exact absurd (congrArg VideoData.id h) (fun hh => hw hh.symm)
        · exact h
      have hns : (ws.map VideoData.id).Nodup := (List.nodup_cons.1 (by simpa using hnodup)).2
      rw [findById, List.find?_cons_of_neg _ (by simp [hw])]
      exact ih hns hvm

theorem findById_map_keyed {f : VideoData → VideoData} (hf : ∀ v, (f v).id = v.id)
    (l : List VideoData) (i : String) :
    findById (l.map f) i = (findById l i).map f := by
  induction l with
  | nil => rfl
  | cons w ws ih =>
    by_cases hw : w.id = i
    · rw [List.map_cons, findById, List.find?_cons_of_pos _ (by simp [hf, hw]),
        findById, List.find?_cons_of_pos _ (by simp [hw])]
      rfl
    · rw [List.map_cons, findById, List.find?_cons_of_neg _ (by simp [hf, hw]),
        findById, List.find?_cons_of_neg _ (by simp [hw])]
      exact ih

/-! ### Facts about `putVideo` and batch writes -/

theorem stripThumb_id (v : VideoData) : (stripThumb v).id = v.id := rfl

theorem stripThumb_eq_self {v : VideoData} (h : v.thumbnail = none) :
    stripThumb v = v := by
  cases v
  simp only [stripThumb] at *
  simp_all

theorem getAllVideos_def (db : DBState) :
    getAllVideos db = db.videos.map applyVideoDefaults := rfl

theorem mem_putVideo {w v : VideoData} {l : List VideoData} (h : w ∈ putVideo v l) :
    w ∈ l ∨ w = v := by
  induction l with
  | nil =>
    rw [putVideo] at h
    rcases List.mem_singleton.1 h with rfl
    exact Or.inr rfl
  | cons x xs ih =>
    rw [putVideo] at h
    by_cases hx : x.id = v.id
    · rw [if_pos hx] at h
      rcases List.mem_cons.1 h with rfl | h1
      · exact Or.inr rfl
      · exact Or.inl (List.mem_cons_of_mem _ h1)
    · rw [if_neg hx] at h
      rcases List.mem_cons.1 h with rfl | h1
      · exact Or.inl (List.mem_cons_self _ _)
      · rcases ih h1 with h2 | h2
        · exact Or.inl (List.mem_cons_of_mem _ h2)
        · exact Or.inr h2

theorem self_mem_putVideo (v : VideoData) (l : List VideoData) : v ∈ putVideo v l := by
  induction l with
  | nil =>
    rw [putVideo]
    exact List.mem_singleton.2 rfl
  | cons x xs ih =>
    rw [putVideo]
    by_cases hx : x.id = v.id
    · rw [if_pos hx]
      exact List.mem_cons_self _ _
    · rw [if_neg hx]
      exact List.mem_cons_of_mem _ ih

theorem mem_putVideo_of_ne {w v : VideoData} {l : List VideoData}
    (hne : w.id ≠ v.id) (h : w ∈ l) : w ∈ putVideo v l := by
  induction l with
  | nil => cases h
  | cons x xs ih =>
    rw [putVideo]
    by_cases hx : x.id = v.id
    · rw [if_pos hx]
      rcases List.mem_cons.1 h with rfl | h1
      · exact absurd hx hne
      · exact List.mem_cons_of_mem _ h1
    · rw [if_neg hx]
      rcases List.mem_cons.1 h with rfl | h1
      · exact List.mem_cons_self _ _
      · exact List.mem_cons_of_mem _ (ih h1)

theorem mem_putVideo_id {v x : VideoData} {l : List VideoData}
    (hnodup : (l.map VideoData.id).Nodup) (h : x ∈ putVideo v l) (hid : x.id = v.id) :
    x = v := by
  induction l with
  | nil =>
    rw [putVideo] at h
    exact List.mem_singleton.1 h
  | cons w ws ih =>
    rw [putVideo] at h
    by_cases hw : w.id = v.id
    · rw [if_pos hw] at h
      rcases List.mem_cons.1 h with rfl | h1
      · rfl
      · exfalso
        have hnot : w.id ∉ ws.map VideoData.id :=
          (List.nodup_cons.1 (by simpa using hnodup)).1
        exact hnot (by rw [hw, ← hid]; exact List.mem_map_of_mem VideoData.id h1)
    · rw [if_neg hw] at h
      rcases List.mem_cons.1 h with rfl | h1
      · exact absurd hid hw
      · exact ih (List.nodup_cons.1 (by simpa using hnodup)).2 h1

theorem putVideo_ids (v : VideoData) (l : List VideoData) :
    (putVideo v l).map VideoData.id
      = if v.id ∈ l.map VideoData.id then l.map VideoData.id
        else l.map VideoData.id ++ [v.id] := by
  induction l with
  | nil =>
    rw [putVideo]
    simp
  | cons w ws ih =>
    rw [putVideo]
    by_cases hw : w.id = v.id
    · rw [if_pos hw, List.map_cons, List.map_cons,
        if_pos (List.mem_cons.2 (Or.inl hw.symm))]
      rw [hw]
    · rw [if_neg hw, List.map_cons, List.map_cons, ih]
      by_cases hv : v.id ∈ ws.map VideoData.id
      · rw [if_pos hv, if_pos (List.mem_cons.2 (Or.inr hv))]
      · rw [if_neg hv, if_neg (by
          intro hmem
          rcases List.mem_cons.1 hmem with h1 | h1
          · exact hw h1.symm
          · exact hv h1)]
        rfl

theorem putVideo_nodup {v : VideoData} {l : List VideoData}
    (h : (l.map VideoData.id).Nodup) : ((putVideo v l).map VideoData.id).Nodup := by
  rw [putVideo_ids]
  split
  · exact h
  · next hv => exact List.Nodup.append h (by simp) (by
      intro a ha hb
      rcases List.mem_singleton.1 hb with rfl
      exact hv ha)

theorem putVideo_eq_of_mem {v : VideoData} {l : List VideoData}
    (hnodup : (l.map VideoData.id).Nodup) (hmem : v ∈ l) : putVideo v l = l := by
  induction l with
  | nil => cases hmem
  | cons w ws ih =>
    rw [putVideo]
    by_cases hw : w.id = v.id
    · rw [if_pos hw]
      have hvw : v = w := by
        rcases List.mem_cons.1 hmem with h | h
        · exact h
        · exfalso
          have hnot : w.id ∉ ws.map VideoData.id :=
            (List.nodup_cons.1 (by simpa using hnodup)).1
          exact hnot (hw ▸ List.mem_map_of_mem VideoData.id h)
      rw [← hvw]
    · rw [if_neg hw]
      have hvm : v ∈ ws := by
        rcases List.mem_cons.1 hmem with h | h
        · exact absurd (congrArg VideoData.id h) (fun hh => hw hh.symm)
        · exact h
      rw [ih (List.nodup_cons.1 (by simpa using hnodup)).2 hvm]

theorem findById_putVideo (v : VideoData) (l : List VideoData) (i : String) :
    findById (putVideo v l) i = if v.id = i then some v else findById l i := by
  induction l with
  | nil =>
    rw [putVideo]
    by_cases hv : v.id = i
    · rw [if_pos hv, findById, List.find?_cons_of_pos _ (by simp [hv])]
    · rw [if_neg hv, findById, List.find?_cons_of_neg _ (by simp [hv])]
      rfl
  | cons w ws ih =>
    rw [putVideo]
    by_cases hw : w.id = v.id
    · rw [if_pos hw]
      by_cases hv : v.id = i
      · rw [if_pos hv, findById, List.find?_cons_of_pos _ (by simp [hv])]
      · rw [if_neg hv, findById, List.find?_cons_of_neg _ (by simp [hv]), findById,
          List.find?_cons_of_neg _ (by
            simp only [decide_eq_true_eq]
            intro hh
            exact hv (by rw [← hw]; exact hh))]
    · rw [if_neg hw]
      by_cases hwi : w.id = i
      · rw [findById, List.find?_cons_of_pos _ (by simp [hwi]),
          if_neg (fun hv => hw (hwi.trans hv.symm)), findById,
          List.find?_cons_of_pos _ (by simp [hwi])]
      · rw [findById, List.find?_cons_of_neg _ (by simp [hwi]), findById,
          List.find?_cons_of_neg _ (by simp [hwi])]
        exact ih

theorem batchUpdate_mainThumbs (vs : List VideoData) (db : DBState) :
    (batchUpdateVideos vs db).mainThumbs = db.mainThumbs := rfl

theorem batchUpdate_timelineThumbs (vs : List VideoData) (db : DBState) :
    (batchUpdateVideos vs db).timelineThumbs = db.timelineThumbs := rfl

theorem batchUpdate_videos (vs : List VideoData) (db : DBState) :
    (batchUpdateVideos vs db).videos
      = vs.foldl (fun acc v => putVideo (stripThumb v) acc) db.videos := rfl

theorem foldl_put_nodup (vs : List VideoData) :
    ∀ (l : List VideoData), (l.map VideoData.id).Nodup →
      (((vs.foldl (fun acc v => putVideo (stripThumb v) acc) l).map VideoData.id)).Nodup := by
  induction vs with
  | nil => intro l h; exact h
  | cons v rest ih =>
    intro l h
    rw [List.foldl_cons]
    exact ih _ (putVideo_nodup h)

theorem findById_foldl_put (vs : List VideoData) :
    ∀ (l : List VideoData) (i : String),
      findById (vs.foldl (fun acc v => putVideo (stripThumb v) acc) l) i
        = match lookupLast VideoData.id (vs.map stripThumb) i with
          | some w => some w
          | none => findById l i := by
  induction vs using List.reverseRecOn with
  | nil => intro l i; rfl
  | append_singleton rest v ih =>
    intro l i
    rw [List.foldl_append, List.foldl_cons, List.foldl_nil, findById_putVideo,
      List.map_append, List.map_cons, List.map_nil, lookupLast_concat, ih]
    by_cases hv : (stripThumb v).id = i
    · rw [if_pos hv, if_pos hv]
    · rw [if_neg hv, if_neg hv]

theorem mem_foldl_put (vs : List VideoData) :
    ∀ (l : List VideoData) (w : VideoData),
      w ∈ vs.foldl (fun acc v => putVideo (stripThumb v) acc) l →
      (∃ v ∈ vs, w = stripThumb v) ∨ w ∈ l := by
  induction vs with
  | nil => intro l w h; exact Or.inr h
  | cons v rest ih =>
    intro l w h
    rw [List.foldl_cons] at h
    rcases ih _ w h with h1 | h1
    · obtain ⟨x, hx, hw⟩ := h1
      exact Or.inl ⟨x, List.mem_cons_of_mem _ hx, hw⟩
    · rcases mem_putVideo h1 with h2 | h2
      · exact Or.inr h2
      · exact Or.inl ⟨v, List.mem_cons_self _ _, h2⟩

theorem mem_foldl_put_strong (vs : List VideoData) :
    ∀ (l : List VideoData) (w : VideoData), (l.map VideoData.id).Nodup →
      w ∈ vs.foldl (fun acc v => putVideo (stripThumb v) acc) l →
      (∃ v ∈ vs, w = stripThumb v) ∨
        (w ∈ l ∧ ∀ v ∈ vs, (stripThumb v).id ≠ w.id) := by
  induction vs with
  | nil => intro l w _ h; exact Or.inr ⟨h, by simp⟩
  | cons v rest ih =>
    intro l w hnodup h
    rw [List.foldl_cons] at h
    rcases ih _ w (putVideo_nodup hnodup) h with h1 | h1
    · obtain ⟨x, hx, hw⟩ := h1
      exact Or.inl ⟨x, List.mem_cons_of_mem _ hx, hw⟩
    · obtain ⟨hmem, hrest⟩ := h1
      by_cases hid : (stripThumb v).id = w.id
      · have : w = stripThumb v := mem_putVideo_id hnodup hmem hid.symm
        exact Or.inl ⟨v, List.mem_cons_self _ _, this⟩
      · rcases mem_putVideo hmem with h2 | h2
        · refine Or.inr ⟨h2, ?_⟩
          intro x hx
          rcases List.mem_cons.1 hx with rfl | hx1
          · exact hid
          · exact hrest x hx1
        · exact Or.inl ⟨v, List.mem_cons_self _ _, h2⟩

theorem mem_foldl_put_of_no_write (vs : List VideoData) :
    ∀ (l : List VideoData) (w : VideoData), w ∈ l →
      (∀ v ∈ vs, (stripThumb v).id ≠ w.id) →
      w ∈ vs.foldl (fun acc v => putVideo (stripThumb v) acc) l := by
  induction vs with
  | nil => intro l w h _; exact h
  | cons v rest ih =>
    intro l w h hno
    rw [List.foldl_cons]
    refine ih _ w ?_ (fun x hx => hno x (List.mem_cons_of_mem _ hx))
    exact mem_putVideo_of_ne (fun hh => hno v (List.mem_cons_self _ _) hh.symm) h

theorem foldl_put_noop (vs : List VideoData) :
    ∀ (l : List VideoData), (l.map VideoData.id).Nodup →
      (∀ v ∈ vs, stripThumb v ∈ l) →
      vs.foldl (fun acc v => putVideo (stripThumb v) acc) l = l := by
  induction vs with
  | nil => intro l _ _; rfl
  | cons v rest ih =>
    intro l hnodup hmem
    rw [List.foldl_cons, putVideo_eq_of_mem hnodup (hmem v (List.mem_cons_self _ _))]
    exact ih l hnodup (fun x hx => hmem x (List.mem_cons_of_mem _ hx))

/-! ### Claim C8 -/

/-- C8: for every record upsert whose thumbnail field is null, the
primary-thumbnail collection (and likewise the timeline collection) is
left unchanged — only the metadata record is written; and a batch update
strips the thumbnail field from every record it writes and never writes
the thumbnail collections at all (every record present after the batch
either carries no thumbnail payload or was already stored before). -/
theorem c8_thumbnail_payload_independence :
    (∀ (v : VideoData) (db : DBState), v.thumbnail = none →
      (upsertVideo v db).mainThumbs = db.mainThumbs ∧
      (upsertVideo v db).timelineThumbs = db.timelineThumbs ∧
      (upsertVideo v db).videos = putVideo (stripThumb v) db.videos) ∧
    (∀ (vs : List VideoData) (db : DBState),
      (batchUpdateVideos vs db).mainThumbs = db.mainThumbs ∧
      (batchUpdateVideos vs db).timelineThumbs = db.timelineThumbs ∧
      ∀ w ∈ (batchUpdateVideos vs db).videos,
        w.thumbnail = none ∨ w ∈ db.videos) := by
  constructor
  · intro v db h
    refine ⟨?_, rfl, rfl⟩
    rw [upsertVideo, h]
  · intro vs db
    refine ⟨rfl, rfl, ?_⟩
    intro w hw
    rcases mem_foldl_put vs db.videos w hw with h | h
    · obtain ⟨x, _, rfl⟩ := h
      exact Or.inl rfl
    · exact Or.inr h

/-- Witness for C8 at concrete inputs: upserting the thumbnail-less sample
record and batch-updating a rated copy both leave the stored thumbnail
untouched. -/
theorem c8_thumbnail_payload_independence_witness :
    sampleVideo.thumbnail = none ∧
    (upsertVideo sampleVideo sampleDB).mainThumbs = sampleDB.mainThumbs ∧
    (batchUpdateVideos [ratedVideo] sampleDB).mainThumbs = sampleDB.mainThumbs := by
  refine ⟨rfl, ?_, ?_⟩
  · exact (c8_thumbnail_payload_independence.1 sampleVideo sampleDB rfl).1
  · exact (c8_thumbnail_payload_independence.2 [ratedVideo] sampleDB).1

/-! ### Claim C7 -/

/-- C7: playlist import accepts exactly the inputs that parse as a JSON
array in which every element is a string (conjunct 1: the success flag
characterises acceptance); on acceptance the playlist is replaced by the
input sequence with identifiers unknown to the library silently dropped,
relative order preserved (conjunct 2: the result is the membership filter
of the input identifiers and a sublist of them); on any other input the
existing playlist is left entirely unchanged while the error message is
shown (conjunct 3: no partial import). -/
theorem c7_playlist_import_validation :
    (∀ (parsed : Option Json) (videos : List VideoData) (playlist : List String),
      (handleImportPlaylist parsed videos playlist).2 = false ↔
        ∃ elems, parsed = some (Json.arr elems) ∧ elems.all Json.isStr = true) ∧
    (∀ (elems : List Json) (videos : List VideoData) (playlist : List String),
      elems.all Json.isStr = true →
      (handleImportPlaylist (some (Json.arr elems)) videos playlist).1
          = (elems.filterMap Json.asStr).filter
              (fun id0 => videos.any (fun v => decide (v.id = id0))) ∧
        ((handleImportPlaylist (some (Json.arr elems)) videos playlist).1).Sublist
          (elems.filterMap Json.asStr)) ∧
    (∀ (parsed : Option Json) (videos : List VideoData) (playlist : List String),
      (handleImportPlaylist parsed videos playlist).2 = true →
      (handleImportPlaylist parsed videos playlist).1 = playlist) := by
  refine ⟨?_, ?_, ?_⟩
  · intro parsed videos playlist
    constructor
    · intro h
      cases parsed with
      | none => exact absurd h (by simp [handleImportPlaylist])
      | some j =>
        cases j with
        | null => exact absurd h (by simp [handleImportPlaylist])
        | bool b => exact absurd h (by simp [handleImportPlaylist])
        | num q => exact absurd h (by simp [handleImportPlaylist])
        | str s => exact absurd h (by simp [handleImportPlaylist])
        | obj fs => exact absurd h (by simp [handleImportPlaylist])
        | arr elems =>
          refine ⟨elems, rfl, ?_⟩
          by_contra hall
          rw [handleImportPlaylist] at h
          rw [if_neg hall] at h
          cases h
    · intro h
      obtain ⟨elems, rfl, hall⟩ := h
      rw [handleImportPlaylist, if_pos hall]
  · intro elems videos playlist hall
    rw [handleImportPlaylist, if_pos hall]
    exact ⟨rfl, List.filter_sublist _⟩
  · intro parsed videos playlist h
    cases parsed with
    | none => rfl
    | some j =>
      cases j with
      | null => rfl
      | bool b => rfl
      | num q => rfl
      | str s => rfl
      | obj fs => rfl
      | arr elems =>
        rw [handleImportPlaylist] at h ⊢
        by_cases hall : elems.all Json.isStr = true
        · rw [if_pos hall] at h
          cases h
        · rw [if_neg hall]

/-- Witness for C7 at concrete inputs: a two-element string array is
accepted and filtered to the known identifier; a JSON number is rejected
and leaves the playlist untouched. -/
theorem c7_playlist_import_validation_witness :
    ([Json.str "id-1", Json.str "zzz"].all Json.isStr = true) ∧
    (handleImportPlaylist (some (Json.arr [Json.str "id-1", Json.str "zzz"]))
        [sampleVideo] ["old"]).1 = ["id-1"] ∧
    (handleImportPlaylist (some (Json.num 3)) [sampleVideo] ["old"]).2 = true ∧
    (handleImportPlaylist (some (Json.num 3)) [sampleVideo] ["old"]).1 = ["old"] := by
  refine ⟨rfl, ?_, rfl, ?_⟩
  · have h := (c7_playlist_import_validation.2.1 [Json.str "id-1", Json.str "zzz"]
      [sampleVideo] ["old"] rfl).1
    rw [h]
    decide
  · exact c7_playlist_import_validation.2.2 (some (Json.num 3)) [sampleVideo] ["old"] rfl

/-! ### Claim C9 -/

/-- C9: when the session file map cannot provide the record's file,
on-demand thumbnail regeneration leaves the persistent store — including
the primary-thumbnail and timeline-preview collections and every stored
record — and the scrub cache unchanged, and in the in-memory list
modifies nothing but the targeted record's diagnostic description (in
particular every record's thumbnail and playability flag are untouched:
erasing the description field makes the before and after lists equal, and
non-targeted records are carried over verbatim). -/
theorem c9_regen_unavailable_file :
    ∀ {F : Type} (fileMap : String → Option F) (gen : F → Option String)
      (videoToRegen : VideoData) (s : RegenState),
      fileMap videoToRegen.relativePath = none →
      (handleRegenerateThumbnails fileMap gen videoToRegen s).db = s.db ∧
      (handleRegenerateThumbnails fileMap gen videoToRegen s).cache = s.cache ∧
      (handleRegenerateThumbnails fileMap gen videoToRegen s).videos.map
          (fun v => { v with description := "" })
        = s.videos.map (fun v => { v with description := "" }) ∧
      (∀ v ∈ s.videos, v.id ≠ videoToRegen.id →
        v ∈ (handleRegenerateThumbnails fileMap gen videoToRegen s).videos) := by
  intro F fileMap gen videoToRegen s h
  have hres : handleRegenerateThumbnails fileMap gen videoToRegen s
      = { s with videos := s.videos.map (fun v =>
          if v.id = videoToRegen.id
          then { v with description := regenFailMsg videoToRegen.relativePath }
          else v) } := by
    rw [handleRegenerateThumbnails, h]
  rw [hres]
  refine ⟨rfl, rfl, ?_, ?_⟩
  · rw [List.map_map]
    refine List.map_congr_left ?_
    intro v _
    show ({ (if v.id = videoToRegen.id
      then { v with description := regenFailMsg videoToRegen.relativePath }
      else v) with description := "" } : VideoData) = { v with description := "" }
    by_cases hv : v.id = videoToRegen.id
    · rw [if_pos hv]
    · rw [if_neg hv]
  · intro v hv hne
    have hfix : (fun w => if w.id = videoToRegen.id
        then { w with description := regenFailMsg videoToRegen.relativePath }
        else w) v = v := by
      show (if v.id = videoToRegen.id then _ else v) = v
      rw [if_neg hne]
    have := List.mem_map_of_mem (fun w => if w.id = videoToRegen.id
      then { w with description := regenFailMsg videoToRegen.relativePath }
      else w) hv
    rw [hfix] at this
    exact this

/-- Witness for C9 at concrete inputs: an empty session file map leaves
the store and the cache of the fixture state unchanged. -/
theorem c9_regen_unavailable_file_witness :
    ((fun _ : String => (none : Option Unit)) sampleVideo.relativePath = none) ∧
    (handleRegenerateThumbnails (fun _ : String => (none : Option Unit))
        (fun _ : Unit => none) sampleVideo regenState).db = regenState.db ∧
    (handleRegenerateThumbnails (fun _ : String => (none : Option Unit))
        (fun _ : Unit => none) sampleVideo regenState).cache = regenState.cache := by
  refine ⟨rfl, ?_, ?_⟩
  · exact (c9_regen_unavailable_file _ _ sampleVideo regenState rfl).1
  · exact (c9_regen_unavailable_file _ _ sampleVideo regenState rfl).2.1

/-! ### Facts about the edit history -/

theorem commitRecord_id (u prev : VideoData) : (commitRecord u prev).id = u.id := by
  rw [commitRecord]
  split <;> rfl

theorem applyChanges_id (c : BatchChanges) (t : VideoData) :
    (applyChanges c t).id = t.id := rfl

theorem findById_unique {l : List VideoData} {i : String} {p : VideoData}
    (hnodup : (l.map VideoData.id).Nodup) (hfind : findById l i = some p) :
    ∀ v ∈ l, v.id = i → v = p := by
  intro v hv hvi
  have h1 := findById_of_mem_nodup hnodup hv
  rw [hvi, hfind] at h1
  exact (Option.some.inj h1).symm

theorem lookupHist_singleton (c : HistoryEntry) (i : String) :
    lookupHist [c] i = if c.videoId = i then some c.state else none := by
  by_cases hc : c.videoId = i <;> simp [lookupHist, lookupLast, hc]

theorem filterMap_all_some {α β : Type} {f : α → Option β} {g : α → β} :
    ∀ {l : List α}, (∀ x ∈ l, f x = some (g x)) → l.filterMap f = l.map g := by
  intro l
  induction l with
  | nil => intro _; rfl
  | cons x xs ih =>
    intro h
    rw [List.filterMap_cons, h x (List.mem_cons_self _ _), List.map_cons,
      ih (fun y hy => h y (List.mem_cons_of_mem _ hy))]

theorem commitSingle_eq {u : VideoData} {s : AppState} {prev : VideoData}
    (hfind : findById s.videos u.id = some prev)
    (hchange : prev ≠ commitRecord u prev) :
    handleUpdateVideoSingle u s =
      { videos := s.videos.map (fun v =>
          if v.id = (commitRecord u prev).id then commitRecord u prev else v)
        undoStack := s.undoStack ++ [[⟨u.id, prev⟩]]
        redoStack := []
        db := updateVideo (commitRecord u prev) s.db } := by
  have hd : decide (prev ≠ commitRecord u prev) = true := by
    simpa using hchange
  simp only [handleUpdateVideoSingle, hfind]
  rw [hd, if_pos rfl, if_pos rfl]

theorem commitBatch_eq {u : VideoData} {targets : List VideoData} {s : AppState}
    {prev : VideoData}
    (hfind : findById s.videos u.id = some prev)
    (hch : batchChangesOf u prev ≠ emptyChanges)
    (hne : targets ≠ []) :
    handleUpdateVideoBatch u targets s =
      { videos := s.videos.map (fun v =>
          (lookupById (videosToUpdateOf (batchChangesOf u prev) targets) v.id).getD v)
        undoStack := s.undoStack ++ [historyBatchOf targets]
        redoStack := []
        db := batchUpdateVideos (videosToUpdateOf (batchChangesOf u prev) targets) s.db } := by
  simp only [handleUpdateVideoBatch, hfind]
  rw [if_neg hch, if_neg ?hne2]
  case hne2 =>
    rw [videosToUpdateOf]
    simp [hne]

theorem handleUndo_eq {s : AppState} {batch : List HistoryEntry}
    {stack : List (List HistoryEntry)} (hstack : s.undoStack = stack ++ [batch]) :
    handleUndo s =
      { videos := s.videos.map (fun v => (lookupHist batch v.id).getD v)
        undoStack := stack
        redoStack := if (capturedStates s.videos batch).isEmpty then s.redoStack
          else s.redoStack ++ [capturedStates s.videos batch]
        db := batchUpdateVideos (batch.map (fun c => c.state)) s.db } := by
  simp only [handleUndo, hstack, List.getLast?_concat, List.dropLast_concat]

theorem handleRedo_eq {s : AppState} {batch : List HistoryEntry}
    {stack : List (List HistoryEntry)} (hstack : s.redoStack = stack ++ [batch]) :
    handleRedo s =
      { videos := s.videos.map (fun v => (lookupHist batch v.id).getD v)
        undoStack := if (capturedStates s.videos batch).isEmpty then s.undoStack
          else s.undoStack ++ [capturedStates s.videos batch]
        redoStack := stack
        db := batchUpdateVideos (batch.map (fun c => c.state)) s.db } := by
  simp only [handleRedo, hstack, List.getLast?_concat, List.dropLast_concat]

theorem handleRedo_eq_stack (stack : List (List HistoryEntry)) {s : AppState}
    {batch : List HistoryEntry} (hstack : s.redoStack = stack ++ [batch]) :
    handleRedo s =
      { videos := s.videos.map (fun v => (lookupHist batch v.id).getD v)
        undoStack := if (capturedStates s.videos batch).isEmpty then s.undoStack
          else s.undoStack ++ [capturedStates s.videos batch]
        redoStack := stack
        db := batchUpdateVideos (batch.map (fun c => c.state)) s.db } :=
  handleRedo_eq hstack

theorem findById_commitMap {u : VideoData} {s : AppState} {prev : VideoData}
    (hfind : findById s.videos u.id = some prev) :
    findById (s.videos.map (fun v =>
      if v.id = (commitRecord u prev).id then commitRecord u prev else v)) u.id
      = some (commitRecord u prev) := by
  have hf : ∀ v : VideoData,
      ((fun v => if v.id = (commitRecord u prev).id then commitRecord u prev else v) v).id
        = v.id := by
    intro v
    show (if v.id = (commitRecord u prev).id then commitRecord u prev else v).id = v.id
    by_cases hv : v.id = (commitRecord u prev).id
    · rw [if_pos hv]
      exact hv.symm
    · rw [if_neg hv]
  rw [findById_map_keyed hf, hfind]
  show some (if prev.id = (commitRecord u prev).id then commitRecord u prev else prev) = _
  rw [if_pos (by rw [(findById_eq_some hfind).2, commitRecord_id])]

theorem undoCommitSingle {u : VideoData} {s : AppState} {prev : VideoData}
    (hfind : findById s.videos u.id = some prev)
    (hnodup : (s.videos.map VideoData.id).Nodup)
    (hchange : prev ≠ commitRecord u prev) :
    handleUndo (handleUpdateVideoSingle u s) =
      { videos := s.videos
        undoStack := s.undoStack
        redoStack := [[⟨u.id, commitRecord u prev⟩]]
        db := batchUpdateVideos [prev] (updateVideo (commitRecord u prev) s.db) } := by
  rw [commitSingle_eq hfind hchange, handleUndo_eq rfl]
  have hcap : capturedStates (s.videos.map (fun v =>
      if v.id = (commitRecord u prev).id then commitRecord u prev else v))
      [⟨u.id, prev⟩] = [⟨u.id, commitRecord u prev⟩] := by
    simp only [capturedStates, List.filterMap_cons, List.filterMap_nil,
      findById_commitMap hfind, Option.map_some']
  simp only [AppState.mk.injEq]
  refine ⟨?_, trivial, ?_, by rfl⟩
  · rw [List.map_map]
    have hpt : s.videos.map ((fun v => (lookupHist [⟨u.id, prev⟩] v.id).getD v) ∘
        (fun v => if v.id = (commitRecord u prev).id then commitRecord u prev else v))
        = s.videos.map (fun v => v) := by
      refine List.map_congr_left ?_
      intro v hv
      show (lookupHist [⟨u.id, prev⟩]
        (if v.id = (commitRecord u prev).id then commitRecord u prev else v).id).getD
        (if v.id = (commitRecord u prev).id then commitRecord u prev else v) = v
      by_cases hvc : v.id = (commitRecord u prev).id
      · rw [if_pos hvc, lookupHist_singleton]
        show (if u.id = (commitRecord u prev).id then some prev else none).getD _ = v
        rw [if_pos (commitRecord_id u prev).symm]
        exact (findById_unique hnodup hfind v hv (by rw [hvc, commitRecord_id])).symm
      · rw [if_neg hvc, lookupHist_singleton]
        show (if u.id = v.id then some prev else none).getD v = v
        rw [if_neg (fun hh => hvc (by rw [← hh, commitRecord_id]))]
        rfl
    rw [hpt, List.map_id']
  · rw [hcap]
    show (if ([⟨u.id, commitRecord u prev⟩] : List HistoryEntry).isEmpty = true
      then ([] : List (List HistoryEntry))
      else [] ++ [[⟨u.id, commitRecord u prev⟩]]) = _
    rw [if_neg (by simp), List.nil_append]

theorem redoUndoCommitSingle {u : VideoData} {s : AppState} {prev : VideoData}
    (hfind : findById s.videos u.id = some prev)
    (hnodup : (s.videos.map VideoData.id).Nodup)
    (hchange : prev ≠ commitRecord u prev) :
    (handleRedo (handleUndo (handleUpdateVideoSingle u s))).videos
      = (handleUpdateVideoSingle u s).videos := by
  rw [undoCommitSingle hfind hnodup hchange, handleRedo_eq_stack [] rfl,
    commitSingle_eq hfind hchange]
  show s.videos.map (fun v => (lookupHist [⟨u.id, commitRecord u prev⟩] v.id).getD v)
    = s.videos.map (fun v =>
        if v.id = (commitRecord u prev).id then commitRecord u prev else v)
  refine List.map_congr_left ?_
  intro v _
  rw [lookupHist_singleton]
  by_cases hvc : v.id = (commitRecord u prev).id
  · rw [if_pos (by rw [hvc, commitRecord_id]), if_pos hvc]
    rfl
  · rw [if_neg (fun hh => hvc (by rw [← hh, commitRecord_id])), if_neg hvc]
    rfl

theorem lookupById_getD_id (C : List VideoData) (v : VideoData) :
    ((lookupById C v.id).getD v).id = v.id := by
  cases hc : lookupById C v.id with
  | none => rfl
  | some w =>
    have hw := (lookupLast_eq_some VideoData.id hc).2
    simpa using hw

theorem lookupById_videosToUpdate {c : BatchChanges} {targets : List VideoData}
    (htnodup : (targets.map VideoData.id).Nodup) {t : VideoData} (ht : t ∈ targets) :
    lookupById (videosToUpdateOf c targets) t.id = some (applyChanges c t) := by
  refine lookupLast_of_unique VideoData.id ?_ (applyChanges_id c t) ?_
  · exact List.mem_map_of_mem _ ht
  · intro y hy hyk
    obtain ⟨t2, ht2, rfl⟩ := List.mem_map.1 hy
    have hids : t2.id = t.id := by
      rw [← applyChanges_id c t2]
      exact hyk
    rw [List.inj_on_of_nodup_map htnodup ht2 ht hids]

theorem lookupById_videosToUpdate_miss {c : BatchChanges} {targets : List VideoData}
    {i : String} (hmiss : ∀ t ∈ targets, t.id ≠ i) :
    lookupById (videosToUpdateOf c targets) i = none := by
  refine lookupLast_eq_none VideoData.id ?_
  intro y hy
  obtain ⟨t, ht, rfl⟩ := List.mem_map.1 hy
  show (applyChanges c t).id ≠ i
  rw [applyChanges_id]
  exact hmiss t ht

theorem lookupHist_historyBatch {targets : List VideoData}
    (htnodup : (targets.map VideoData.id).Nodup) {t : VideoData} (ht : t ∈ targets) :
    lookupHist (historyBatchOf targets) t.id = some t := by
  have hlook : lookupLast HistoryEntry.videoId
      (targets.map (fun t => (⟨t.id, t⟩ : HistoryEntry))) t.id
      = some ⟨t.id, t⟩ := by
    refine lookupLast_of_unique HistoryEntry.videoId
      (List.mem_map_of_mem (fun t => (⟨t.id, t⟩ : HistoryEntry)) ht) rfl ?_
    intro y hy hyk
    obtain ⟨t2, ht2, rfl⟩ := List.mem_map.1 hy
    have hids : t2.id = t.id := hyk
    rw [List.inj_on_of_nodup_map htnodup ht2 ht hids]
  rw [lookupHist, historyBatchOf, hlook]
  rfl

theorem lookupHist_historyBatch_miss {targets : List VideoData} {i : String}
    (hmiss : ∀ t ∈ targets, t.id ≠ i) :
    lookupHist (historyBatchOf targets) i = none := by
  rw [lookupHist, lookupLast_eq_none]
  · rfl
  · intro y hy
    obtain ⟨t, ht, rfl⟩ := List.mem_map.1 hy
    exact hmiss t ht

theorem lookupHist_redoBatch {c : BatchChanges} {targets : List VideoData}
    (htnodup : (targets.map VideoData.id).Nodup) {t : VideoData} (ht : t ∈ targets) :
    lookupHist (targets.map (fun t => (⟨t.id, applyChanges c t⟩ : HistoryEntry))) t.id
      = some (applyChanges c t) := by
  have hlook : lookupLast HistoryEntry.videoId
      (targets.map (fun t => (⟨t.id, applyChanges c t⟩ : HistoryEntry))) t.id
      = some ⟨t.id, applyChanges c t⟩ := by
    refine lookupLast_of_unique HistoryEntry.videoId
      (List.mem_map_of_mem (fun t => (⟨t.id, applyChanges c t⟩ : HistoryEntry)) ht) rfl ?_
    intro y hy hyk
    obtain ⟨t2, ht2, rfl⟩ := List.mem_map.1 hy
    have hids : t2.id = t.id := hyk
    rw [List.inj_on_of_nodup_map htnodup ht2 ht hids]
  rw [lookupHist, hlook]
  rfl

theorem lookupHist_redoBatch_miss {c : BatchChanges} {targets : List VideoData}
    {i : String} (hmiss : ∀ t ∈ targets, t.id ≠ i) :
    lookupHist (targets.map (fun t => (⟨t.id, applyChanges c t⟩ : HistoryEntry))) i
      = none := by
  rw [lookupHist, lookupLast_eq_none]
  · rfl
  · intro y hy
    obtain ⟨t, ht, rfl⟩ := List.mem_map.1 hy
    exact hmiss t ht

theorem findById_lookup_map (C : List VideoData) (l : List VideoData) (i : String) :
    findById (l.map (fun v => (lookupById C v.id).getD v)) i
      = (findById l i).map (fun v => (lookupById C v.id).getD v) :=
  findById_map_keyed (fun v => lookupById_getD_id C v) l i

theorem capturedStates_batch {s : AppState} {c : BatchChanges} {targets : List VideoData}
    (hnodup : (s.videos.map VideoData.id).Nodup)
    (htnodup : (targets.map VideoData.id).Nodup)
    (hsub : ∀ t ∈ targets, t ∈ s.videos) :
    capturedStates
        (s.videos.map (fun v => (lookupById (videosToUpdateOf c targets) v.id).getD v))
        (historyBatchOf targets)
      = targets.map (fun t => (⟨t.id, applyChanges c t⟩ : HistoryEntry)) := by
  rw [capturedStates, historyBatchOf, List.filterMap_map]
  refine filterMap_all_some ?_
  intro t ht
  show (findById (s.videos.map (fun v =>
      (lookupById (videosToUpdateOf c targets) v.id).getD v)) t.id).map
      (fun v => (⟨t.id, v⟩ : HistoryEntry))
    = some (⟨t.id, applyChanges c t⟩ : HistoryEntry)
  rw [findById_lookup_map, findById_of_mem_nodup hnodup (hsub t ht)]
  show some (⟨t.id, (lookupById (videosToUpdateOf c targets) t.id).getD t⟩ : HistoryEntry)
    = _
  rw [lookupById_videosToUpdate htnodup ht]
  rfl

theorem undoCommitBatch {u : VideoData} {targets : List VideoData} {s : AppState}
    {prev : VideoData}
    (hfind : findById s.videos u.id = some prev)
    (hnodup : (s.videos.map VideoData.id).Nodup)
    (htnodup : (targets.map VideoData.id).Nodup)
    (hsub : ∀ t ∈ targets, t ∈ s.videos)
    (hne : targets ≠ [])
    (hch : batchChangesOf u prev ≠ emptyChanges) :
    handleUndo (handleUpdateVideoBatch u targets s) =
      { videos := s.videos
        undoStack := s.undoStack
        redoStack := [targets.map (fun t =>
          (⟨t.id, applyChanges (batchChangesOf u prev) t⟩ : HistoryEntry))]
        db := batchUpdateVideos targets
          (batchUpdateVideos (videosToUpdateOf (batchChangesOf u prev) targets) s.db) } := by
  rw [commitBatch_eq hfind hch hne, handleUndo_eq rfl]
  simp only [AppState.mk.injEq]
  refine ⟨?_, trivial, ?_, ?_⟩
  · rw [List.map_map]
    have hpt : s.videos.map
        ((fun v => (lookupHist (historyBatchOf targets) v.id).getD v) ∘
          (fun v => (lookupById (videosToUpdateOf (batchChangesOf u prev) targets) v.id).getD v))
        = s.videos.map (fun v => v) := by
      refine List.map_congr_left ?_
      intro v hv
      show (lookupHist (historyBatchOf targets)
          ((lookupById (videosToUpdateOf (batchChangesOf u prev) targets) v.id).getD v).id).getD
          ((lookupById (videosToUpdateOf (batchChangesOf u prev) targets) v.id).getD v) = v
      rw [lookupById_getD_id]
      by_cases hvt : ∃ t ∈ targets, t.id = v.id
      · obtain ⟨t, ht, htv⟩ := hvt
        have htveq : t = v := List.inj_on_of_nodup_map hnodup (hsub t ht) hv htv
        rw [htveq] at ht
        rw [lookupById_videosToUpdate htnodup ht, lookupHist_historyBatch htnodup ht]
        rfl
      · push_neg at hvt
        rw [lookupById_videosToUpdate_miss hvt, lookupHist_historyBatch_miss hvt]
        rfl
    rw [hpt, List.map_id']
  · rw [capturedStates_batch hnodup htnodup hsub,
      if_neg (by simp [hne]), List.nil_append]
  · congr 1
    rw [historyBatchOf, List.map_map]
    show targets.map (fun t => t) = targets
    rw [List.map_id']

theorem redoUndoCommitBatch {u : VideoData} {targets : List VideoData} {s : AppState}
    {prev : VideoData}
    (hfind : findById s.videos u.id = some prev)
    (hnodup : (s.videos.map VideoData.id).Nodup)
    (htnodup : (targets.map VideoData.id).Nodup)
    (hsub : ∀ t ∈ targets, t ∈ s.videos)
    (hne : targets ≠ [])
    (hch : batchChangesOf u prev ≠ emptyChanges) :
    (handleRedo (handleUndo (handleUpdateVideoBatch u targets s))).videos
      = (handleUpdateVideoBatch u targets s).videos := by
  rw [undoCommitBatch hfind hnodup htnodup hsub hne hch,
    handleRedo_eq_stack [] rfl, commitBatch_eq hfind hch hne]
  show s.videos.map (fun v => (lookupHist (targets.map (fun t =>
      (⟨t.id, applyChanges (batchChangesOf u prev) t⟩ : HistoryEntry))) v.id).getD v)
    = s.videos.map (fun v =>
        (lookupById (videosToUpdateOf (batchChangesOf u prev) targets) v.id).getD v)
  refine List.map_congr_left ?_
  intro v hv
  by_cases hvt : ∃ t ∈ targets, t.id = v.id
  · obtain ⟨t, ht, htv⟩ := hvt
    have htveq : t = v := List.inj_on_of_nodup_map hnodup (hsub t ht) hv htv
    rw [htveq] at ht
    show (lookupHist (targets.map (fun t =>
        (⟨t.id, applyChanges (batchChangesOf u prev) t⟩ : HistoryEntry))) v.id).getD v
      = (lookupById (videosToUpdateOf (batchChangesOf u prev) targets) v.id).getD v
    rw [lookupHist_redoBatch htnodup ht, lookupById_videosToUpdate htnodup ht]
  · push_neg at hvt
    show (lookupHist (targets.map (fun t =>
        (⟨t.id, applyChanges (batchChangesOf u prev) t⟩ : HistoryEntry))) v.id).getD v
      = (lookupById (videosToUpdateOf (batchChangesOf u prev) targets) v.id).getD v
    rw [lookupHist_redoBatch_miss hvt, lookupById_videosToUpdate_miss hvt]

/-! ### Claim C5 -/

/-- C5 counterexample: committing an update that leaves the record
value-equal to its current state is processed (the record is written to
the store) but does NOT empty the non-empty redo stack — contradicting
"committing any new edit (single or batch) empties the redo stack". -/
theorem c5_noop_commit_keeps_redo_counterexample :
    (handleUpdateVideoSingle sampleVideo c5State).redoStack
        = [[⟨"id-1", sampleVideo⟩]] ∧
    (handleUpdateVideoSingle sampleVideo c5State).redoStack ≠ [] ∧
    (handleUpdateVideoSingle sampleVideo c5State).db
        = updateVideo sampleVideo c5State.db := by
  refine ⟨by decide, by decide, by decide⟩

/-- C5 (amended): for every committed mutation that actually changes the
affected record(s) — single-record commits whose written record differs
from the previous state, and batch commits whose computed diff is
non-empty over a non-empty target list — `undo()` restores every affected
record to its exact pre-commit snapshot (the in-memory record list equals
its pre-commit value and the undo stack is restored), `redo()` immediately
after `undo()` restores the exact post-commit record list, and the commit
empties the redo stack.  A commit leaving every record value-equal does
not clear the redo stack (see the counterexample).  `undo()` and `redo()`
are no-ops when their stack is empty.  The uniqueness hypotheses on
identifiers reflect the store's key invariants; batch targets are drawn
from the displayed subset of the library list. -/
theorem c5_undo_redo_roundtrip :
    (∀ (u : VideoData) (s : AppState) (prev : VideoData),
      findById s.videos u.id = some prev →
      (s.videos.map VideoData.id).Nodup →
      prev ≠ commitRecord u prev →
      (handleUpdateVideoSingle u s).redoStack = [] ∧
      (handleUndo (handleUpdateVideoSingle u s)).videos = s.videos ∧
      (handleUndo (handleUpdateVideoSingle u s)).undoStack = s.undoStack ∧
      (handleRedo (handleUndo (handleUpdateVideoSingle u s))).videos
        = (handleUpdateVideoSingle u s).videos) ∧
    (∀ (u : VideoData) (targets : List VideoData) (s : AppState) (prev : VideoData),
      findById s.videos u.id = some prev →
      (s.videos.map VideoData.id).Nodup →
      (targets.map VideoData.id).Nodup →
      (∀ t ∈ targets, t ∈ s.videos) →
      targets ≠ [] →
      batchChangesOf u prev ≠ emptyChanges →
      (handleUpdateVideoBatch u targets s).redoStack = [] ∧
      (handleUndo (handleUpdateVideoBatch u targets s)).videos = s.videos ∧
      (handleUndo (handleUpdateVideoBatch u targets s)).undoStack = s.undoStack ∧
      (handleRedo (handleUndo (handleUpdateVideoBatch u targets s))).videos
        = (handleUpdateVideoBatch u targets s).videos) ∧
    (∀ s : AppState, s.undoStack = [] → handleUndo s = s) ∧
    (∀ s : AppState, s.redoStack = [] → handleRedo s = s) := by
  refine ⟨?_, ?_, ?_, ?_⟩
  · intro u s prev hfind hnodup hchange
    refine ⟨?_, ?_, ?_, redoUndoCommitSingle hfind hnodup hchange⟩
    · rw [commitSingle_eq hfind hchange]
    · rw [undoCommitSingle hfind hnodup hchange]
    · rw [undoCommitSingle hfind hnodup hchange]
  · intro u targets s prev hfind hnodup htnodup hsub hne hch
    refine ⟨?_, ?_, ?_, redoUndoCommitBatch hfind hnodup htnodup hsub hne hch⟩
    · rw [commitBatch_eq hfind hch hne]
    · rw [undoCommitBatch hfind hnodup htnodup hsub hne hch]
    · rw [undoCommitBatch hfind hnodup htnodup hsub hne hch]
  · intro s h
    rw [handleUndo, h]
    rfl
  · intro s h
    rw [handleRedo, h]
    rfl

/-- Witness for C5 at concrete inputs: committing a rating change on the
sample library, undoing and redoing. -/
theorem c5_undo_redo_roundtrip_witness :
    (findById c5BaseState.videos ratedVideo.id = some sampleVideo) ∧
    (sampleVideo ≠ commitRecord ratedVideo sampleVideo) ∧
    (handleUpdateVideoSingle ratedVideo c5BaseState).redoStack = [] ∧
    (handleUndo (handleUpdateVideoSingle ratedVideo c5BaseState)).videos
      = c5BaseState.videos ∧
    (handleRedo (handleUndo (handleUpdateVideoSingle ratedVideo c5BaseState))).videos
      = (handleUpdateVideoSingle ratedVideo c5BaseState).videos ∧
    (handleUndo c5BaseState = c5BaseState) := by
  have h := c5_undo_redo_roundtrip.1 ratedVideo c5BaseState sampleVideo
    (by decide) (by decide) (by decide)
  exact ⟨by decide, by decide, h.1, h.2.1, h.2.2.2,
    c5_undo_redo_roundtrip.2.2.1 c5BaseState (by decide)⟩

/-! ### Claim C6 -/

/-- C6: a committed update whose saved playback position exceeds one
second on a record whose prior seen flag is false also sets `seen = true`
on the very record committed (in the store write and the in-memory list),
and the derived change is part of the same single history entry as the
triggering update: exactly one batch, holding the full prior snapshot, is
appended to the undo stack, never a separate entry.  In batch-edit mode
the rule folds `seen: true` into the one diff applied to the whole batch,
again with a single history entry. -/
theorem c6_seen_threshold_same_history_entry :
    (∀ (u : VideoData) (s : AppState) (prev : VideoData) (t : ℚ),
      findById s.videos u.id = some prev →
      u.currentTime = some t → 1 < t → prev.seen = false →
      (handleUpdateVideoSingle u s).undoStack = s.undoStack ++ [[⟨u.id, prev⟩]] ∧
      (handleUpdateVideoSingle u s).redoStack = [] ∧
      (handleUpdateVideoSingle u s).db = updateVideo { u with seen := true } s.db ∧
      ∀ v ∈ (handleUpdateVideoSingle u s).videos, v.id = u.id → v.seen = true) ∧
    (∀ (u prev : VideoData) (t : ℚ) (targets : List VideoData) (s : AppState),
      findById s.videos u.id = some prev →
      u.currentTime = some t → 1 < t → prev.seen = false →
      targets ≠ [] →
      (batchChangesOf u prev).seen = some true ∧
      (handleUpdateVideoBatch u targets s).undoStack
        = s.undoStack ++ [historyBatchOf targets] ∧
      (handleUpdateVideoBatch u targets s).redoStack = [] ∧
      ∀ tv ∈ targets, (applyChanges (batchChangesOf u prev) tv).seen = true) := by
  have hcta : ∀ (u : VideoData) (t : ℚ), u.currentTime = some t → 1 < t →
      currentTimeAboveOne u.currentTime = true := by
    intro u t hct htgt
    rw [hct]
    simp only [currentTimeAboveOne]
    rw [if_neg (by intro hh; rw [hh] at htgt; norm_num at htgt)]
    simpa using htgt
  constructor
  · intro u s prev t hfind hct htgt hseen
    have hc := hcta u t hct htgt
    have hcommit : commitRecord u prev = { u with seen := true } := by
      rw [commitRecord, hseen]
      rw [hc]
      rfl
    have hchange : prev ≠ commitRecord u prev := by
      rw [hcommit]
      intro he
      have hcongr := congrArg VideoData.seen he
      rw [hseen] at hcongr
      exact Bool.noConfusion hcongr
    have hs1 := commitSingle_eq hfind hchange
    refine ⟨?_, ?_, ?_, ?_⟩
    · rw [hs1]
    · rw [hs1]
    · rw [hs1, hcommit]
    · intro v hv hvid
      rw [hs1] at hv
      obtain ⟨w, _, rfl⟩ := List.mem_map.1 hv
      by_cases hw : w.id = (commitRecord u prev).id
      · show (if w.id = (commitRecord u prev).id then commitRecord u prev else w).seen = true
        rw [if_pos hw, hcommit]
      · exfalso
        show False
        have : (if w.id = (commitRecord u prev).id then commitRecord u prev else w).id
            = u.id := hvid
        rw [if_neg hw] at this
        exact hw (by rw [this, commitRecord_id])
  · intro u prev t targets s hfind hct htgt hseen hne
    have hc := hcta u t hct htgt
    have hchseen : (batchChangesOf u prev).seen = some true := by
      rw [batchChangesOf, applySeenRule, if_pos (by rw [hc, hseen]; rfl)]
    have hch : batchChangesOf u prev ≠ emptyChanges := by
      intro he
      have hcongr := congrArg BatchChanges.seen he
      rw [hchseen] at hcongr
      exact Option.noConfusion hcongr
    have hb := commitBatch_eq hfind hch hne
    refine ⟨hchseen, ?_, ?_, ?_⟩
    · rw [hb]
    · rw [hb]
    · intro tv _
      show ((batchChangesOf u prev).seen.getD tv.seen) = true
      rw [hchseen]
      rfl

/-- Witness for C6 at concrete inputs: committing a saved position of two
seconds on the unseen sample record sets the seen flag in the same single
history entry. -/
theorem c6_seen_threshold_same_history_entry_witness :
    (findById c5BaseState.videos seenVideo.id = some sampleVideo) ∧
    (seenVideo.currentTime = some 2) ∧ ((1 : ℚ) < 2) ∧ (sampleVideo.seen = false) ∧
    (handleUpdateVideoSingle seenVideo c5BaseState).undoStack
      = c5BaseState.undoStack ++ [[⟨seenVideo.id, sampleVideo⟩]] ∧
    (handleUpdateVideoSingle seenVideo c5BaseState).db
      = updateVideo { seenVideo with seen := true } c5BaseState.db := by
  have h := c6_seen_threshold_same_history_entry.1 seenVideo c5BaseState sampleVideo 2
    (by decide) rfl (by norm_num) rfl
  exact ⟨by decide, rfl, by norm_num, rfl, h.1, h.2.2.1⟩

/-! ### Facts about the sync-pass building blocks -/

theorem durOrNull_ne_none {d : Option ℚ} (h : durOrNull d ≠ none) : durOrNull d = d := by
  cases d with
  | none => exact absurd rfl h
  | some q =>
    by_cases hq : q = 0
    · rw [durOrNull, if_pos hq] at h
      exact absurd rfl h
    · rw [durOrNull, if_neg hq]

/-- The deferred-duration `else if` branch of the scan loop can never
fire: `newDuration` is `existingVideo.duration || null`, so it differs
from the stored duration only by being null. -/
theorem scan_duration_branch_dead (ev : VideoData) :
    ¬(ev.duration ≠ durOrNull ev.duration ∧ durOrNull ev.duration ≠ none) := by
  rintro ⟨h1, h2⟩
  exact h1 (durOrNull_ne_none h2).symm

theorem durOrNull_idem (d : Option ℚ) : durOrNull (durOrNull d) = durOrNull d := by
  cases d with
  | none => rfl
  | some q =>
    by_cases hq : q = 0
    · rw [durOrNull, if_pos hq]
      rfl
    · rw [durOrNull, if_neg hq, durOrNull, if_neg hq]

theorem jsOrNat_zero (x : Nat) : jsOrNat x 0 = x := by
  rw [jsOrNat]
  split
  · next h => exact h.symm
  · rfl

theorem jsOrNat_left {x : Nat} (hx : x ≠ 0) (y : Nat) : jsOrNat x y = x := by
  rw [jsOrNat, if_neg hx]

theorem jsOrNat_ne_zero {x now : Nat} (hnow : now ≠ 0) : jsOrNat x now ≠ 0 := by
  rw [jsOrNat]
  by_cases hx : x = 0
  · rw [if_pos hx]
    exact hnow
  · rw [if_neg hx]
    exact hx

theorem jsOrNat_right_idem {x now : Nat} (hnow : now ≠ 0) (y : Nat) :
    jsOrNat (jsOrNat x now) y = jsOrNat x now :=
  jsOrNat_left (jsOrNat_ne_zero hnow) y

theorem jsOrString_ne_empty {x : String} (hx : x ≠ "") (y : String) :
    jsOrString x y = x := by
  rw [jsOrString, if_neg hx]

theorem applyVideoDefaults_id (v : VideoData) : (applyVideoDefaults v).id = v.id := rfl

theorem applyVideoDefaults_relativePath (v : VideoData) :
    (applyVideoDefaults v).relativePath = v.relativePath := rfl

theorem applyVideoDefaults_notFound (v : VideoData) :
    (applyVideoDefaults v).notFound = v.notFound := rfl

theorem applyVideoDefaults_lastModified (v : VideoData) :
    (applyVideoDefaults v).lastModified = v.lastModified := rfl

theorem applyVideoDefaults_thumbnail (v : VideoData) :
    (applyVideoDefaults v).thumbnail = none := rfl

theorem applyVideoDefaults_dateAdded (v : VideoData) :
    (applyVideoDefaults v).dateAdded
      = jsOrNat (jsOrNat v.dateAdded v.lastModified) 0 := rfl

/-- The load-time defaults are the identity on a record with no thumbnail
payload, a truthy date-added stamp and no stored empty content hash. -/
theorem applyVideoDefaults_eq_self {v : VideoData} (h1 : v.thumbnail = none)
    (h2 : v.dateAdded ≠ 0) (h3 : v.contentHash = none) :
    applyVideoDefaults v = v := by
  have hd : jsOrNat (jsOrNat v.dateAdded v.lastModified) 0 = v.dateAdded := by
    rw [jsOrNat_zero, jsOrNat_left h2]
  have hc : strOrNull v.contentHash = v.contentHash := by
    rw [h3]
    rfl
  rw [applyVideoDefaults, hd, hc, ← h1]

theorem map_id_map_defaults (l : List VideoData) :
    (l.map applyVideoDefaults).map VideoData.id = l.map VideoData.id := by
  rw [List.map_map]
  rfl

theorem map_path_map_defaults (l : List VideoData) :
    (l.map applyVideoDefaults).map VideoData.relativePath
      = l.map VideoData.relativePath := by
  rw [List.map_map]
  rfl

theorem mkScanVideo_thumbnail (ev : Option VideoData) (e : FileEntry) (fid : String)
    (now : Nat) : (mkScanVideo ev e fid now).thumbnail = none := rfl

theorem stripThumb_mkScanVideo (ev : Option VideoData) (e : FileEntry) (fid : String)
    (now : Nat) : stripThumb (mkScanVideo ev e fid now) = mkScanVideo ev e fid now :=
  stripThumb_eq_self rfl

theorem mkScanVideo_relativePath (ev : Option VideoData) (e : FileEntry) (fid : String)
    (now : Nat) : (mkScanVideo ev e fid now).relativePath = e.relativePath := by
  cases ev <;> rfl

theorem mkScanVideo_notFound (ev : Option VideoData) (e : FileEntry) (fid : String)
    (now : Nat) : (mkScanVideo ev e fid now).notFound = false := by
  cases ev <;> rfl

theorem mkScanVideo_lastModified (ev : Option VideoData) (e : FileEntry) (fid : String)
    (now : Nat) : (mkScanVideo ev e fid now).lastModified = e.lastModified := by
  cases ev <;> rfl

theorem mkScanVideo_id_some {r : VideoData} (hr : r.id ≠ "") (e : FileEntry)
    (fid : String) (now : Nat) : (mkScanVideo (some r) e fid now).id = r.id := by
  show jsOrString r.id fid = r.id
  exact jsOrString_ne_empty hr fid

theorem mkScanVideo_id_none (e : FileEntry) (fid : String) (now : Nat) :
    (mkScanVideo none e fid now).id = fid := rfl

/-- The user-metadata fields of the record literal built for an observed
file with an existing record. -/
theorem mkScanVideo_some_fields (r : VideoData) (e : FileEntry) (fid : String)
    (now : Nat) :
    (mkScanVideo (some r) e fid now).rating = r.rating ∧
    (mkScanVideo (some r) e fid now).seen = r.seen ∧
    (mkScanVideo (some r) e fid now).tags = r.tags ∧
    (mkScanVideo (some r) e fid now).hearted = r.hearted ∧
    (mkScanVideo (some r) e fid now).deleted = r.deleted ∧
    (mkScanVideo (some r) e fid now).title = r.title ∧
    (mkScanVideo (some r) e fid now).currentTime = r.currentTime ∧
    (mkScanVideo (some r) e fid now).hidden = (r.hidden || isJpgName e.name) ∧
    (mkScanVideo (some r) e fid now).timesOpened = r.timesOpened ∧
    (mkScanVideo (some r) e fid now).dateAdded = jsOrNat r.dateAdded now :=
  ⟨jsOrNat_zero _, Bool.or_false _, rfl, Bool.or_false _, Bool.or_false _, rfl, rfl,
    rfl, jsOrNat_zero _, rfl⟩

/-- When the existing record's identifier is non-empty, the fresh
identifier offered to the literal is discarded. -/
theorem mkScanVideo_fid_irrel {r : VideoData} (hr : r.id ≠ "") (e : FileEntry)
    (fid fid' : String) (now : Nat) :
    mkScanVideo (some r) e fid now = mkScanVideo (some r) e fid' now := by
  simp only [mkScanVideo, jsOrString_ne_empty hr]

/-- Rescanning an unchanged file over the record the previous scan wrote
for it rebuilds the very same record (the scan literal is idempotent),
provided the run stamp is non-zero and the record's identifier is
non-empty. -/
theorem mkScanVideo_idem (ev : Option VideoData) (e : FileEntry) (fid fid' : String)
    {now : Nat} (now' : Nat) (hnow : now ≠ 0)
    (hid : (mkScanVideo ev e fid now).id ≠ "") :
    mkScanVideo (some (mkScanVideo ev e fid now)) e fid' now'
      = mkScanVideo ev e fid now := by
  cases ev with
  | none =>
    have hfid : fid ≠ "" := hid
    simp only [mkScanVideo, jsOrString_ne_empty hfid, jsOrNat_left hnow,
      jsOrNat_zero, durOrNull_idem, Bool.or_false, Bool.false_or, Bool.or_assoc,
      Bool.or_self]
  | some r =>
    have hid' : jsOrString r.id fid ≠ "" := hid
    simp only [mkScanVideo, jsOrString_ne_empty hid', jsOrNat_zero,
      durOrNull_idem, Bool.or_false, Bool.or_assoc, Bool.or_self,
      jsOrNat_right_idem hnow]

theorem lookupLast_ne_of_eq_none {α : Type} (key : α → String) {l : List α}
    {i : String} (h : lookupLast key l i = none) : ∀ x ∈ l, key x ≠ i := by
  induction l with
  | nil => intro x hx; cases hx
  | cons y ys ih =>
    rw [lookupLast] at h
    cases hy : lookupLast key ys i with
    | some z => rw [hy] at h; cases h
    | none =>
      rw [hy] at h
      intro x hx
      rcases List.mem_cons.1 hx with rfl | hx1
      · intro hk
        rw [if_pos hk] at h
        cases h
      · exact ih hy x hx1

theorem lookupByPath_some {vs : List VideoData} {p : String} {ev : VideoData}
    (h : lookupByPath vs p = some ev) : ev ∈ vs ∧ ev.relativePath = p :=
  lookupLast_eq_some VideoData.relativePath h

theorem mem_id_inj {l : List VideoData} (h : (l.map VideoData.id).Nodup)
    {v w : VideoData} (hv : v ∈ l) (hw : w ∈ l) (hid : v.id = w.id) : v = w :=
  List.inj_on_of_nodup_map h hv hw hid

theorem mem_path_inj {l : List VideoData} (h : (l.map VideoData.relativePath).Nodup)
    {v w : VideoData} (hv : v ∈ l) (hw : w ∈ l)
    (hp : v.relativePath = w.relativePath) : v = w :=
  List.inj_on_of_nodup_map h hv hw hp

theorem map_id_map_stripThumb (l : List VideoData) :
    (l.map stripThumb).map VideoData.id = l.map VideoData.id := by
  rw [List.map_map]
  rfl

/-- Reduction of the scan loop on a file whose needs-update test fired. -/
theorem scanStep1_cons_pos {m : String → Option VideoData} {thumbs : String → Bool}
    {now : Nat} {freshId : Nat → String} {e : FileEntry} {rest : List FileEntry}
    {n : Nat} (hn : (scanNeeds m thumbs e).1 = true) :
    scanStep1 m thumbs now freshId (e :: rest) n
      = (mkScanVideo (m e.relativePath) e (freshId n) now
           :: (scanStep1 m thumbs now freshId rest (n + 1)).1,
         if (scanNeeds m thumbs e).2 then
           mkScanVideo (m e.relativePath) e (freshId n) now
             :: (scanStep1 m thumbs now freshId rest (n + 1)).2
         else (scanStep1 m thumbs now freshId rest (n + 1)).2) := by
  rw [scanStep1]
  simp only []
  rw [if_pos hn]

/-- Reduction of the scan loop on a file whose needs-update test did not
fire: nothing is written (the deferred-duration branch is unsatisfiable). -/
theorem scanStep1_cons_neg {m : String → Option VideoData} {thumbs : String → Bool}
    {now : Nat} {freshId : Nat → String} {e : FileEntry} {rest : List FileEntry}
    {n : Nat} (hn : ¬(scanNeeds m thumbs e).1 = true) :
    scanStep1 m thumbs now freshId (e :: rest) n
      = scanStep1 m thumbs now freshId rest (n + 1) := by
  rw [scanStep1]
  simp only []
  rw [if_neg hn]
  cases hme : m e.relativePath with
  | none => rfl
  | some ev =>
    show (if ev.duration ≠ durOrNull ev.duration ∧ durOrNull ev.duration ≠ none then
        ({ ev with duration := durOrNull ev.duration, notFound := false }
           :: (scanStep1 m thumbs now freshId rest (n + 1)).1,
         (scanStep1 m thumbs now freshId rest (n + 1)).2)
      else scanStep1 m thumbs now freshId rest (n + 1))
      = scanStep1 m thumbs now freshId rest (n + 1)
    rw [if_neg (scan_duration_branch_dead ev)]

/-- Every record in the found-files batch is the scan literal of some
observed file whose needs-update test fired; the deferred-duration branch
contributes nothing (it is unsatisfiable). -/
theorem scanStep1_mem (m : String → Option VideoData) (thumbs : String → Bool)
    (now : Nat) (freshId : Nat → String) :
    ∀ (entries : List FileEntry) (n : Nat) (w : VideoData),
      w ∈ (scanStep1 m thumbs now freshId entries n).1 →
      ∃ e ∈ entries, ∃ k, n ≤ k ∧ (scanNeeds m thumbs e).1 = true ∧
        w = mkScanVideo (m e.relativePath) e (freshId k) now := by
  intro entries
  induction entries with
  | nil => intro n w h; cases h
  | cons e rest ih =>
    intro n w h
    by_cases hn : (scanNeeds m thumbs e).1 = true
    · rw [scanStep1_cons_pos hn] at h
      rcases List.mem_cons.1 h with rfl | h1
      · exact ⟨e, List.mem_cons_self _ _, n, le_refl n, hn, rfl⟩
      · obtain ⟨e1, he1, k, hk, hneeds, hw⟩ := ih (n + 1) w h1
        exact ⟨e1, List.mem_cons_of_mem _ he1, k, le_of_lt (Nat.lt_of_succ_le hk),
          hneeds, hw⟩
    · rw [scanStep1_cons_neg hn] at h
      obtain ⟨e1, he1, k, hk, hneeds, hw⟩ := ih (n + 1) w h
      exact ⟨e1, List.mem_cons_of_mem _ he1, k, le_of_lt (Nat.lt_of_succ_le hk),
        hneeds, hw⟩

/-- Every observed file whose needs-update test fires contributes its
scan literal to the batch. -/
theorem scanStep1_emit (m : String → Option VideoData) (thumbs : String → Bool)
    (now : Nat) (freshId : Nat → String) :
    ∀ (entries : List FileEntry) (n : Nat) (e : FileEntry), e ∈ entries →
      (scanNeeds m thumbs e).1 = true →
      ∃ k, mkScanVideo (m e.relativePath) e (freshId k) now
        ∈ (scanStep1 m thumbs now freshId entries n).1 := by
  intro entries
  induction entries with
  | nil => intro n e he; cases he
  | cons e0 rest ih =>
    intro n e he hneeds
    rcases List.mem_cons.1 he with rfl | he1
    · refine ⟨n, ?_⟩
      rw [scanStep1_cons_pos hneeds]
      exact List.mem_cons_self _ _
    · obtain ⟨k, hk⟩ := ih (n + 1) e he1 hneeds
      refine ⟨k, ?_⟩
      by_cases hn0 : (scanNeeds m thumbs e0).1 = true
      · rw [scanStep1_cons_pos hn0]
        exact List.mem_cons_of_mem _ hk
      · rw [scanStep1_cons_neg hn0]
        exact hk

/-- Every record in the not-found batch is a stored record whose path was
not observed, was not already missing, and is marked verbatim. -/
theorem scanStep2_mem {paths : List String} {vs : List VideoData} {w : VideoData}
    (h : w ∈ scanStep2 paths vs) :
    ∃ v ∈ vs, v.relativePath ∉ paths ∧ v.notFound = false ∧
      w = { v with notFound := true } := by
  rw [scanStep2] at h
  obtain ⟨v, hv, hfv⟩ := List.mem_filterMap.1 h
  by_cases hp : v.relativePath ∈ paths
  · rw [if_pos hp] at hfv
    cases hfv
  · rw [if_neg hp] at hfv
    cases hnf : v.notFound with
    | true =>
      rw [hnf, if_pos rfl] at hfv
      cases hfv
    | false =>
      rw [hnf, if_neg (by decide)] at hfv
      exact ⟨v, hv, hp, hnf, (Option.some.inj hfv).symm⟩

/-- Every stored record with an unobserved path and a clear missing flag
is marked by the not-found step. -/
theorem scanStep2_emit {paths : List String} {vs : List VideoData} {v : VideoData}
    (hv : v ∈ vs) (hp : v.relativePath ∉ paths) (hnf : v.notFound = false) :
    { v with notFound := true } ∈ scanStep2 paths vs := by
  rw [scanStep2]
  refine List.mem_filterMap.2 ⟨v, hv, ?_⟩
  rw [if_neg hp, hnf, if_neg (by decide)]

/-- The record store after a sync pass: the found-files batch followed by
the not-found batch, written through `put` in order. -/
theorem scanFiles_videos (files : List FileEntry) (db : DBState)
    (freshId : Nat → String) (now : Nat) :
    (scanFiles files db freshId now).1.videos
      = ((scanStep1 (lookupByPath (getAllVideos db))
            (fun id0 => decide (id0 ∈ db.mainThumbs.map Prod.fst)) now freshId
            (files.filter (fun e => decide (e.relativePath ≠ ""))) 0).1
          ++ scanStep2
              ((files.filter (fun e => decide (e.relativePath ≠ ""))).map
                (fun e => e.relativePath))
              (getAllVideos db)).foldl
          (fun acc v => putVideo (stripThumb v) acc) db.videos := rfl

theorem scanFiles_mainThumbs (files : List FileEntry) (db : DBState)
    (freshId : Nat → String) (now : Nat) :
    (scanFiles files db freshId now).1.mainThumbs = db.mainThumbs := rfl

theorem scanFiles_timelineThumbs (files : List FileEntry) (db : DBState)
    (freshId : Nat → String) (now : Nat) :
    (scanFiles files db freshId now).1.timelineThumbs = db.timelineThumbs := rfl

/-- Distinct observed files produce records with distinct identifiers:
existing identifiers are distinct per stored record, fresh identifiers are
pairwise distinct and collide with nothing stored. -/
theorem scanStep1_ids_nodup {V : List VideoData} {m : String → Option VideoData}
    (hm : ∀ p ev, m p = some ev → ev ∈ V ∧ ev.relativePath = p)
    (hVid : (V.map VideoData.id).Nodup) (hVne : ∀ w ∈ V, w.id ≠ "")
    {freshId : Nat → String} (hinj : Function.Injective freshId)
    (hfresh : ∀ k, ∀ w ∈ V, freshId k ≠ w.id)
    (thumbs : String → Bool) (now : Nat) :
    ∀ (entries : List FileEntry),
      (entries.map (fun e => e.relativePath)).Nodup →
      ∀ n, (((scanStep1 m thumbs now freshId entries n).1).map VideoData.id).Nodup := by
  intro entries
  induction entries with
  | nil => intro _ n; exact List.nodup_nil
  | cons e rest ih =>
    intro hnd n
    have hnd' : (rest.map (fun e => e.relativePath)).Nodup := (List.nodup_cons.1 hnd).2
    have hpe : e.relativePath ∉ rest.map (fun e => e.relativePath) :=
      (List.nodup_cons.1 hnd).1
    by_cases hn : (scanNeeds m thumbs e).1 = true
    · rw [scanStep1_cons_pos hn]
      show ((mkScanVideo (m e.relativePath) e (freshId n) now
          :: (scanStep1 m thumbs now freshId rest (n + 1)).1).map VideoData.id).Nodup
      rw [List.map_cons]
      refine List.nodup_cons.2 ⟨?_, ih hnd' (n + 1)⟩
      intro hmem
      obtain ⟨w, hw, hwid⟩ := List.mem_map.1 hmem
      obtain ⟨e1, he1, k, hk, hneeds1, rfl⟩ :=
        scanStep1_mem m thumbs now freshId rest (n + 1) w hw
      cases hme : m e.relativePath with
      | some ev =>
        obtain ⟨hevV, hevp⟩ := hm _ _ hme
        rw [hme, mkScanVideo_id_some (hVne ev hevV)] at hwid
        cases hme1 : m e1.relativePath with
        | some ev1 =>
          obtain ⟨hev1V, hev1p⟩ := hm _ _ hme1
          rw [hme1, mkScanVideo_id_some (hVne ev1 hev1V)] at hwid
          have hevv : ev1 = ev := mem_id_inj hVid hev1V hevV hwid
          refine hpe ?_
          have : e1.relativePath = e.relativePath := by
            rw [← hev1p, hevv, hevp]
          exact this ▸ List.mem_map_of_mem (fun e => e.relativePath) he1
        | none =>
          rw [hme1, mkScanVideo_id_none] at hwid
          exact hfresh k ev hevV hwid
      | none =>
        rw [hme, mkScanVideo_id_none] at hwid
        cases hme1 : m e1.relativePath with
        | some ev1 =>
          obtain ⟨hev1V, _⟩ := hm _ _ hme1
          rw [hme1, mkScanVideo_id_some (hVne ev1 hev1V)] at hwid
          exact hfresh n ev1 hev1V hwid.symm
        | none =>
          rw [hme1, mkScanVideo_id_none] at hwid
          have : k = n := hinj hwid
          omega
    · rw [scanStep1_cons_neg hn]
      exact ih hnd' (n + 1)

/-- Distinct observed files produce records with distinct paths. -/
theorem scanStep1_paths_nodup {m : String → Option VideoData} {thumbs : String → Bool}
    {now : Nat} {freshId : Nat → String} :
    ∀ (entries : List FileEntry),
      (entries.map (fun e => e.relativePath)).Nodup →
      ∀ n, (((scanStep1 m thumbs now freshId entries n).1).map
        VideoData.relativePath).Nodup := by
  intro entries
  induction entries with
  | nil => intro _ n; exact List.nodup_nil
  | cons e rest ih =>
    intro hnd n
    have hnd' : (rest.map (fun e => e.relativePath)).Nodup := (List.nodup_cons.1 hnd).2
    have hpe : e.relativePath ∉ rest.map (fun e => e.relativePath) :=
      (List.nodup_cons.1 hnd).1
    by_cases hn : (scanNeeds m thumbs e).1 = true
    · rw [scanStep1_cons_pos hn]
      show ((mkScanVideo (m e.relativePath) e (freshId n) now
          :: (scanStep1 m thumbs now freshId rest (n + 1)).1).map
        VideoData.relativePath).Nodup
      rw [List.map_cons]
      refine List.nodup_cons.2 ⟨?_, ih hnd' (n + 1)⟩
      rw [mkScanVideo_relativePath]
      intro hmem
      obtain ⟨w, hw, hwp⟩ := List.mem_map.1 hmem
      obtain ⟨e1, he1, k, hk, hneeds1, rfl⟩ :=
        scanStep1_mem m thumbs now freshId rest (n + 1) w hw
      rw [mkScanVideo_relativePath] at hwp
      exact hpe (hwp ▸ List.mem_map_of_mem (fun e => e.relativePath) he1)
    · rw [scanStep1_cons_neg hn]
      exact ih hnd' (n + 1)

/-- The not-found batch takes identifiers from distinct stored records in
store order. -/
theorem scanStep2_ids_sublist (paths : List String) :
    ∀ (vs : List VideoData),
      ((scanStep2 paths vs).map VideoData.id).Sublist (vs.map VideoData.id) := by
  intro vs
  induction vs with
  | nil => exact List.Sublist.refl _
  | cons v rest ih =>
    rw [scanStep2, List.filterMap_cons]
    by_cases hp : v.relativePath ∈ paths
    · rw [if_pos hp, List.map_cons]
      exact List.Sublist.cons _ ih
    · rw [if_neg hp]
      cases hnf : v.notFound with
      | true =>
        rw [if_pos rfl, List.map_cons]
        exact List.Sublist.cons _ ih
      | false =>
        rw [if_neg (by decide), List.map_cons, List.map_cons]
        exact List.Sublist.cons₂ _ ih

/-- The full batch written by a sync pass carries pairwise-distinct
identifiers. -/
theorem scanBatch_ids_nodup {V : List VideoData} {m : String → Option VideoData}
    (hm : ∀ p ev, m p = some ev → ev ∈ V ∧ ev.relativePath = p)
    (hVid : (V.map VideoData.id).Nodup) (hVne : ∀ w ∈ V, w.id ≠ "")
    {freshId : Nat → String} (hinj : Function.Injective freshId)
    (hfresh : ∀ k, ∀ w ∈ V, freshId k ≠ w.id)
    (thumbs : String → Bool) (now : Nat) {entries : List FileEntry}
    (hE : (entries.map (fun e => e.relativePath)).Nodup) :
    (((scanStep1 m thumbs now freshId entries 0).1
        ++ scanStep2 (entries.map (fun e => e.relativePath)) V).map
      VideoData.id).Nodup := by
  rw [List.map_append]
  refine List.Nodup.append
    (scanStep1_ids_nodup hm hVid hVne hinj hfresh thumbs now entries hE 0)
    (List.Sublist.nodup (scanStep2_ids_sublist _ V) hVid) ?_
  intro a ha1 ha2
  obtain ⟨w, hw, hwid⟩ := List.mem_map.1 ha1
  obtain ⟨x, hx, hxid⟩ := List.mem_map.1 ha2
  obtain ⟨e1, he1, k, hk, hneeds1, rfl⟩ :=
    scanStep1_mem m thumbs now freshId entries 0 w hw
  obtain ⟨v, hvV, hvp, hvnf, rfl⟩ := scanStep2_mem hx
  have hxv : ({ v with notFound := true } : VideoData).id = v.id := rfl
  cases hme1 : m e1.relativePath with
  | some ev1 =>
    obtain ⟨hev1V, hev1p⟩ := hm _ _ hme1
    rw [hme1, mkScanVideo_id_some (hVne ev1 hev1V)] at hwid
    have hvev : ev1 = v := mem_id_inj hVid hev1V hvV (by rw [hwid, ← hxid, hxv])
    refine hvp ?_
    rw [← hvev, hev1p]
    exact List.mem_map_of_mem (fun e => e.relativePath) he1
  | none =>
    rw [hme1, mkScanVideo_id_none] at hwid
    refine hfresh k v hvV ?_
    rw [hwid, ← hxid, hxv]

theorem uuidFixture_length (n : Nat) : (uuidFixture n).length = 5 + n := by
  rw [uuidFixture, String.length_append]
  have h1 : (String.mk (List.replicate n 'x')).length = (List.replicate n 'x').length := rfl
  rw [h1, List.length_replicate]
  rfl

theorem uuidFixture_injective : Function.Injective uuidFixture := by
  intro a b h
  have hl := congrArg String.length h
  rw [uuidFixture_length, uuidFixture_length] at hl
  omega

theorem uuidFixture_ne_empty (n : Nat) : uuidFixture n ≠ "" := by
  intro h
  have hl := congrArg String.length h
  rw [uuidFixture_length] at hl
  have h0 : ("" : String).length = 0 := rfl
  rw [h0] at hl
  omega

theorem uuidFixture_ne {s : String} (hlen : s.length = 5) (h0 : s ≠ "uuid-")
    (n : Nat) : uuidFixture n ≠ s := by
  intro h
  have hl := congrArg String.length h
  rw [uuidFixture_length, hlen] at hl
  have hn : n = 0 := by omega
  subst hn
  refine h0 ?_
  rw [← h]
  rfl

theorem uuidFixture_freshIds_mp4 : FreshIds uuidFixture mp4DB := by
  refine ⟨uuidFixture_injective, uuidFixture_ne_empty, ?_⟩
  intro n w hw
  have hw' : w = mp4Video := List.mem_singleton.1 hw
  subst hw'
  exact uuidFixture_ne (by decide) (by decide) n

theorem uuidFixture_freshIds_jpg : FreshIds uuidFixture jpgDB := by
  refine ⟨uuidFixture_injective, uuidFixture_ne_empty, ?_⟩
  intro n w hw
  have hw' : w = jpgVideo := List.mem_singleton.1 hw
  subst hw'
  exact uuidFixture_ne (by decide) (by decide) n

theorem uuidFixture_freshIds_lostJpg : FreshIds uuidFixture lostJpgDB := by
  refine ⟨uuidFixture_injective, uuidFixture_ne_empty, ?_⟩
  intro n w hw
  have hw' : w = lostJpgVideo := List.mem_singleton.1 hw
  subst hw'
  exact uuidFixture_ne (by decide) (by decide) n

theorem wellFormed_mp4 : WellFormedDB mp4DB :=
  ⟨by decide, by decide, by decide, by decide⟩

theorem wellFormed_jpg : WellFormedDB jpgDB :=
  ⟨by decide, by decide, by decide, by decide⟩

theorem wellFormed_lostJpg : WellFormedDB lostJpgDB :=
  ⟨by decide, by decide, by decide, by decide⟩

/-- Reduction of the needs-update test when no record exists at the path. -/
theorem scanNeeds_none {m : String → Option VideoData} {thumbs : String → Bool}
    {e : FileEntry} (hme : m e.relativePath = none) :
    scanNeeds m thumbs e = (true, isNativelyPlayableName e.name) := by
  rw [scanNeeds.eq_def, hme]

/-- Reduction of the needs-update test on an existing record. -/
theorem scanNeeds_some {m : String → Option VideoData} {thumbs : String → Bool}
    {e : FileEntry} {ev : VideoData} (hme : m e.relativePath = some ev) :
    scanNeeds m thumbs e
      = if ev.lastModified ≠ e.lastModified ∨ ev.notFound = true
        then (true, isNativelyPlayableName e.name)
        else if isNativelyPlayableName e.name && !(thumbs ev.id) then (true, true)
        else (false, false) := by
  rw [scanNeeds.eq_def, hme]

/-- When the needs-update test does not fire, the record exists, its
modification stamp matches, it is not missing, and no thumbnail repair is
due. -/
theorem scanNeeds_false {m : String → Option VideoData} {thumbs : String → Bool}
    {e : FileEntry} (h : (scanNeeds m thumbs e).1 = false) :
    ∃ ev, m e.relativePath = some ev ∧ ev.lastModified = e.lastModified ∧
      ev.notFound = false ∧
      (isNativelyPlayableName e.name && !(thumbs ev.id)) = false := by
  cases hme : m e.relativePath with
  | none =>
    rw [scanNeeds_none hme] at h
    cases h
  | some ev =>
    rw [scanNeeds_some hme] at h
    by_cases h1 : ev.lastModified ≠ e.lastModified ∨ ev.notFound = true
    · rw [if_pos h1] at h
      cases h
    · rw [if_neg h1] at h
      push_neg at h1
      have hnf : ev.notFound = false := by
        cases hnf2 : ev.notFound with
        | false => rfl
        | true => exact absurd hnf2 h1.2
      cases h2 : isNativelyPlayableName e.name && !(thumbs ev.id) with
      | true =>
        rw [if_pos h2] at h
        cases h
      | false =>
        exact ⟨ev, rfl, h1.1, hnf, h2⟩

/-- Looking up any stored record's identifier after the batch write of a
sync pass: the record is found unchanged, marked missing, or replaced by
the scan literal built over it — nothing else can carry its identifier. -/
theorem scanBatch_findById_char {V : List VideoData} {m : String → Option VideoData}
    (hm : ∀ p ev, m p = some ev →
      (∃ w ∈ V, ev = applyVideoDefaults w) ∧ ev.relativePath = p)
    (hVid : (V.map VideoData.id).Nodup) (hVne : ∀ w ∈ V, w.id ≠ "")
    {freshId : Nat → String} (hfresh : ∀ k, ∀ w ∈ V, freshId k ≠ w.id)
    (thumbs : String → Bool) (now : Nat) (entries : List FileEntry)
    (paths : List String) {r r' : VideoData} (hr : r ∈ V)
    (hr' : findById
        (((scanStep1 m thumbs now freshId entries 0).1
          ++ scanStep2 paths (V.map applyVideoDefaults)).foldl
          (fun acc v => putVideo (stripThumb v) acc) V) r.id = some r') :
    r' = r ∨ r' = { applyVideoDefaults r with notFound := true } ∨
      ∃ e ∈ entries, ∃ k, m e.relativePath = some (applyVideoDefaults r) ∧
        r' = mkScanVideo (some (applyVideoDefaults r)) e (freshId k) now := by
  rw [findById_foldl_put] at hr'
  cases hlk : lookupLast VideoData.id
      (((scanStep1 m thumbs now freshId entries 0).1
        ++ scanStep2 paths (V.map applyVideoDefaults)).map stripThumb) r.id with
  | none =>
    rw [hlk] at hr'
    replace hr' : findById V r.id = some r' := hr'
    have hfr : findById V r.id = some r := findById_of_mem_nodup hVid hr
    rw [hfr] at hr'
    exact Or.inl (Option.some.inj hr').symm
  | some w =>
    rw [hlk] at hr'
    replace hr' : some w = some r' := hr'
    have hw : w = r' := Option.some.inj hr'
    subst hw
    obtain ⟨hwmem, hwid⟩ := lookupLast_eq_some VideoData.id hlk
    obtain ⟨x, hx, hxw⟩ := List.mem_map.1 hwmem
    rcases List.mem_append.1 hx with hx1 | hx2
    · obtain ⟨e1, he1, k, _, hneeds1, rfl⟩ :=
        scanStep1_mem m thumbs now freshId entries 0 x hx1
      cases hme1 : m e1.relativePath with
      | some ev1 =>
        obtain ⟨⟨w1, hw1V, rfl⟩, hev1p⟩ := hm _ _ hme1
        rw [hme1, stripThumb_mkScanVideo] at hxw
        have hid1 : (applyVideoDefaults w1).id = r.id := by
          rw [← hwid, ← hxw, mkScanVideo_id_some
            (show (applyVideoDefaults w1).id ≠ "" from hVne w1 hw1V)]
        have hw1r : w1 = r := mem_id_inj hVid hw1V hr hid1
        subst hw1r
        exact Or.inr (Or.inr ⟨e1, he1, k, hme1, hxw.symm⟩)
      | none =>
        rw [hme1, stripThumb_mkScanVideo] at hxw
        exfalso
        refine hfresh k r hr ?_
        rw [← hwid, ← hxw, mkScanVideo_id_none]
    · obtain ⟨vd, hvdL, hvp, hvnf, rfl⟩ := scanStep2_mem hx2
      obtain ⟨v, hvV, rfl⟩ := List.mem_map.1 hvdL
      rw [stripThumb_eq_self
        (show ({ applyVideoDefaults v with notFound := true } : VideoData).thumbnail
          = none from rfl)] at hxw
      have hvid : v.id = r.id := by
        rw [← hwid, ← hxw]
        rfl
      have hvr : v = r := mem_id_inj hVid hvV hr hvid
      subst hvr
      exact Or.inr (Or.inl hxw.symm)

/-- A stored record whose path was not observed and that was not already
missing is found, after the batch write, exactly as before but marked
missing. -/
theorem scanBatch_findById_unobserved {V : List VideoData}
    {m : String → Option VideoData}
    (hm : ∀ p ev, m p = some ev →
      (∃ w ∈ V, ev = applyVideoDefaults w) ∧ ev.relativePath = p)
    (hVid : (V.map VideoData.id).Nodup) (hVne : ∀ w ∈ V, w.id ≠ "")
    {freshId : Nat → String} (hfresh : ∀ k, ∀ w ∈ V, freshId k ≠ w.id)
    (thumbs : String → Bool) (now : Nat) (entries : List FileEntry)
    {r : VideoData} (hr : r ∈ V)
    (hrp : r.relativePath ∉ entries.map (fun e => e.relativePath))
    (hrnf : r.notFound = false) :
    findById (((scanStep1 m thumbs now freshId entries 0).1
        ++ scanStep2 (entries.map (fun e => e.relativePath))
            (V.map applyVideoDefaults)).foldl
      (fun acc v => putVideo (stripThumb v) acc) V) r.id
      = some { applyVideoDefaults r with notFound := true } := by
  rw [findById_foldl_put]
  have hstrip : stripThumb { applyVideoDefaults r with notFound := true }
      = { applyVideoDefaults r with notFound := true } := stripThumb_eq_self rfl
  have hlk : lookupLast VideoData.id
      (((scanStep1 m thumbs now freshId entries 0).1
        ++ scanStep2 (entries.map (fun e => e.relativePath))
            (V.map applyVideoDefaults)).map stripThumb) r.id
      = some { applyVideoDefaults r with notFound := true } := by
    refine lookupLast_of_unique VideoData.id ?_ rfl ?_
    · rw [← hstrip]
      refine List.mem_map_of_mem stripThumb (List.mem_append_right _ ?_)
      exact scanStep2_emit (List.mem_map_of_mem applyVideoDefaults hr) hrp hrnf
    · intro y hy hyid
      obtain ⟨x, hx, rfl⟩ := List.mem_map.1 hy
      rcases List.mem_append.1 hx with hx1 | hx2
      · obtain ⟨e1, he1, k, _, _, rfl⟩ :=
          scanStep1_mem m thumbs now freshId entries 0 x hx1
        exfalso
        cases hme1 : m e1.relativePath with
        | some ev1 =>
          obtain ⟨⟨w1, hw1V, rfl⟩, hev1p⟩ := hm _ _ hme1
          rw [hme1, stripThumb_mkScanVideo, mkScanVideo_id_some
            (show (applyVideoDefaults w1).id ≠ "" from hVne w1 hw1V)] at hyid
          have hw1r : w1 = r := mem_id_inj hVid hw1V hr hyid
          refine hrp ?_
          have hre : r.relativePath = e1.relativePath := by
            rw [← hw1r]
            exact hev1p
          rw [hre]
          exact List.mem_map_of_mem (fun e => e.relativePath) he1
        | none =>
          rw [hme1, stripThumb_mkScanVideo, mkScanVideo_id_none] at hyid
          exact hfresh k r hr hyid
      · obtain ⟨vd, hvdL, hvp, hvnf, rfl⟩ := scanStep2_mem hx2
        obtain ⟨v, hvV, rfl⟩ := List.mem_map.1 hvdL
        rw [stripThumb_eq_self
          (show ({ applyVideoDefaults v with notFound := true } : VideoData).thumbnail
            = none from rfl)] at hyid ⊢
        have hvr : v = r := mem_id_inj hVid hvV hr hyid
        rw [hvr]
  rw [hlk]

/-- A stored record whose path was observed by a file whose needs-update
test fired is found, after the batch write, as the scan literal built
over it. -/
theorem scanBatch_findById_observed {V : List VideoData}
    {m : String → Option VideoData}
    (hm : ∀ p ev, m p = some ev →
      (∃ w ∈ V, ev = applyVideoDefaults w) ∧ ev.relativePath = p)
    (hVid : (V.map VideoData.id).Nodup) (hVne : ∀ w ∈ V, w.id ≠ "")
    {freshId : Nat → String} (hfresh : ∀ k, ∀ w ∈ V, freshId k ≠ w.id)
    {thumbs : String → Bool} {now : Nat} {entries : List FileEntry}
    (hE : (entries.map (fun e => e.relativePath)).Nodup)
    {r : VideoData} {e : FileEntry} (hr : r ∈ V) (he : e ∈ entries)
    (hme : m e.relativePath = some (applyVideoDefaults r))
    (hneeds : (scanNeeds m thumbs e).1 = true) :
    ∃ k, findById (((scanStep1 m thumbs now freshId entries 0).1
        ++ scanStep2 (entries.map (fun e => e.relativePath))
            (V.map applyVideoDefaults)).foldl
      (fun acc v => putVideo (stripThumb v) acc) V) r.id
      = some (mkScanVideo (some (applyVideoDefaults r)) e (freshId k) now) := by
  obtain ⟨k0, hk0⟩ := scanStep1_emit m thumbs now freshId entries 0 e he hneeds
  rw [hme] at hk0
  refine ⟨k0, ?_⟩
  rw [findById_foldl_put]
  have hrne : (applyVideoDefaults r).id ≠ "" := hVne r hr
  have hrp : r.relativePath = e.relativePath := (hm _ _ hme).2
  have hlk : lookupLast VideoData.id
      (((scanStep1 m thumbs now freshId entries 0).1
        ++ scanStep2 (entries.map (fun e => e.relativePath))
            (V.map applyVideoDefaults)).map stripThumb) r.id
      = some (mkScanVideo (some (applyVideoDefaults r)) e (freshId k0) now) := by
    refine lookupLast_of_unique VideoData.id ?_ ?_ ?_
    · rw [← stripThumb_mkScanVideo]
      exact List.mem_map_of_mem stripThumb (List.mem_append_left _ hk0)
    · rw [mkScanVideo_id_some hrne]
      rfl
    · intro y hy hyid
      obtain ⟨x, hx, rfl⟩ := List.mem_map.1 hy
      rcases List.mem_append.1 hx with hx1 | hx2
      · obtain ⟨e1, he1, k1, _, _, rfl⟩ :=
          scanStep1_mem m thumbs now freshId entries 0 x hx1
        cases hme1 : m e1.relativePath with
        | some ev1 =>
          obtain ⟨⟨w1, hw1V, rfl⟩, hev1p⟩ := hm _ _ hme1
          rw [hme1, stripThumb_mkScanVideo, mkScanVideo_id_some
            (show (applyVideoDefaults w1).id ≠ "" from hVne w1 hw1V)] at hyid
          rw [stripThumb_mkScanVideo]
          have hw1r : w1 = r := mem_id_inj hVid hw1V hr hyid
          subst hw1r
          have hpe : e1.relativePath = e.relativePath := by
            rw [← hev1p]
            exact hrp
          have he1e : e1 = e := List.inj_on_of_nodup_map hE he1 he hpe
          subst he1e
          exact mkScanVideo_fid_irrel hrne _ _ _ now
        | none =>
          rw [hme1, stripThumb_mkScanVideo, mkScanVideo_id_none] at hyid
          exact absurd hyid (hfresh k1 r hr)
      · obtain ⟨vd, hvdL, hvp, hvnf, rfl⟩ := scanStep2_mem hx2
        obtain ⟨v, hvV, rfl⟩ := List.mem_map.1 hvdL
        rw [stripThumb_eq_self
          (show ({ applyVideoDefaults v with notFound := true } : VideoData).thumbnail
            = none from rfl)] at hyid
        have hvr : v = r := mem_id_inj hVid hvV hr hyid
        exfalso
        refine hvp ?_
        rw [show (applyVideoDefaults v).relativePath = v.relativePath from rfl,
          hvr, hrp]
        exact List.mem_map_of_mem (fun e => e.relativePath) he
  rw [hlk]

/-- Every batch record reaches the final store when the batch identifiers
are pairwise distinct (a later write never overwrites it). -/
theorem foldl_put_mem_of_nodup (vs : List VideoData) :
    ∀ (l : List VideoData), (vs.map VideoData.id).Nodup →
      ∀ x ∈ vs, stripThumb x ∈ vs.foldl (fun acc v => putVideo (stripThumb v) acc) l := by
  induction vs with
  | nil => intro l _ x hx; cases hx
  | cons v rest ih =>
    intro l hnd x hx
    rw [List.foldl_cons]
    have hndr : (rest.map VideoData.id).Nodup :=
      (List.nodup_cons.1 (by simpa using hnd)).2
    rcases List.mem_cons.1 hx with rfl | hx1
    · refine mem_foldl_put_of_no_write rest _ _ (self_mem_putVideo _ _) ?_
      intro u hu hcontra
      have hcontra' : u.id = x.id := hcontra
      have hv : x.id ∉ rest.map VideoData.id := (List.nodup_cons.1 (by simpa using hnd)).1
      exact hv (hcontra' ▸ List.mem_map_of_mem VideoData.id hu)
    · exact ih _ hndr x hx1

theorem dbState_ext (a b : DBState) (h1 : a.videos = b.videos)
    (h2 : a.mainThumbs = b.mainThumbs) (h3 : a.timelineThumbs = b.timelineThumbs) :
    a = b := by
  cases a with
  | mk v1 m1 t1 =>
    cases b with
    | mk v2 m2 t2 =>
      have h1' : v1 = v2 := h1
      have h2' : m1 = m2 := h2
      have h3' : t1 = t2 := h3
      rw [h1', h2', h3']

/-- After a sync pass, every record whose path was not observed carries
`notFound = true`: step 2 marks the live ones and step 1 only writes
observed paths. -/
theorem scanPass_unobserved_marked {V : List VideoData}
    {m : String → Option VideoData} (hVid : (V.map VideoData.id).Nodup)
    {freshId : Nat → String} (thumbs : String → Bool) (now : Nat)
    {entries : List FileEntry} :
    ∀ v ∈ ((scanStep1 m thumbs now freshId entries 0).1
        ++ scanStep2 (entries.map (fun e => e.relativePath))
            (V.map applyVideoDefaults)).foldl
          (fun acc v => putVideo (stripThumb v) acc) V,
      v.relativePath ∉ entries.map (fun e => e.relativePath) → v.notFound = true := by
  intro v hv hvp
  rcases mem_foldl_put_strong _ V v hVid hv with ⟨x, hxB, rfl⟩ | ⟨hvV, hnw⟩
  · rcases List.mem_append.1 hxB with hx1 | hx2
    · obtain ⟨e1, he1, k, _, _, rfl⟩ :=
        scanStep1_mem m thumbs now freshId entries 0 x hx1
      exfalso
      refine hvp ?_
      rw [stripThumb_mkScanVideo, mkScanVideo_relativePath]
      exact List.mem_map_of_mem (fun e => e.relativePath) he1
    · obtain ⟨u, huL, hup, hunf, rfl⟩ := scanStep2_mem hx2
      rfl
  · cases hnf : v.notFound with
    | true => rfl
    | false =>
      exfalso
      refine hnw _ (List.mem_append_right _
        (scanStep2_emit (List.mem_map_of_mem applyVideoDefaults hvV) hvp hnf)) ?_
      rfl

/-- The key second-pass fact: every observed file looks up, in the store
left by a first pass, a record whose scan literal rebuilds that very
record whenever the needs-update test fires again.  (Either the first
pass rewrote the file's record — then the literal is idempotent — or it
left an up-to-date record for which the test cannot fire.) -/
theorem scanPass_second_lookup {V : List VideoData}
    (hVid : (V.map VideoData.id).Nodup)
    (hVpath : (V.map VideoData.relativePath).Nodup)
    (hVne : ∀ w ∈ V, w.id ≠ "")
    {freshId : Nat → String} (hinj : Function.Injective freshId)
    (hfne : ∀ n, freshId n ≠ "") (hfresh : ∀ k, ∀ w ∈ V, freshId k ≠ w.id)
    (thumbs : String → Bool) {now : Nat} (hnow : now ≠ 0)
    {entries : List FileEntry} (hE : (entries.map (fun e => e.relativePath)).Nodup)
    {e : FileEntry} (he : e ∈ entries) :
    ∀ fid2 now2,
      (scanNeeds (lookupByPath
          ((((scanStep1 (lookupByPath (V.map applyVideoDefaults)) thumbs now freshId
                entries 0).1
            ++ scanStep2 (entries.map (fun e => e.relativePath))
                (V.map applyVideoDefaults)).foldl
              (fun acc v => putVideo (stripThumb v) acc) V).map applyVideoDefaults))
          thumbs e).1 = true →
      stripThumb (mkScanVideo
          (lookupByPath
            ((((scanStep1 (lookupByPath (V.map applyVideoDefaults)) thumbs now freshId
                  entries 0).1
              ++ scanStep2 (entries.map (fun e => e.relativePath))
                  (V.map applyVideoDefaults)).foldl
                (fun acc v => putVideo (stripThumb v) acc) V).map applyVideoDefaults)
            e.relativePath) e fid2 now2)
        ∈ (((scanStep1 (lookupByPath (V.map applyVideoDefaults)) thumbs now freshId
              entries 0).1
          ++ scanStep2 (entries.map (fun e => e.relativePath))
              (V.map applyVideoDefaults)).foldl
            (fun acc v => putVideo (stripThumb v) acc) V) := by
  have hmL : ∀ p ev, lookupByPath (V.map applyVideoDefaults) p = some ev →
      ev ∈ V.map applyVideoDefaults ∧ ev.relativePath = p :=
    fun p ev h => lookupByPath_some h
  have hm : ∀ p ev, lookupByPath (V.map applyVideoDefaults) p = some ev →
      (∃ w ∈ V, ev = applyVideoDefaults w) ∧ ev.relativePath = p := by
    intro p ev h
    obtain ⟨hmem, hp⟩ := lookupByPath_some h
    obtain ⟨a, ha, hae⟩ := List.mem_map.1 hmem
    exact ⟨⟨a, ha, hae.symm⟩, hp⟩
  have hLid : ((V.map applyVideoDefaults).map VideoData.id).Nodup := by
    rw [map_id_map_defaults]
    exact hVid
  have hLne : ∀ w ∈ V.map applyVideoDefaults, w.id ≠ "" := by
    intro w hw
    obtain ⟨u, hu, rfl⟩ := List.mem_map.1 hw
    exact hVne u hu
  have hLfresh : ∀ k, ∀ w ∈ V.map applyVideoDefaults, freshId k ≠ w.id := by
    intro k w hw
    obtain ⟨u, hu, rfl⟩ := List.mem_map.1 hw
    exact hfresh k u hu
  have hS1paths : (((scanStep1 (lookupByPath (V.map applyVideoDefaults)) thumbs now
      freshId entries 0).1).map VideoData.relativePath).Nodup :=
    scanStep1_paths_nodup entries hE 0
  have hmapdef : ∀ (l : List VideoData) (p : String),
      lookupByPath (l.map applyVideoDefaults) p
        = (lookupByPath l p).map applyVideoDefaults :=
    fun l p =>
      lookupLast_map VideoData.relativePath applyVideoDefaults_relativePath l p
  by_cases hneeds1 : (scanNeeds (lookupByPath (V.map applyVideoDefaults)) thumbs e).1
      = true
  · obtain ⟨k0, hk0⟩ := scanStep1_emit (lookupByPath (V.map applyVideoDefaults))
      thumbs now freshId entries 0 e he hneeds1
    have hBnodup : ((((scanStep1 (lookupByPath (V.map applyVideoDefaults)) thumbs now
        freshId entries 0).1
        ++ scanStep2 (entries.map (fun e => e.relativePath))
            (V.map applyVideoDefaults))).map VideoData.id).Nodup :=
      scanBatch_ids_nodup hmL hLid hLne hinj hLfresh thumbs now hE
    have hidne : (mkScanVideo (lookupByPath (V.map applyVideoDefaults) e.relativePath)
        e (freshId k0) now).id ≠ "" := by
      cases hme : lookupByPath (V.map applyVideoDefaults) e.relativePath with
      | some ev =>
        rw [mkScanVideo_id_some (hLne ev (hmL _ _ hme).1)]
        exact hLne ev (hmL _ _ hme).1
      | none =>
        rw [mkScanVideo_id_none]
        exact hfne k0
    have hdane : (mkScanVideo (lookupByPath (V.map applyVideoDefaults) e.relativePath)
        e (freshId k0) now).dateAdded ≠ 0 := by
      cases hme : lookupByPath (V.map applyVideoDefaults) e.relativePath with
      | some ev =>
        show jsOrNat ev.dateAdded now ≠ 0
        exact jsOrNat_ne_zero hnow
      | none =>
        show now ≠ 0
        exact hnow
    have hmemR : mkScanVideo (lookupByPath (V.map applyVideoDefaults) e.relativePath)
        e (freshId k0) now
        ∈ ((scanStep1 (lookupByPath (V.map applyVideoDefaults)) thumbs now freshId
              entries 0).1
          ++ scanStep2 (entries.map (fun e => e.relativePath))
              (V.map applyVideoDefaults)).foldl
            (fun acc v => putVideo (stripThumb v) acc) V := by
      have hh := foldl_put_mem_of_nodup _ V hBnodup _ (List.mem_append_left _ hk0)
      rw [stripThumb_mkScanVideo] at hh
      exact hh
    have hlookR : lookupByPath
        (((scanStep1 (lookupByPath (V.map applyVideoDefaults)) thumbs now freshId
              entries 0).1
          ++ scanStep2 (entries.map (fun e => e.relativePath))
              (V.map applyVideoDefaults)).foldl
            (fun acc v => putVideo (stripThumb v) acc) V) e.relativePath
        = some (mkScanVideo (lookupByPath (V.map applyVideoDefaults) e.relativePath)
            e (freshId k0) now) := by
      refine lookupLast_of_unique VideoData.relativePath hmemR
        (mkScanVideo_relativePath _ _ _ _) ?_
      intro y hy hyp
      rcases mem_foldl_put_strong _ V y hVid hy with ⟨x, hxB, rfl⟩ | ⟨hyV, hnw⟩
      · rcases List.mem_append.1 hxB with hx1 | hx2
        · obtain ⟨e1, he1, k1, _, _, rfl⟩ :=
            scanStep1_mem (lookupByPath (V.map applyVideoDefaults)) thumbs now
              freshId entries 0 x hx1
          rw [stripThumb_mkScanVideo] at hyp ⊢
          rw [mkScanVideo_relativePath] at hyp
          exact List.inj_on_of_nodup_map hS1paths hx1 hk0 (by
            rw [mkScanVideo_relativePath, mkScanVideo_relativePath]
            exact hyp)
        · obtain ⟨vd, hvdL, hvp, hvnf, rfl⟩ := scanStep2_mem hx2
          exfalso
          refine hvp ?_
          have hyp2 : vd.relativePath = e.relativePath := hyp
          rw [hyp2]
          exact List.mem_map_of_mem (fun e => e.relativePath) he
      · exfalso
        cases hme : lookupByPath (V.map applyVideoDefaults) e.relativePath with
        | some ev =>
          obtain ⟨⟨w1, hw1V, rfl⟩, hevp⟩ := hm _ _ hme
          have hyev : y = w1 := mem_path_inj hVpath hyV hw1V (by
            rw [hyp]
            exact hevp.symm)
          refine hnw _ (List.mem_append_left _ hk0) ?_
          rw [stripThumb_mkScanVideo, hme, mkScanVideo_id_some
            (show (applyVideoDefaults w1).id ≠ "" from hVne w1 hw1V), hyev]
          rfl
        | none =>
          refine absurd hyp (lookupLast_ne_of_eq_none VideoData.relativePath hme
            (applyVideoDefaults y) (List.mem_map_of_mem applyVideoDefaults hyV))
    have hrecfix : applyVideoDefaults
        (mkScanVideo (lookupByPath (V.map applyVideoDefaults) e.relativePath) e
          (freshId k0) now)
        = mkScanVideo (lookupByPath (V.map applyVideoDefaults) e.relativePath) e
          (freshId k0) now := applyVideoDefaults_eq_self rfl hdane rfl
    have hL2 : lookupByPath
        ((((scanStep1 (lookupByPath (V.map applyVideoDefaults)) thumbs now freshId
              entries 0).1
          ++ scanStep2 (entries.map (fun e => e.relativePath))
              (V.map applyVideoDefaults)).foldl
            (fun acc v => putVideo (stripThumb v) acc) V).map applyVideoDefaults)
        e.relativePath
        = some (mkScanVideo (lookupByPath (V.map applyVideoDefaults) e.relativePath)
            e (freshId k0) now) := by
      rw [hmapdef _ _, hlookR]
      show some (applyVideoDefaults _) = _
      rw [hrecfix]
    intro fid2 now2 _
    rw [hL2, mkScanVideo_idem _ e (freshId k0) fid2 now2 hnow hidne,
      stripThumb_mkScanVideo]
    exact hmemR
  · have hfalse : (scanNeeds (lookupByPath (V.map applyVideoDefaults)) thumbs e).1
        = false := by
      cases h2 : (scanNeeds (lookupByPath (V.map applyVideoDefaults)) thumbs e).1 with
      | false => rfl
      | true => exact absurd h2 hneeds1
    obtain ⟨ev, hme, hlm, hnf2, hthumbF⟩ := scanNeeds_false hfalse
    obtain ⟨⟨w1, hw1V, rfl⟩, hevp⟩ := hm _ _ hme
    have hevp1 : w1.relativePath = e.relativePath := hevp
    have hnw : ∀ x ∈ (scanStep1 (lookupByPath (V.map applyVideoDefaults)) thumbs now
        freshId entries 0).1
        ++ scanStep2 (entries.map (fun e => e.relativePath))
            (V.map applyVideoDefaults),
        (stripThumb x).id ≠ w1.id := by
      intro x hx hxid
      rcases List.mem_append.1 hx with hx1 | hx2
      · obtain ⟨e1, he1, k1, _, hneedsx, rfl⟩ :=
          scanStep1_mem (lookupByPath (V.map applyVideoDefaults)) thumbs now freshId
            entries 0 x hx1
        cases hme1 : lookupByPath (V.map applyVideoDefaults) e1.relativePath with
        | some ev1 =>
          obtain ⟨⟨u1, hu1V, rfl⟩, hev1p⟩ := hm _ _ hme1
          rw [hme1, stripThumb_mkScanVideo, mkScanVideo_id_some
            (show (applyVideoDefaults u1).id ≠ "" from hVne u1 hu1V)] at hxid
          have hu1w : u1 = w1 := mem_id_inj hVid hu1V hw1V hxid
          have hpp : e1.relativePath = e.relativePath := by
            rw [← hev1p, hu1w]
            exact hevp1
          have he1e : e1 = e := List.inj_on_of_nodup_map hE he1 he hpp
          subst he1e
          exact hneeds1 hneedsx
        | none =>
          rw [hme1, stripThumb_mkScanVideo, mkScanVideo_id_none] at hxid
          exact hfresh k1 w1 hw1V hxid
      · obtain ⟨vd, hvdL, hvp, hvnf, rfl⟩ := scanStep2_mem hx2
        obtain ⟨v, hvV, rfl⟩ := List.mem_map.1 hvdL
        have hvw : v = w1 := mem_id_inj hVid hvV hw1V hxid
        refine hvp ?_
        rw [show (applyVideoDefaults v).relativePath = v.relativePath from rfl,
          hvw, hevp1]
        exact List.mem_map_of_mem (fun e => e.relativePath) he
    have hmemR : w1 ∈ ((scanStep1 (lookupByPath (V.map applyVideoDefaults)) thumbs
          now freshId entries 0).1
        ++ scanStep2 (entries.map (fun e => e.relativePath))
            (V.map applyVideoDefaults)).foldl
          (fun acc v => putVideo (stripThumb v) acc) V :=
      mem_foldl_put_of_no_write _ _ _ hw1V hnw
    have hlookR : lookupByPath
        (((scanStep1 (lookupByPath (V.map applyVideoDefaults)) thumbs now freshId
              entries 0).1
          ++ scanStep2 (entries.map (fun e => e.relativePath))
              (V.map applyVideoDefaults)).foldl
            (fun acc v => putVideo (stripThumb v) acc) V) e.relativePath
        = some w1 := by
      refine lookupLast_of_unique VideoData.relativePath hmemR hevp1 ?_
      intro y hy hyp
      rcases mem_foldl_put_strong _ V y hVid hy with ⟨x, hxB, rfl⟩ | ⟨hyV, _⟩
      · rcases List.mem_append.1 hxB with hx1 | hx2
        · obtain ⟨e1, he1, k1, _, hneedsx, rfl⟩ :=
            scanStep1_mem (lookupByPath (V.map applyVideoDefaults)) thumbs now
              freshId entries 0 x hx1
          exfalso
          rw [stripThumb_mkScanVideo, mkScanVideo_relativePath] at hyp
          have he1e : e1 = e := List.inj_on_of_nodup_map hE he1 he hyp
          subst he1e
          exact hneeds1 hneedsx
        · obtain ⟨vd, hvdL, hvp, hvnf, rfl⟩ := scanStep2_mem hx2
          exfalso
          refine hvp ?_
          have hyp2 : vd.relativePath = e.relativePath := hyp
          rw [hyp2]
          exact List.mem_map_of_mem (fun e => e.relativePath) he
      · refine mem_path_inj hVpath hyV hw1V ?_
        rw [hyp]
        exact hevp1.symm
    have hL2 : lookupByPath
        ((((scanStep1 (lookupByPath (V.map applyVideoDefaults)) thumbs now freshId
              entries 0).1
          ++ scanStep2 (entries.map (fun e => e.relativePath))
              (V.map applyVideoDefaults)).foldl
            (fun acc v => putVideo (stripThumb v) acc) V).map applyVideoDefaults)
        e.relativePath
        = some (applyVideoDefaults w1) := by
      rw [hmapdef _ _, hlookR]
      rfl
    intro fid2 now2 hcontra
    rw [scanNeeds_some hL2] at hcontra
    rw [if_neg (by rw [hlm, hnf2]; simp)] at hcontra
    rw [hthumbF, if_neg (by decide)] at hcontra
    cases hcontra

/-! ### Claim C2 -/

/-- C2 counterexample: a sync pass re-hides a user-unhidden image whose
relative path persists across the pass — the `hidden: existingVideo?.hidden
|| isJpg` literal sets the hidden flag for a `.jpg` file even though the
stored record had it cleared, so the hidden flag is not preserved. -/
theorem c2_scan_hidden_flag_counterexample :
    jpgVideo ∈ jpgDB.videos ∧ jpgVideo.hidden = false ∧
    jpgEntry.relativePath = jpgVideo.relativePath ∧
    findById (scanFiles [jpgEntry] jpgDB uuidFixture 7).1.videos jpgVideo.id
      = some (mkScanVideo (some jpgVideo) jpgEntry (uuidFixture 0) 7) ∧
    (mkScanVideo (some jpgVideo) jpgEntry (uuidFixture 0) 7).relativePath
      = jpgVideo.relativePath ∧
    (mkScanVideo (some jpgVideo) jpgEntry (uuidFixture 0) 7).hidden = true := by
  refine ⟨by decide, by decide, by decide, by decide, by decide, by decide⟩

/-- C2 (amended): for every observed file set and prior record set
(under the store invariants: unique non-empty identifiers, unique paths,
no stored thumbnail payloads, collision-free fresh identifiers), a sync
pass never changes the rating, tags, hearted, deleted, title, saved
playback position, seen flag, open count, or relative path of any stored
record, however it is found after the pass; the hidden flag is only ever
preserved or set (never cleared) — a `.jpg` file re-hides its record even
if the user had unhidden it (see the counterexample). -/
theorem c2_scan_preserves_user_metadata_amended
    (files : List FileEntry) (db : DBState) (freshId : Nat → String) (now : Nat)
    (hWF : WellFormedDB db) (hF : FreshIds freshId db)
    (r r' : VideoData) (hr : r ∈ db.videos)
    (hr' : findById (scanFiles files db freshId now).1.videos r.id = some r') :
    r'.rating = r.rating ∧ r'.seen = r.seen ∧ r'.tags = r.tags ∧
    r'.hearted = r.hearted ∧ r'.deleted = r.deleted ∧ r'.title = r.title ∧
    r'.currentTime = r.currentTime ∧ r'.timesOpened = r.timesOpened ∧
    r'.relativePath = r.relativePath ∧ (r.hidden = true → r'.hidden = true) := by
  obtain ⟨hVid, hVpath, hVne, hVthumb⟩ := hWF
  obtain ⟨hinj, hfne, hfresh⟩ := hF
  rw [scanFiles_videos, getAllVideos_def] at hr'
  have hm : ∀ p ev, lookupByPath (db.videos.map applyVideoDefaults) p = some ev →
      (∃ w ∈ db.videos, ev = applyVideoDefaults w) ∧ ev.relativePath = p := by
    intro p ev h
    obtain ⟨hmem, hp⟩ := lookupByPath_some h
    obtain ⟨a, ha, hae⟩ := List.mem_map.1 hmem
    exact ⟨⟨a, ha, hae.symm⟩, hp⟩
  rcases scanBatch_findById_char hm hVid hVne hfresh _ now _ _ hr hr'
    with hcase | hcase | ⟨e, he, k, hme, hcase⟩
  · subst hcase
    exact ⟨rfl, rfl, rfl, rfl, rfl, rfl, rfl, rfl, rfl, fun h => h⟩
  · subst hcase
    exact ⟨rfl, rfl, rfl, rfl, rfl, rfl, rfl, rfl, rfl, fun h => h⟩
  · subst hcase
    obtain ⟨f1, f2, f3, f4, f5, f6, f7, f8, f9, f10⟩ :=
      mkScanVideo_some_fields (applyVideoDefaults r) e (freshId k) now
    refine ⟨f1, f2, f3, f4, f5, f6, f7, f9, ?_, ?_⟩
    · rw [mkScanVideo_relativePath]
      exact (hm _ _ hme).2.symm
    · intro h
      rw [f8]
      have hh : (applyVideoDefaults r).hidden = true := h
      rw [hh]
      rfl

/-- Witness for C2 at concrete inputs: scanning the unchanged playable
sample library leaves its record untouched. -/
theorem c2_scan_preserves_user_metadata_amended_witness :
    WellFormedDB mp4DB ∧ FreshIds uuidFixture mp4DB ∧
    findById (scanFiles [mp4Entry] mp4DB uuidFixture 7).1.videos mp4Video.id
      = some mp4Video ∧
    mp4Video.rating = mp4Video.rating ∧
    (mp4Video.hidden = true → mp4Video.hidden = true) := by
  have h := c2_scan_preserves_user_metadata_amended [mp4Entry] mp4DB uuidFixture 7
    wellFormed_mp4 uuidFixture_freshIds_mp4 mp4Video mp4Video (by decide) (by decide)
  exact ⟨wellFormed_mp4, uuidFixture_freshIds_mp4, by decide, h.1,
    h.2.2.2.2.2.2.2.2.2⟩

/-! ### Claim C4 -/

/-- C4 counterexample: a missing image record whose path reappears is
rediscovered, but the pass flips its hidden flag to true (the `|| isJpg`
default) and replaces its falsy zero `dateAdded` with its `lastModified`
stamp (the load-time `dateAdded || lastModified || 0` default) — so
re-adding the same path does not preserve all prior user metadata. -/
theorem c4_notFound_reappear_counterexample :
    lostJpgVideo ∈ lostJpgDB.videos ∧ lostJpgVideo.notFound = true ∧
    lostJpgVideo.hidden = false ∧ lostJpgVideo.dateAdded = 0 ∧
    lostJpgVideo.lastModified = 2 ∧
    jpgEntry.relativePath = lostJpgVideo.relativePath ∧
    findById (scanFiles [jpgEntry] lostJpgDB uuidFixture 7).1.videos lostJpgVideo.id
      = some (mkScanVideo (some (applyVideoDefaults lostJpgVideo)) jpgEntry
          (uuidFixture 0) 7) ∧
    (mkScanVideo (some (applyVideoDefaults lostJpgVideo)) jpgEntry
      (uuidFixture 0) 7).notFound = false ∧
    (mkScanVideo (some (applyVideoDefaults lostJpgVideo)) jpgEntry
      (uuidFixture 0) 7).hidden = true ∧
    (mkScanVideo (some (applyVideoDefaults lostJpgVideo)) jpgEntry
      (uuidFixture 0) 7).dateAdded = 2 := by
  refine ⟨by decide, by decide, by decide, by decide, by decide, by decide, by decide,
    by decide, by decide, by decide⟩

/-- C4 (amended): under the store invariants, (1) every stored record
whose relative path is absent from the observed set and that is not
already missing is found after the pass marked `notFound = true` over its
loaded image (the load-time defaults replace a falsy zero `dateAdded` by
`lastModified`); when its stamp is truthy and it stores no content hash
the loaded image is the record itself, so no other field changes; (2)
every missing record whose path reappears (observed file sets with
duplicate-free paths) is found after the pass rediscovered
(`notFound = false`) with its identifier, path, rating, seen flag, tags,
hearted/deleted flags, title, saved position and open count preserved —
but its hidden flag becomes `hidden || isJpg` and its `dateAdded` becomes
`(dateAdded || lastModified) || now` (the JS `||` defaults at load and
scan time; see the counterexample). -/
theorem c4_notFound_transitions_amended
    (files : List FileEntry) (db : DBState) (freshId : Nat → String) (now : Nat)
    (hWF : WellFormedDB db) (hF : FreshIds freshId db) :
    (∀ r ∈ db.videos,
      r.relativePath ∉ (files.filter (fun e => decide (e.relativePath ≠ ""))).map
        (fun e => e.relativePath) →
      r.notFound = false →
      findById (scanFiles files db freshId now).1.videos r.id
        = some { applyVideoDefaults r with notFound := true } ∧
      (r.dateAdded ≠ 0 → r.contentHash = none →
        findById (scanFiles files db freshId now).1.videos r.id
          = some { r with notFound := true })) ∧
    (∀ r ∈ db.videos, ∀ e ∈ files,
      ((files.filter (fun e => decide (e.relativePath ≠ ""))).map
        (fun e => e.relativePath)).Nodup →
      e.relativePath = r.relativePath → e.relativePath ≠ "" →
      r.notFound = true →
      ∃ r', findById (scanFiles files db freshId now).1.videos r.id = some r' ∧
        r'.notFound = false ∧ r'.id = r.id ∧ r'.relativePath = r.relativePath ∧
        r'.rating = r.rating ∧ r'.seen = r.seen ∧ r'.tags = r.tags ∧
        r'.hearted = r.hearted ∧ r'.deleted = r.deleted ∧ r'.title = r.title ∧
        r'.currentTime = r.currentTime ∧ r'.timesOpened = r.timesOpened ∧
        r'.hidden = (r.hidden || isJpgName e.name) ∧
        r'.dateAdded = jsOrNat (jsOrNat r.dateAdded r.lastModified) now) := by
  obtain ⟨hVid, hVpath, hVne, hVthumb⟩ := hWF
  obtain ⟨hinj, hfne, hfresh⟩ := hF
  have hm : ∀ p ev, lookupByPath (db.videos.map applyVideoDefaults) p = some ev →
      (∃ w ∈ db.videos, ev = applyVideoDefaults w) ∧ ev.relativePath = p := by
    intro p ev h
    obtain ⟨hmem, hp⟩ := lookupByPath_some h
    obtain ⟨a, ha, hae⟩ := List.mem_map.1 hmem
    exact ⟨⟨a, ha, hae.symm⟩, hp⟩
  constructor
  · intro r hr hrp hrnf
    have h1 : findById (scanFiles files db freshId now).1.videos r.id
        = some { applyVideoDefaults r with notFound := true } := by
      rw [scanFiles_videos, getAllVideos_def]
      exact scanBatch_findById_unobserved hm hVid hVne hfresh _ now _ hr hrp hrnf
    refine ⟨h1, ?_⟩
    intro hda hch
    rw [h1, applyVideoDefaults_eq_self (hVthumb r hr) hda hch]
  · intro r hr e he hE hep hene hrnf
    have heE : e ∈ files.filter (fun e => decide (e.relativePath ≠ "")) :=
      List.mem_filter.2 ⟨he, by simp [hene]⟩
    have hme : lookupByPath (db.videos.map applyVideoDefaults) e.relativePath
        = some (applyVideoDefaults r) := by
      refine lookupLast_of_unique VideoData.relativePath
        (List.mem_map_of_mem applyVideoDefaults hr)
        (show (applyVideoDefaults r).relativePath = e.relativePath from hep.symm) ?_
      intro y hy hyp
      obtain ⟨u, hu, rfl⟩ := List.mem_map.1 hy
      have hup : u.relativePath = r.relativePath := by
        rw [show u.relativePath = (applyVideoDefaults u).relativePath from rfl,
          hyp, hep]
      rw [mem_path_inj hVpath hu hr hup]
    have hneeds : (scanNeeds (lookupByPath (db.videos.map applyVideoDefaults))
        (fun id0 => decide (id0 ∈ db.mainThumbs.map Prod.fst)) e).1 = true := by
      rw [scanNeeds_some hme,
        if_pos (Or.inr (show (applyVideoDefaults r).notFound = true from hrnf))]
    obtain ⟨k, hk⟩ := scanBatch_findById_observed hm hVid hVne hfresh hE
      hr heE hme hneeds
    refine ⟨mkScanVideo (some (applyVideoDefaults r)) e (freshId k) now, ?_, ?_⟩
    · rw [scanFiles_videos, getAllVideos_def]
      exact hk
    · obtain ⟨f1, f2, f3, f4, f5, f6, f7, f8, f9, f10⟩ :=
        mkScanVideo_some_fields (applyVideoDefaults r) e (freshId k) now
      refine ⟨mkScanVideo_notFound _ _ _ _, ?_, ?_,
        f1, f2, f3, f4, f5, f6, f7, f9, f8, ?_⟩
      · rw [mkScanVideo_id_some
          (show (applyVideoDefaults r).id ≠ "" from hVne r hr)]
        rfl
      · rw [mkScanVideo_relativePath, hep]
      · rw [f10, applyVideoDefaults_dateAdded, jsOrNat_zero]

/-- Witness for C4 at concrete inputs: the playable record disappears
from an empty observed set and is marked missing verbatim; the missing
image record reappears and is rediscovered. -/
theorem c4_notFound_transitions_amended_witness :
    WellFormedDB mp4DB ∧ FreshIds uuidFixture mp4DB ∧
    WellFormedDB lostJpgDB ∧ FreshIds uuidFixture lostJpgDB ∧
    mp4Video.dateAdded ≠ 0 ∧ mp4Video.contentHash = none ∧
    findById (scanFiles [] mp4DB uuidFixture 7).1.videos mp4Video.id
      = some { mp4Video with notFound := true } ∧
    (∃ r', findById (scanFiles [jpgEntry] lostJpgDB uuidFixture 7).1.videos
        lostJpgVideo.id = some r' ∧ r'.notFound = false ∧
        r'.hidden = (lostJpgVideo.hidden || isJpgName jpgEntry.name) ∧
        r'.dateAdded
          = jsOrNat (jsOrNat lostJpgVideo.dateAdded lostJpgVideo.lastModified) 7) := by
  have h1 := (c4_notFound_transitions_amended [] mp4DB uuidFixture 7 wellFormed_mp4
    uuidFixture_freshIds_mp4).1 mp4Video (by decide) (by decide) (by decide)
  have h2 := (c4_notFound_transitions_amended [jpgEntry] lostJpgDB uuidFixture 7
    wellFormed_lostJpg uuidFixture_freshIds_lostJpg).2 lostJpgVideo (by decide)
    jpgEntry (by decide) (by decide) (by decide) (by decide) (by decide)
  obtain ⟨r', hfind, hnf, hid, hpath, hrat, hseen, htags, hh, hdel, htit, hct,
    hto, hhid, hda⟩ := h2
  exact ⟨wellFormed_mp4, uuidFixture_freshIds_mp4, wellFormed_lostJpg,
    uuidFixture_freshIds_lostJpg, by decide, by decide,
    h1.2 (by decide) (by decide), r', hfind, hnf, hhid, hda⟩

/-! ### Claim C3 -/

/-- C3: under the store invariants (unique non-empty identifiers, unique
paths, no stored thumbnail payloads, collision-free fresh identifiers), a
non-zero run stamp and duplicate-free observed paths, running the sync
reconciliation twice over the same observed file set is idempotent: the
second pass leaves the store — records, thumbnail collections and all —
exactly as the first pass left it, so every record the second pass writes
is value-equal to the record it replaces and the `notFound` transitions
fired by the first pass are stable. -/
theorem c3_scan_idempotent
    (files : List FileEntry) (db : DBState) (freshId freshId' : Nat → String)
    (now now' : Nat) (hWF : WellFormedDB db) (hF : FreshIds freshId db)
    (hnow : now ≠ 0)
    (hpaths : ((files.filter (fun e => decide (e.relativePath ≠ ""))).map
      (fun e => e.relativePath)).Nodup) :
    (scanFiles files (scanFiles files db freshId now).1 freshId' now').1
      = (scanFiles files db freshId now).1 := by
  obtain ⟨hVid, hVpath, hVne, hVthumb⟩ := hWF
  obtain ⟨hinj, hfne, hfresh⟩ := hF
  have hdb1v : (scanFiles files db freshId now).1.videos
      = ((scanStep1 (lookupByPath (db.videos.map applyVideoDefaults))
            (fun id0 => decide (id0 ∈ db.mainThumbs.map Prod.fst)) now freshId
            (files.filter (fun e => decide (e.relativePath ≠ ""))) 0).1
          ++ scanStep2 ((files.filter (fun e => decide (e.relativePath ≠ ""))).map
              (fun e => e.relativePath)) (db.videos.map applyVideoDefaults)).foldl
          (fun acc v => putVideo (stripThumb v) acc) db.videos := by
    rw [scanFiles_videos, getAllVideos_def]
  have hV1nodup : ((scanFiles files db freshId now).1.videos.map VideoData.id).Nodup := by
    rw [hdb1v]
    exact foldl_put_nodup _ _ hVid
  have hmt : (scanFiles files db freshId now).1.mainThumbs = db.mainThumbs :=
    scanFiles_mainThumbs files db freshId now
  have hmarked : ∀ v ∈ (scanFiles files db freshId now).1.videos,
      v.relativePath ∉ (files.filter (fun e => decide (e.relativePath ≠ ""))).map
        (fun e => e.relativePath) → v.notFound = true := by
    rw [hdb1v]
    exact scanPass_unobserved_marked hVid _ now
  refine dbState_ext _ _ ?_ (scanFiles_mainThumbs files _ freshId' now')
    (scanFiles_timelineThumbs files _ freshId' now')
  rw [scanFiles_videos, getAllVideos_def, hmt]
  refine foldl_put_noop _ _ hV1nodup ?_
  intro w hwB2
  rcases List.mem_append.1 hwB2 with hw1 | hw2
  · obtain ⟨e, heE, k, _, hneeds2, rfl⟩ :=
      scanStep1_mem (lookupByPath
          ((scanFiles files db freshId now).1.videos.map applyVideoDefaults))
        (fun id0 => decide (id0 ∈ db.mainThumbs.map Prod.fst)) now' freshId'
        (files.filter (fun e => decide (e.relativePath ≠ ""))) 0 w hw1
    have hrec := scanPass_second_lookup hVid hVpath hVne hinj hfne hfresh
      (fun id0 => decide (id0 ∈ db.mainThumbs.map Prod.fst)) hnow hpaths heE
    rw [← hdb1v] at hrec
    exact hrec (freshId' k) now' hneeds2
  · obtain ⟨vd, hvdL, hvp, hvnf, rfl⟩ := scanStep2_mem hw2
    obtain ⟨v, hvV1, rfl⟩ := List.mem_map.1 hvdL
    exfalso
    have hvp' : v.relativePath ∉ (files.filter
        (fun e => decide (e.relativePath ≠ ""))).map (fun e => e.relativePath) := hvp
    have hvnf' : v.notFound = false := hvnf
    have hmk := hmarked v hvV1 hvp'
    rw [hvnf'] at hmk
    cases hmk

/-- Witness for C3 at concrete inputs: scanning the image library twice
(the first pass rewrites the record for the modified file, the second
pass changes nothing). -/
theorem c3_scan_idempotent_witness :
    WellFormedDB jpgDB ∧ FreshIds uuidFixture jpgDB ∧ (7 : Nat) ≠ 0 ∧
    (([jpgEntry].filter (fun e => decide (e.relativePath ≠ ""))).map
      (fun e => e.relativePath)).Nodup ∧
    (scanFiles [jpgEntry] (scanFiles [jpgEntry] jpgDB uuidFixture 7).1
        uuidFixture 9).1
      = (scanFiles [jpgEntry] jpgDB uuidFixture 7).1 :=
  ⟨wellFormed_jpg, uuidFixture_freshIds_jpg, by decide, by decide,
    c3_scan_idempotent [jpgEntry] jpgDB uuidFixture uuidFixture 7 9 wellFormed_jpg
      uuidFixture_freshIds_jpg (by decide) (by decide)⟩

end VideoLib
